import Mathlib

/-!
Geany export plugin (`plugins/export.c`).

A shallow embedding of the two exporters `write_html_file` and `write_latex_file`
together with the helpers `get_tex_rgb`, `get_tex_style` and `ROTATE_RGB`.

Conventions of the embedding.

* A `GString` is a `List Char`; one `Char` stands for one `gchar` of the document.
* `gint` values are naturals or integers: every quantity the code computes stays far
  below `2 ^ 31` for documents that fit in memory.  The column counter is an `Int`
  because the code stores `-1` in it.
* Undefined behaviour of the C program (an access to the local table `styles` outside
  `[0, STYLE_MAX]`, a remainder by a zero tab width) is the result `none`.
* The cells of the local array `styles`, which the C code does not initialise, start
  from the arbitrary contents `Host.stack`.
* A render loop is a function of a number of passes (`latex_loop`, `html_loop`): it runs
  at most that many passes and stops before when the index reaches the length.  The
  exporters give it one pass per character, which is always enough
  (`latex_loop_finishes`, `html_loop_finishes`).
* The `switch (c)` of a loop returns its effect as a `Pass`: the text it appends to
  `body`, the new `column` and `block_open`, and how far the index moves.
-/

namespace GeanyExport

/-! ## The host: Scintilla, the preferences and the constants from absent headers -/

/-- Everything the exporters read from outside `export.c`. -/
structure Host where
  /-- The constant `STYLE_MAX` of `Scintilla.h` (a header that is not among the sources). -/
  STYLE_MAX : Nat
  /-- The build constant `VERSION` spliced into both templates. -/
  VERSION : List Char
  /-- The constant `GEANY_STRING_UNTITLED`. -/
  GEANY_STRING_UNTITLED : List Char
  /-- The document: the character and the style index stored at every offset. -/
  text : List (Char × Nat)
  /-- Reply to `SCI_GETSTYLEBITS`. -/
  style_bits : Nat
  /-- Reply to `SCI_STYLEGETFORE` for a style index. -/
  style_fore : Nat → Nat
  /-- Reply to `SCI_STYLEGETBACK` for a style index. -/
  style_back : Nat → Nat
  /-- Reply to `SCI_STYLEGETBOLD` for a style index. -/
  style_bold : Nat → Nat
  /-- Reply to `SCI_STYLEGETITALIC` for a style index. -/
  style_italic : Nat → Nat
  /-- Reply to `SCI_STYLEGETSIZE` for style 0. -/
  style_size : Int
  /-- Reply to `SCI_GETZOOM`. -/
  zoom : Int
  /-- The preference `geany->editor_prefs->tab_width`. -/
  tab_width : Int
  /-- Family of the font `geany->interface_prefs->editor_font`. -/
  font_name : List Char
  /-- The field `doc->file_name`; `none` is the C `NULL`. -/
  file_name : Option (List Char)
  /-- Result of `get_date(DATE_TYPE_DEFAULT)`. -/
  date_default : List Char
  /-- Result of `get_date(DATE_TYPE_HTML)`. -/
  date_html : List Char
  /-- Contents of the stack cells of the local array `styles` before it is written. -/
  stack : Nat → Nat → Nat

/-- The call `p_sci->get_length(doc->sci)`. -/
def get_length (h : Host) : Nat := h.text.length

/-- The call `p_sci->get_char_at(doc->sci, i)`: it "takes care of index boundaries and
returns 0 if i is too high". -/
def get_char_at (h : Host) (i : Nat) : Char :=
  match h.text.get? i with
  | some p => p.1
  | none => Char.ofNat 0

/-- The call `p_sci->get_style_at(doc->sci, i)`. -/
def get_style_at (h : Host) (i : Nat) : Nat :=
  match h.text.get? i with
  | some p => p.2
  | none => 0

/-- The function `isspace` of `ctype.h` in the C locale. -/
def isspace (c : Char) : Bool :=
  c = ' ' || c = '\t' || c = '\n' || c = Char.ofNat 11 || c = Char.ofNat 12 || c = '\r'

/-- The decimal digits of a natural, most significant first; `fuel` bounds the number of
digits produced. -/
def dec_digits : Nat → Nat → List Char
  | 0, _ => []
  | fuel + 1, n =>
      if n < 10 then [Char.ofNat (n + 48)]
      else dec_digits fuel (n / 10) ++ [Char.ofNat (n % 10 + 48)]

/-- The conversion `%d` of `printf`. -/
def fmt_d (n : Int) : List Char :=
  if n < 0 then '-' :: dec_digits (n.natAbs + 1) n.natAbs
  else dec_digits (n.toNat + 1) n.toNat

/-- One hexadecimal digit in lower case. -/
def hex_digit (d : Nat) : Char :=
  if d < 10 then Char.ofNat (d + 48) else Char.ofNat (d - 10 + 97)

/-- The hexadecimal digits of a natural, most significant first, at least `width` of them
(padded with `0` on the left); `fuel` bounds the number of digits produced. -/
def hex_digits : Nat → Nat → Nat → List Char
  | 0, _, _ => []
  | fuel + 1, width, n =>
      if n < 16 ∧ width ≤ 1 then [hex_digit n]
      else hex_digits fuel (width - 1) (n / 16) ++ [hex_digit (n % 16)]

/-- The conversion `%06x` of `printf` applied to a non-negative `gint`. -/
def fmt_06x (n : Nat) : List Char := hex_digits (n + 6) 6 n

/-! ## The enum of table columns -/

/-- Column `FORE` of `styles`. -/
def FORE : Nat := 0
/-- Column `BACK` of `styles`. -/
def BACK : Nat := 1
/-- Column `BOLD` of `styles`. -/
def BOLD : Nat := 2
/-- Column `ITALIC` of `styles`. -/
def ITALIC : Nat := 3
/-- Column `USED` of `styles`. -/
def USED : Nat := 4
/-- Number of columns of `styles`. -/
def MAX_TYPES : Nat := 5

/-- The local array `gint styles[STYLE_MAX + 1][MAX_TYPES]`, as a function of the row and
the column; the bound `STYLE_MAX + 1` on the row is checked where the array is accessed. -/
abbrev Styles := Nat → Nat → Nat

/-- The assignment `styles[i][k] = v`. -/
def Styles.set (t : Styles) (i k v : Nat) : Styles :=
  fun i' k' => if i' = i ∧ k' = k then v else t i' k'

/-! ## Helpers of `export.c` -/

/-- The macro `ROTATE_RGB(color)`:
`(((color) & 0xFF0000) >> 16) + ((color) & 0x00FF00) + (((color) & 0x0000FF) << 16)`. -/
def ROTATE_RGB (color : Nat) : Nat :=
  ((color &&& 0xFF0000) >>> 16) + (color &&& 0x00FF00) + ((color &&& 0x0000FF) <<< 16)

/-- The cast `(gint) (x * 10 + 0.5)` of `get_tex_rgb` for `x = n / 256.0`.  The dividend
`n` is an integer below `2 ^ 31` and the divisor a power of two, so the `gdouble`
operations are exact and the value is the rational one; the cast truncates. -/
def tex_scale (n : Nat) : Nat :=
  Nat.floor (((n : ℚ) / 256) * 10 + 1 / 2)

/-- The function `get_tex_rgb`.  The mask `- 16711936` is the 32-bit pattern
`0xFF00FF00`, which is `4278255360` read as a natural. -/
def get_tex_rgb (rgb_colour : Nat) : List Char :=
  let r := tex_scale (rgb_colour % 256)
  let g := tex_scale ((rgb_colour &&& 4278255360) / 256)
  let b := tex_scale ((rgb_colour &&& 0xff0000) / 65536)
  fmt_d (r / 10 : Nat) ++ ['.'] ++ fmt_d (r % 10 : Nat) ++ ", ".toList ++
  fmt_d (g / 10 : Nat) ++ ['.'] ++ fmt_d (g % 10 : Nat) ++ ", ".toList ++
  fmt_d (b / 10 : Nat) ++ ['.'] ++ fmt_d (b % 10 : Nat)

/-- Size of the buffer `static gchar buf[4]` of `get_tex_style`. -/
def get_tex_style_buf_size : Nat := 4

/-- The do-while loop of `get_tex_style`; the result lists `buf[i]`, `buf[i+1]`, ... as
the loop writes them.  Every pass but the last one divides a positive `style` by 26, so
`style + 1` passes are always available in `get_tex_style`. -/
def get_tex_style_loop : Nat → Nat → List Char
  | 0, _ => []
  | fuel + 1, style =>
      -- buf[i] = (style % 26) + 'a'; style /= 26; i++;
      let ch := Char.ofNat (style % 26 + 'a'.toNat)
      let style := style / 26
      -- while (style > 0)
      if style > 0 then ch :: get_tex_style_loop fuel style else [ch]

/-- The function `get_tex_style`: the characters stored in `buf` before the terminating
`'\0'`, which is stored at the index equal to the length of the result. -/
def get_tex_style (style : Nat) : List Char :=
  get_tex_style_loop (style + 1) style

/-! ## The render loops -/

/-- The locals that the `for` loop of an exporter carries from one pass to the next.
`block_open` is the variable of that name in `write_latex_file` and the variable
`span_open` in `write_html_file`. -/
structure Locals where
  /-- The loop index `i`. -/
  i : Nat
  /-- The variable `old_style`. -/
  old_style : Nat
  /-- The variable `column`. -/
  column : Int
  /-- The variable `block_open` (LaTeX) or `span_open` (HTML). -/
  block_open : Bool
  /-- The contents of the `GString` `body`. -/
  body : List Char
  /-- The array `styles`. -/
  styles : Styles

/-- The values of the locals when a render loop starts: `i = 0`, `old_style = 0`,
`column = 0`, no open run, `body = g_string_new("")`. -/
def loop_start (styles : Styles) : Locals :=
  { i := 0, old_style := 0, column := 0, block_open := false, body := [], styles := styles }

/-- The effect of the `switch (c)` of a render loop and of the end of the loop pass. -/
structure Pass where
  /-- The text appended to `body`. -/
  out : List Char
  /-- The value of `column` when the pass ends. -/
  column : Int
  /-- The value of `block_open` (or `span_open`) when the pass ends. -/
  block_open : Bool
  /-- What the pass adds to `i`: 1 for the `i++` of the `for` statement, 2 when the
  `switch` has run its own `i++` to skip the next character. -/
  advance : Nat

/-- The `switch (c)` of `write_latex_file` up to the end of the loop pass, entered with the
given values of `column` and `block_open`.  A pass that leaves the `switch` by `break` runs
`column++`; the pass that leaves it by `continue` does not. -/
def latex_switch (tab_width column : Int) (block_open : Bool) (c c_next : Char) :
    Option Pass :=
  if c = '\r' ∨ c = '\n' then
    if c = '\r' ∧ c_next = '\n' then
      -- continue
      some { out := [], column := column, block_open := block_open, advance := 1 }
    else
      some { out := (if block_open then "\x7d".toList else []) ++ " \\\\\n".toList
             column := -1 + 1, block_open := false, advance := 1 }
  else if c = '\t' then
    if tab_width = 0 then none
    else
      let tab_stop := tab_width - Int.tmod column tab_width
      some { out := "\\hspace*\x7b".toList ++ fmt_d tab_stop ++ "em\x7d".toList
             column := column + (tab_stop - 1) + 1, block_open := block_open, advance := 1 }
  else if c = ' ' then
    if c_next = ' ' then
      some { out := "\x7b\\hspace*\x7b1em\x7d\x7d".toList
             column := column + 1, block_open := block_open, advance := 2 }
    else some { out := [' '], column := column + 1, block_open := block_open, advance := 1 }
  else if c = '{' ∨ c = '}' ∨ c = '_' ∨ c = '&' ∨ c = '$' ∨ c = '#' ∨ c = '%' then
    some { out := ['\\', c], column := column + 1, block_open := block_open, advance := 1 }
  else if c = '\\' then
    some { out := "\\symbol\x7b92\x7d".toList
           column := column + 1, block_open := block_open, advance := 1 }
  else if c = '~' then
    some { out := "\\symbol\x7b126\x7d".toList
           column := column + 1, block_open := block_open, advance := 1 }
  else if c = '^' then
    some { out := "\\symbol\x7b94\x7d".toList
           column := column + 1, block_open := block_open, advance := 1 }
  else if c = '-' then
    if c_next = '-' then
      some { out := "-\\/-".toList, column := column + 1, block_open := block_open,
             advance := 2 }
    else some { out := ['-'], column := column + 1, block_open := block_open, advance := 1 }
  else if c = '<' then
    if c_next = '<' then
      some { out := "<\\/<".toList, column := column + 1, block_open := block_open,
             advance := 2 }
    else some { out := ['<'], column := column + 1, block_open := block_open, advance := 1 }
  else if c = '>' then
    if c_next = '>' then
      some { out := ">\\/>".toList, column := column + 1, block_open := block_open,
             advance := 2 }
    else some { out := ['>'], column := column + 1, block_open := block_open, advance := 1 }
  else some { out := [c], column := column + 1, block_open := block_open, advance := 1 }

/-- The text appended to `body` when `write_latex_file` starts a block for `style`: the
closing of the open block, if any, and `\style<token>{`. -/
def latex_block_start (block_open : Bool) (style : Nat) : List Char :=
  (if block_open then "\x7d\n".toList else []) ++
    "\\style".toList ++ get_tex_style style ++ "\x7b".toList

/-- One pass of the `for` loop of `write_latex_file`, entered with `i < get_length`.  The
store `styles[style][USED] = 1` needs `style <= STYLE_MAX`. -/
def latex_iteration (h : Host) (s : Locals) : Option Locals :=
  let style := get_style_at h s.i
  let c := get_char_at h s.i
  let c_next := get_char_at h (s.i + 1)
  if style ≠ s.old_style ∨ s.block_open = false then
    if style ≤ h.STYLE_MAX then
      (latex_switch h.tab_width s.column true c c_next).map fun p =>
        { i := s.i + p.advance
          old_style := style
          column := p.column
          block_open := p.block_open
          body := s.body ++ latex_block_start s.block_open style ++ p.out
          styles := s.styles.set style USED 1 }
    else none
  else
    (latex_switch h.tab_width s.column s.block_open c c_next).map fun p =>
      { i := s.i + p.advance
        old_style := s.old_style
        column := p.column
        block_open := p.block_open
        body := s.body ++ p.out
        styles := s.styles }

/-- At most `fuel` passes of the `for` loop of `write_latex_file`; the loop stops earlier
when `i < get_length` fails. -/
def latex_loop (h : Host) : Nat → Locals → Option Locals
  | 0, s => some s
  | fuel + 1, s =>
      if s.i < get_length h then (latex_iteration h s).bind (latex_loop h fuel)
      else some s

/-- The text `&nbsp;` appended `tab_stop` times by the inner `for (j = 0; j < tab_stop; j++)`. -/
def html_tab (tab_stop : Int) : List Char :=
  (List.replicate tab_stop.toNat "&nbsp;".toList).flatten

/-- The `switch (c)` of `write_html_file` up to the end of the loop pass, entered with the
given values of `column` and `span_open`. -/
def html_switch (tab_width column : Int) (span_open : Bool) (c c_next : Char) :
    Option Pass :=
  if c = '\r' ∨ c = '\n' then
    if c = '\r' ∧ c_next = '\n' then
      -- continue
      some { out := [], column := column, block_open := span_open, advance := 1 }
    else
      some { out := (if span_open then "</span>".toList else []) ++ "<br />\n".toList
             column := -1 + 1, block_open := false, advance := 1 }
  else if c = '\t' then
    if tab_width = 0 then none
    else
      let tab_stop := tab_width - Int.tmod column tab_width
      some { out := html_tab tab_stop
             column := column + (tab_stop - 1) + 1, block_open := span_open, advance := 1 }
  else if c = ' ' then
    some { out := "&nbsp;".toList, column := column + 1, block_open := span_open,
           advance := 1 }
  else if c = '<' then
    some { out := "&lt;".toList, column := column + 1, block_open := span_open, advance := 1 }
  else if c = '>' then
    some { out := "&gt;".toList, column := column + 1, block_open := span_open, advance := 1 }
  else if c = '&' then
    some { out := "&amp;".toList, column := column + 1, block_open := span_open,
           advance := 1 }
  else some { out := [c], column := column + 1, block_open := span_open, advance := 1 }

/-- The text appended to `body` when `write_html_file` starts a span for `style`: the
closing of the open span, if any, and `<span class="style_N">`. -/
def html_span_start (span_open : Bool) (style : Nat) : List Char :=
  (if span_open then "</span>".toList else []) ++
    "<span class=\"style_".toList ++ fmt_d style ++ "\">".toList

/-- One pass of the `for` loop of `write_html_file`, entered with `i < get_length`.  The
store `styles[style][USED] = 1` needs `style <= STYLE_MAX`. -/
def html_iteration (h : Host) (s : Locals) : Option Locals :=
  let style := get_style_at h s.i
  let c := get_char_at h s.i
  let c_next := get_char_at h (s.i + 1)
  if (style ≠ s.old_style ∨ s.block_open = false) ∧ isspace c = false then
    if style ≤ h.STYLE_MAX then
      (html_switch h.tab_width s.column true c c_next).map fun p =>
        { i := s.i + p.advance
          old_style := style
          column := p.column
          block_open := p.block_open
          body := s.body ++ html_span_start s.block_open style ++ p.out
          styles := s.styles.set style USED 1 }
    else none
  else
    (html_switch h.tab_width s.column s.block_open c c_next).map fun p =>
      { i := s.i + p.advance
        old_style := s.old_style
        column := p.column
        block_open := p.block_open
        body := s.body ++ p.out
        styles := s.styles }

/-- At most `fuel` passes of the `for` loop of `write_html_file`. -/
def html_loop (h : Host) : Nat → Locals → Option Locals
  | 0, s => some s
  | fuel + 1, s =>
      if s.i < get_length h then (html_iteration h s).bind (html_loop h fuel)
      else some s

/-! ## Reading the styles, the style definitions and the templates -/

/-- The first `n` passes of the loop `for (i = 0; i < style_max; i++)` of
`write_latex_file`, which stores the replies of Scintilla in row `i`; a row above
`STYLE_MAX` lies outside the array. -/
def latex_read_styles (h : Host) : Nat → Option Styles
  | 0 => some h.stack
  | i + 1 =>
      (latex_read_styles h i).bind fun t =>
        if i ≤ h.STYLE_MAX then
          some (((((t.set i FORE (h.style_fore i)).set i BACK (h.style_back i)).set i BOLD
            (h.style_bold i)).set i ITALIC (h.style_italic i)).set i USED 0)
        else none

/-- The first `n` passes of the loop `for (i = 0; i < style_max; i++)` of
`write_html_file`; the colours go through `ROTATE_RGB`. -/
def html_read_styles (h : Host) : Nat → Option Styles
  | 0 => some h.stack
  | i + 1 =>
      (html_read_styles h i).bind fun t =>
        if i ≤ h.STYLE_MAX then
          some (((((t.set i FORE (ROTATE_RGB (h.style_fore i))).set i BACK
            (ROTATE_RGB (h.style_back i))).set i BOLD (h.style_bold i)).set i ITALIC
            (h.style_italic i)).set i USED 0)
        else none

/-- The value `style_max = pow(2, SCI_GETSTYLEBITS)`. -/
def style_max (h : Host) : Nat := 2 ^ h.style_bits

/-- The text appended to `cmds` for one row `i` with `styles[i][USED]` set. -/
def latex_cmd (styles : Styles) (i : Nat) : List Char :=
  "\\newcommand\x7b\\style".toList ++ get_tex_style i ++ "\x7d[1]\x7b\\noindent\x7b".toList ++
  (if styles i BOLD ≠ 0 then "\\textbf\x7b".toList else []) ++
  (if styles i ITALIC ≠ 0 then "\\textit\x7b".toList else []) ++
  "\\textcolor[rgb]\x7b".toList ++ get_tex_rgb (styles i FORE) ++ "\x7d\x7b".toList ++
  "\\fcolorbox[rgb]\x7b0, 0, 0\x7d\x7b".toList ++ get_tex_rgb (styles i BACK) ++
  "\x7d\x7b".toList ++ "#1\x7d\x7d".toList ++
  (if styles i BOLD ≠ 0 then ['}'] else []) ++
  (if styles i ITALIC ≠ 0 then ['}'] else []) ++
  "\x7d\x7d\n".toList

/-- The first `n` passes of the loop `for (i = 0; i <= STYLE_MAX; i++)` that fills `cmds`
in `write_latex_file`. -/
def latex_cmds (styles : Styles) : Nat → List Char
  | 0 => []
  | i + 1 => latex_cmds styles i ++ (if styles i USED ≠ 0 then latex_cmd styles i else [])

/-- The text appended to `css` for one row `i` with `styles[i][USED]` set. -/
def html_rule (styles : Styles) (i : Nat) : List Char :=
  "\t.style_".toList ++ fmt_d i ++ "\n\t\x7b\n\t\tcolor: #".toList ++ fmt_06x (styles i FORE) ++
  ";\n\t\tbackground-color: #".toList ++ fmt_06x (styles i BACK) ++ ";\n".toList ++
  (if styles i BOLD ≠ 0 then "\t\tfont-weight: bold;\n".toList else []) ++
  (if styles i ITALIC ≠ 0 then "\t\tfont-style: italic;\n".toList else []) ++
  "\t\x7d\n".toList

/-- The first `n` passes of the loop `for (i = 0; i <= STYLE_MAX; i++)` that fills `css`
in `write_html_file`. -/
def html_rules (styles : Styles) : Nat → List Char
  | 0 => []
  | i + 1 => html_rules styles i ++ (if styles i USED ≠ 0 then html_rule styles i else [])

/-- The unconditional `body` rule that `write_html_file` puts first in `css`. -/
def html_css_head (h : Host) (use_zoom : Bool) : List Char :=
  let font_size := h.style_size + (if use_zoom then h.zoom else 0)
  "\tbody\n\t\x7b\n\t\tfont-family: ".toList ++ h.font_name ++
  ", monospace;\n\t\tfont-size: ".toList ++ fmt_d font_size ++ "pt;\n\t\x7d\n".toList

/-- The macro `TEMPLATE_HTML`. -/
def TEMPLATE_HTML (h : Host) : List Char :=
  ("<!DOCTYPE html PUBLIC \"-//W3C//DTD XHTML 1.0 Strict//EN\"\n" ++
   "  \"http://www.w3.org/TR/xhtml1/DTD/xhtml1-strict.dtd\">\n" ++
   "<html xmlns=\"http://www.w3.org/1999/xhtml\" xml:lang=\"en\" lang=\"en\">\n" ++
   "\n" ++
   "<head>\n" ++
   "\t<title>\x7bexport_filename\x7d</title>\n" ++
   "\t<meta http-equiv=\"content-type\" content=\"text/html;charset=utf-8\" />\n" ++
   "\t<meta name=\"generator\" content=\"Geany ").toList ++ h.VERSION ++ ("\" />\n" ++
   "\t<meta name=\"date\" content=\"\x7bexport_date\x7d\">\n" ++
   "\t<style type=\"text/css\">\n" ++
   "\x7bexport_styles\x7d\n" ++
   "\t</style>\n" ++
   "</head>\n" ++
   "\n" ++
   "<body>\n" ++
   "<p>\n" ++
   "\x7bexport_content\x7d\n" ++
   "</p>\n" ++
   "</body>\n" ++
   "</html>\n").toList

/-- The macro `TEMPLATE_LATEX`. -/
def TEMPLATE_LATEX (h : Host) : List Char :=
  "% \x7bexport_filename\x7d (LaTeX code generated by Geany ".toList ++ h.VERSION ++
  (" on \x7bexport_date\x7d)\n" ++
   "\\documentclass[a4paper]\x7barticle\x7d\n" ++
   "\\usepackage[a4paper,margin=2cm]\x7bgeometry\x7d\n" ++
   "\\usepackage[utf8x]\x7binputenc\x7d\n" ++
   "\\usepackage[T1]\x7bfontenc\x7d\n" ++
   "\\usepackage\x7bcolor\x7d\n" ++
   "\\setlength\x7b\\parindent\x7d\x7b0em\x7d\n" ++
   "\\setlength\x7b\\parskip\x7d\x7b2ex plus1ex minus0.5ex\x7d\n" ++
   "\x7bexport_styles\x7d\n" ++
   "\\begin\x7bdocument\x7d" ++
   "\n" ++
   "\\ttfamily\n" ++
   "\\setlength\x7b\\fboxrule\x7d\x7b0pt\x7d\n" ++
   "\\setlength\x7b\\fboxsep\x7d\x7b0pt\x7d\n" ++
   "\x7bexport_content\x7d" ++
   "\\end\x7bdocument\x7d\n").toList

/-- The placeholder `{export_filename}`. -/
def PH_FILENAME : List Char := "\x7bexport_filename\x7d".toList
/-- The placeholder `{export_date}`. -/
def PH_DATE : List Char := "\x7bexport_date\x7d".toList
/-- The placeholder `{export_styles}`. -/
def PH_STYLES : List Char := "\x7bexport_styles\x7d".toList
/-- The placeholder `{export_content}`. -/
def PH_CONTENT : List Char := "\x7bexport_content\x7d".toList

/-- Modelled from the spec: the scan of `p_utils->string_replace_all` (Geany's `utils.c`,
which is not among the sources), from left to right; `skip` counts the characters of a
matched needle that are still to be dropped. -/
def replace_scan (needle replace : List Char) : List Char → Nat → List Char
  | [], _ => []
  | _ :: rest, skip + 1 => replace_scan needle replace rest skip
  | c :: rest, 0 =>
      if needle.isPrefixOf (c :: rest) then
        replace ++ replace_scan needle replace rest (needle.length - 1)
      else c :: replace_scan needle replace rest 0

/-- Modelled from the spec: `p_utils->string_replace_all` is defined in Geany's `utils.c`,
which is not among the sources.  The spec has the template composer perform "literal
substitution of each placeholder with its corresponding rendered text, verbatim": every
occurrence of `needle` in `haystack`, found from left to right, is replaced by `replace`,
and the inserted text is not searched again. -/
def string_replace_all (haystack needle replace : List Char) : List Char :=
  replace_scan needle replace haystack 0

/-- The argument of the last `string_replace_all`: `doc->file_name`, or
`GEANY_STRING_UNTITLED` when it is `NULL`. -/
def export_filename (h : Host) : List Char :=
  match h.file_name with
  | none => h.GEANY_STRING_UNTITLED
  | some f => f

/-- What an exporter has computed when it calls `write_data`. -/
structure Export where
  /-- The `GString` `body`. -/
  body : List Char
  /-- The array `styles` as the loop over the used styles reads it. -/
  styles : Styles
  /-- The `GString` `cmds` (LaTeX) or `css` (HTML). -/
  defs : List Char
  /-- The text handed to `write_data`. -/
  document : List Char

/-- The render pass of `write_latex_file`: the `for` loop over the document, run with one
unit of fuel per character, and the closing of the block left open.  The guard on `i`
rejects a loop cut short by the fuel; `latex_loop_finishes` shows it never fires. -/
def latex_render (h : Host) (styles : Styles) : Option Locals :=
  (latex_loop h (get_length h) (loop_start styles)).bind fun s =>
    if s.i < get_length h then none
    else if s.block_open then
      some { s with body := s.body ++ "\x7d\n".toList, block_open := false }
    else some s

/-- The function `write_latex_file` up to the call of `write_data`. -/
def latex_export (h : Host) : Option Export :=
  (latex_read_styles h (style_max h)).bind fun styles =>
  (latex_render h styles).bind fun s =>
    -- force writing of style 0: styles[0][USED] = 1
    let styles := s.styles.set 0 USED 1
    let cmds := latex_cmds styles (h.STYLE_MAX + 1)
    let latex := TEMPLATE_LATEX h
    let latex := string_replace_all latex PH_CONTENT s.body
    let latex := string_replace_all latex PH_STYLES cmds
    let latex := string_replace_all latex PH_DATE h.date_default
    let latex := string_replace_all latex PH_FILENAME (export_filename h)
    some { body := s.body, styles := styles, defs := cmds, document := latex }

/-- The text that `write_latex_file` hands to `write_data`. -/
def write_latex_file (h : Host) : Option (List Char) :=
  (latex_export h).map fun e => e.document

/-- The render pass of `write_html_file`: the `for` loop over the document and the
closing of the span left open. -/
def html_render (h : Host) (styles : Styles) : Option Locals :=
  (html_loop h (get_length h) (loop_start styles)).bind fun s =>
    if s.i < get_length h then none
    else if s.block_open then
      some { s with body := s.body ++ "</span>".toList, block_open := false }
    else some s

/-- The function `write_html_file` up to the call of `write_data`. -/
def html_export (h : Host) (use_zoom : Bool) : Option Export :=
  (html_read_styles h (style_max h)).bind fun styles =>
  (html_render h styles).bind fun s =>
    let css := html_css_head h use_zoom ++ html_rules s.styles (h.STYLE_MAX + 1)
    let html := TEMPLATE_HTML h
    let html := string_replace_all html PH_DATE h.date_html
    let html := string_replace_all html PH_CONTENT s.body
    let html := string_replace_all html PH_STYLES css
    let html := string_replace_all html PH_FILENAME (export_filename h)
    some { body := s.body, styles := s.styles, defs := css, document := html }

/-- The text that `write_html_file` hands to `write_data`. -/
def write_html_file (h : Host) (use_zoom : Bool) : Option (List Char) :=
  (html_export h use_zoom).map fun e => e.document

/-! ## Notions used to state the properties -/

/-- The number of occurrences of `pat` in `s` as a block of consecutive characters, each
occurrence counted where it ends: the number of prefixes of `s` that end with `pat`. -/
def occurrences (pat s : List Char) : Nat :=
  ((List.range (s.length + 1)).filter fun k => pat.isSuffixOf (s.take k)).length

/-- The number of `'\n'` characters plus the number of `'\r'` characters that are not
immediately followed by `'\n'`. -/
def line_breaks : List Char → Nat
  | [] => 0
  | c :: rest =>
      (if c = '\n' ∨ (c = '\r' ∧ rest.head? ≠ some '\n') then 1 else 0) + line_breaks rest

/-- The line-break marker of `write_html_file`. -/
def HTML_BREAK : List Char := "<br />\n".toList

/-- The line-break marker of `write_latex_file`: a space, two backslashes, a newline. -/
def LATEX_BREAK : List Char := " \\\\\n".toList

/-- The maximal runs of consecutive characters of equal style, in order: the style of a
run and its characters. -/
def style_runs : List (Char × Nat) → List (Nat × List Char)
  | [] => []
  | (c, st) :: rest =>
      match style_runs rest with
      | [] => [(st, [c])]
      | (st', cs) :: runs =>
          if st = st' then (st, c :: cs) :: runs else (st, [c]) :: (st', cs) :: runs

/-- The markup of one run in HTML: `<span class="style_S">`, the characters of the run and
`</span>`, with `S` the style index in decimal. -/
def html_span (run : Nat × List Char) : List Char :=
  "<span class=\"style_".toList ++ fmt_d run.1 ++ "\">".toList ++ run.2 ++ "</span>".toList

/-- The concatenation of the markup of the maximal runs of a document. -/
def html_runs_markup (text : List (Char × Nat)) : List Char :=
  ((style_runs text).map html_span).flatten

/-- The markup of the runs that remain to be written when the span of style `old_style`
is open (`span_open`) or no span is: an open span of the same style continues with the
first run, otherwise the first run starts its own span. -/
def html_spans_from (span_open : Bool) (old_style : Nat) :
    List (Nat × List Char) → List Char
  | [] => if span_open then "</span>".toList else []
  | (st, cs) :: runs =>
      (if span_open = true ∧ st = old_style then cs ++ "</span>".toList
       else html_span_start span_open st ++ cs ++ "</span>".toList) ++
        (runs.map html_span).flatten

/-- A host for the examples: `STYLE_MAX` 127, five style bits (so `style_max` is 32), tab
width 4, black on white styles, no file name, a stack of zeros, and the given document. -/
def sample_host (text : List (Char × Nat)) : Host where
  STYLE_MAX := 127
  VERSION := "0.15".toList
  GEANY_STRING_UNTITLED := "untitled".toList
  text := text
  style_bits := 5
  style_fore := fun _ => 0
  style_back := fun _ => 0xffffff
  style_bold := fun _ => 0
  style_italic := fun _ => 0
  style_size := 10
  zoom := 0
  tab_width := 4
  font_name := "Monospace".toList
  file_name := none
  date_default := "Thu Jan  1 00:00:00 2009".toList
  date_html := "2009-01-01T00:00:00".toList
  stack := fun _ _ => 0

/-- The fixed-width space construct of `write_latex_file`. -/
def LATEX_HSPACE : List Char := "\x7b\\hspace*\x7b1em\x7d\x7d".toList

/-- The markup of a run of `n` spaces according to the double-space rule: `n / 2` times
the fixed-width space construct, then one plain space when `n` is odd. -/
def latex_spaces_markup (n : Nat) : List Char :=
  (List.replicate (n / 2) LATEX_HSPACE).flatten ++ (if n % 2 = 1 then [' '] else [])

/-- The locals of a render loop that has read "abc" in style 0 and stands at offset 3 in
column 3. -/
def tab_sample_locals : Locals where
  i := 3
  old_style := 0
  column := 3
  block_open := true
  body := "abc".toList
  styles := fun _ _ => 0

/-- The sample host with the document "a" in style 0 and a value left on the stack in the
cell that becomes `styles[32][USED]`; with five style bits the reader loop of an
exporter initialises the rows 0 to 31 only. -/
def leftover_host : Host :=
  { sample_host [('a', 0)] with stack := fun i k => if i = 32 ∧ k = USED then 1 else 0 }

/-- The sample host with the document `{export_styles}` in style 0. -/
def placeholder_host : Host :=
  sample_host (PH_STYLES.map fun c => (c, 0))

/-- The scan of `fill_template`: at every position outside a matched placeholder the
first placeholder of `subs` that starts there is replaced by its value. -/
def fill_scan (subs : List (List Char × List Char)) : List Char → Nat → List Char
  | [], _ => []
  | _ :: rest, skip + 1 => fill_scan subs rest skip
  | c :: rest, 0 =>
      match subs.find? (fun p => p.1.isPrefixOf (c :: rest)) with
      | some p => p.2 ++ fill_scan subs rest (p.1.length - 1)
      | none => c :: fill_scan subs rest 0

/-- The skeleton `template` with the four placeholders replaced by the file name, the
date, the style definitions and the body, each value inserted as it is: the values are
not searched for placeholders. -/
def fill_template (template filename date defs body : List Char) : List Char :=
  fill_scan [(PH_FILENAME, filename), (PH_DATE, date), (PH_STYLES, defs), (PH_CONTENT, body)]
    template 0

/-- The scaled value of a colour channel as the statements give it: `channel / 256 * 10`
rounded half up, in integer arithmetic. -/
def tex_scaled (channel : Nat) : Nat := (10 * channel + 128) / 256

/-- A component of the colour triple of LaTeX as the statements give it: the scaled value
divided by 10, a point, and the scaled value modulo 10, both in decimal. -/
def tex_component (channel : Nat) : List Char :=
  (Nat.repr (tex_scaled channel / 10)).toList ++ ['.'] ++
    (Nat.repr (tex_scaled channel % 10)).toList

/-- The two hexadecimal digits of a byte, the high one first. -/
def hex_byte (b : Nat) : List Char := [hex_digit (b / 16), hex_digit (b % 16)]

/-- The value of a hexadecimal digit in lower case. -/
def hex_value (c : Char) : Nat :=
  if '0' ≤ c ∧ c ≤ '9' then c.toNat - '0'.toNat else c.toNat - 'a'.toNat + 10

/-- The text that `write_latex_file` appends for a pair of `c` among `-`, `<`, `>`: the
character, the command that breaks the ligature, the character again. -/
def LATEX_PAIR (c : Char) : List Char := [c, '\\', '/', c]

/-- The markup of a run of `n` characters `c` according to the ligature rule: `n / 2`
times the text of a pair, then one plain `c` when `n` is odd. -/
def latex_pairs_markup (c : Char) (n : Nat) : List Char :=
  (List.replicate (n / 2) (LATEX_PAIR c)).flatten ++ (if n % 2 = 1 then [c] else [])

/-- The sample host with the document "a" in style 0 and eight style bits, so that
`style_max` is 256 while the table has `STYLE_MAX + 1 = 128` rows. -/
def wide_host : Host :=
  { sample_host [('a', 0)] with style_bits := 8 }

/-- The scan of a LaTeX text from the left that follows the depth of the braces: a
backslash and the character after it are one escaped unit (`escaped` tells that the
character before was such a backslash), an unescaped opening brace adds one to the depth
and an unescaped closing brace takes one away.  The result is the depth at the end, or
nothing when a closing brace is met at the depth 0. -/
def brace_scan : List Char → Bool → Nat → Option Nat
  | [], _, depth => some depth
  | _ :: rest, true, depth => brace_scan rest false depth
  | c :: rest, false, depth =>
      if c = '\\' then brace_scan rest true depth
      else if c = '{' then brace_scan rest false (depth + 1)
      else if c = '}' then (if depth = 0 then none else brace_scan rest false (depth - 1))
      else brace_scan rest false depth

/-- The text `<span class="style_` with which an opening marker of the HTML body begins. -/
def HTML_SPAN_HEAD : List Char := "<span class=\"style_".toList

/-- The closing marker `</span>` of the HTML body. -/
def HTML_SPAN_CLOSE : List Char := "</span>".toList

/-- The token of an opening marker `<span class="style_N">` that stands at the head of a
text: the decimal digits `N`, at least one, between the head of the marker and the two
characters that end it. -/
def html_open_token (l : List Char) : Option (List Char) :=
  if HTML_SPAN_HEAD.isPrefixOf l then
    if (l.drop HTML_SPAN_HEAD.length).takeWhile Char.isDigit ≠ [] ∧
        "\">".toList.isPrefixOf (l.drop (HTML_SPAN_HEAD.length +
          ((l.drop HTML_SPAN_HEAD.length).takeWhile Char.isDigit).length)) then
      some ((l.drop HTML_SPAN_HEAD.length).takeWhile Char.isDigit)
    else none
  else none

/-- The length of the marker, `</span>` or `<span class="style_N">`, that stands at the
head of a text, and 0 when the text does not start with a marker. -/
def html_marker_length (l : List Char) : Nat :=
  if HTML_SPAN_CLOSE.isPrefixOf l then HTML_SPAN_CLOSE.length
  else
    match html_open_token l with
    | some digits => HTML_SPAN_HEAD.length + digits.length + 2
    | none => 0

/-- The removal of the markers `<span class="style_N">` and `</span>` from a text in one
pass from the left; `skip` counts the characters of a marker that are still to be
dropped. -/
def html_strip_scan : List Char → Nat → List Char
  | [], _ => []
  | _ :: rest, skip + 1 => html_strip_scan rest skip
  | c :: rest, 0 =>
      if html_marker_length (c :: rest) = 0 then c :: html_strip_scan rest 0
      else html_strip_scan rest (html_marker_length (c :: rest) - 1)

/-- The entity that stands at the head of a text, as the character it denotes and its
length: `&nbsp;` is the space, `&lt;` is `<`, `&gt;` is `>`, `&amp;` is `&`. -/
def html_entity (l : List Char) : Option (Char × Nat) :=
  if "&nbsp;".toList.isPrefixOf l then some (' ', 6)
  else if "&lt;".toList.isPrefixOf l then some ('<', 4)
  else if "&gt;".toList.isPrefixOf l then some ('>', 4)
  else if "&amp;".toList.isPrefixOf l then some ('&', 5)
  else none

/-- The decoding of the four entities in one pass from the left: the text that replaces
an entity is not decoded again; `skip` counts the characters of an entity that are still
to be dropped. -/
def html_decode_scan : List Char → Nat → List Char
  | [], _ => []
  | _ :: rest, skip + 1 => html_decode_scan rest skip
  | c :: rest, 0 =>
      match html_entity (c :: rest) with
      | some (d, n) => d :: html_decode_scan rest (n - 1)
      | none => c :: html_decode_scan rest 0

/-- The text that the decoding reads back as the character `c`: the entity of a space,
`<`, `>` or `&`, and the character itself otherwise. -/
def html_encoded (c : Char) : List Char :=
  if c = ' ' then "&nbsp;".toList
  else if c = '<' then "&lt;".toList
  else if c = '>' then "&gt;".toList
  else if c = '&' then "&amp;".toList
  else [c]

/-- The tokens of the opening markers of a text, in order, found in one pass from the
left: `token` gives the token of the marker that stands at the head of a text, if any,
and a marker with the token `tk` has `overhead + tk.length + 1` characters; `skip` counts
the characters of a marker that are still to be passed. -/
def tokens_scan (token : List Char → Option (List Char)) (overhead : Nat) :
    List Char → Nat → List (List Char)
  | [], _ => []
  | _ :: rest, skip + 1 => tokens_scan token overhead rest skip
  | c :: rest, 0 =>
      match token (c :: rest) with
      | some tk => tk :: tokens_scan token overhead rest (overhead + tk.length)
      | none => tokens_scan token overhead rest 0

/-- The tokens `N` of the opening markers `<span class="style_N">` of an HTML body. -/
def html_open_tokens (body : List Char) : List (List Char) :=
  tokens_scan html_open_token (HTML_SPAN_HEAD.length + 1) body 0

/-- The text `\style` with which an opening marker of the LaTeX body begins. -/
def LATEX_BLOCK_HEAD : List Char := "\\style".toList

/-- The token of an opening marker `\style<token>{` that stands at the head of a text:
the lower case letters, at least one, between the head of the marker and the brace. -/
def latex_open_token (l : List Char) : Option (List Char) :=
  if LATEX_BLOCK_HEAD.isPrefixOf l then
    if (l.drop LATEX_BLOCK_HEAD.length).takeWhile Char.isLower ≠ [] ∧
        ['{'].isPrefixOf (l.drop (LATEX_BLOCK_HEAD.length +
          ((l.drop LATEX_BLOCK_HEAD.length).takeWhile Char.isLower).length)) then
      some ((l.drop LATEX_BLOCK_HEAD.length).takeWhile Char.isLower)
    else none
  else none

/-- The tokens of the opening markers `\style<token>{` of a LaTeX body. -/
def latex_open_tokens (body : List Char) : List (List Char) :=
  tokens_scan latex_open_token LATEX_BLOCK_HEAD.length body 0

/-- The number that a text of decimal digits denotes. -/
def dec_value (l : List Char) : Nat :=
  l.foldl (fun a c => 10 * a + (c.toNat - 48)) 0

/-- The rows of the table for which an exporter writes a style definition, in the order
of the definitions: the rows `0` to `STYLE_MAX` whose `USED` cell is set. -/
def defined_rows (h : Host) (styles : Styles) : List Nat :=
  (List.range (h.STYLE_MAX + 1)).filter fun i => decide (styles i USED ≠ 0)

/-! ## Reading the document -/

/-- Below the length, the document splits at `i` into the pair read at `i` and the rest. -/
theorem text_drop_eq (h : Host) (i : Nat) (hi : i < get_length h) :
    h.text.drop i = (get_char_at h i, get_style_at h i) :: h.text.drop (i + 1) := by
  unfold get_length at hi
  rw [List.drop_eq_getElem_cons hi]
  simp [get_char_at, get_style_at, List.get?_eq_getElem?, List.getElem?_eq_getElem hi]

/-- The look-ahead reads the head of the rest of the document, or the sentinel 0. -/
theorem get_char_at_eq_head (h : Host) (i : Nat) :
    get_char_at h i = ((h.text.drop i).head?.map Prod.fst).getD (Char.ofNat 0) := by
  unfold get_char_at
  rw [List.get?_eq_getElem?, List.head?_drop]
  cases h.text[i]? <;> rfl

/-- The pair read below the length is an element of the document. -/
theorem text_mem (h : Host) (i : Nat) (hi : i < get_length h) :
    (get_char_at h i, get_style_at h i) ∈ h.text := by
  have hd := text_drop_eq h i hi
  have : (get_char_at h i, get_style_at h i) ∈ h.text.drop i := by
    rw [hd]; exact List.mem_cons_self _ _
  exact List.mem_of_mem_drop this

/-! ## Decimal digits -/

/-- The characters of `dec_digits` are decimal digits. -/
theorem dec_digits_isDigit (fuel n : Nat) : ∀ c ∈ dec_digits fuel n, c.isDigit = true := by
  induction fuel generalizing n with
  | zero => intro c hc; simp [dec_digits] at hc
  | succ fuel ih =>
    intro c hc
    unfold dec_digits at hc
    split_ifs at hc with h10
    · simp only [List.mem_singleton] at hc
      subst hc
      interval_cases n <;> decide
    · rw [List.mem_append] at hc
      rcases hc with hc | hc
      · exact ih _ c hc
      · simp only [List.mem_singleton] at hc
        subst hc
        have : n % 10 < 10 := Nat.mod_lt _ (by norm_num)
        generalize n % 10 = d at this
        interval_cases d <;> decide

/-- A character that is neither a digit nor the minus sign does not occur in `fmt_d`. -/
theorem not_mem_fmt_d (n : Int) (c : Char) (hd : c.isDigit = false) (hm : c ≠ '-') :
    c ∉ fmt_d n := by
  intro hc
  unfold fmt_d at hc
  split_ifs at hc
  · rcases List.mem_cons.mp hc with hc | hc
    · exact hm hc
    · have := dec_digits_isDigit _ _ c hc
      simp [hd] at this
  · have := dec_digits_isDigit _ _ c hc
    simp [hd] at this

/-! ## Counting occurrences -/

/-- Appending one character adds an occurrence exactly when the new text ends with the
pattern. -/
theorem occurrences_concat (pat s : List Char) (c : Char) :
    occurrences pat (s ++ [c]) =
      occurrences pat s + (if pat.isSuffixOf (s ++ [c]) then 1 else 0) := by
  unfold occurrences
  have hlen : (s ++ [c]).length + 1 = (s.length + 1) + 1 := by simp
  rw [hlen, List.range_succ, List.filter_append, List.length_append]
  congr 1
  · congr 1
    apply List.filter_congr
    intro k hk
    rw [List.mem_range] at hk
    rw [List.take_append_of_le_length (by omega)]
  · have : List.take (s.length + 1) (s ++ [c]) = s ++ [c] := by
      rw [List.take_of_length_le]; simp
    simp only [List.filter_cons, List.filter_nil, this]
    split_ifs <;> rfl

/-- Text without the last character of the pattern adds no occurrence. -/
theorem occurrences_append_of_not_mem (pat s x : List Char) (m : Char)
    (hlast : pat.getLast? = some m) (hx : m ∉ x) :
    occurrences pat (s ++ x) = occurrences pat s := by
  induction x generalizing s with
  | nil => simp
  | cons c x ih =>
    have hc : m ≠ c := fun hmc => hx (by rw [hmc]; exact List.mem_cons_self _ _)
    have hx2 : m ∉ x := fun hm => hx (List.mem_cons_of_mem _ hm)
    have happ : s ++ c :: x = (s ++ [c]) ++ x := by simp
    rw [happ, ih (s ++ [c]) hx2, occurrences_concat]
    have hns : pat.isSuffixOf (s ++ [c]) = false := by
      rw [Bool.eq_false_iff]
      intro hsuf
      rw [List.isSuffixOf_iff_suffix] at hsuf
      obtain ⟨t, ht⟩ := hsuf
      have h1 : (t ++ pat).getLast? = (s ++ [c]).getLast? := by rw [ht]
      rw [List.getLast?_append, hlast] at h1
      simp at h1
      exact hc h1
    simp [hns]

/-! ## Case analysis of the two `switch` statements -/

/-- Case analysis of the `switch` of `write_html_file`, one case per exit. -/
theorem html_switch_elim {motive : Option Pass → Prop} (tw col : Int) (op : Bool)
    (c cn : Char)
    (h_crlf : c = '\r' → cn = '\n' →
      motive (some { out := [], column := col, block_open := op, advance := 1 }))
    (h_break : (c = '\r' ∨ c = '\n') → ¬(c = '\r' ∧ cn = '\n') →
      motive (some { out := (if op then "</span>".toList else []) ++ "<br />\n".toList
                     column := -1 + 1, block_open := false, advance := 1 }))
    (h_tab0 : c = '\t' → tw = 0 → motive none)
    (h_tab : c = '\t' → tw ≠ 0 →
      motive (some { out := html_tab (tw - Int.tmod col tw)
                     column := col + (tw - Int.tmod col tw - 1) + 1
                     block_open := op, advance := 1 }))
    (h_space : c = ' ' →
      motive (some { out := "&nbsp;".toList, column := col + 1, block_open := op,
                     advance := 1 }))
    (h_lt : c = '<' →
      motive (some { out := "&lt;".toList, column := col + 1, block_open := op,
                     advance := 1 }))
    (h_gt : c = '>' →
      motive (some { out := "&gt;".toList, column := col + 1, block_open := op,
                     advance := 1 }))
    (h_amp : c = '&' →
      motive (some { out := "&amp;".toList, column := col + 1, block_open := op,
                     advance := 1 }))
    (h_plain : c ≠ '\r' → c ≠ '\n' → c ≠ '\t' → c ≠ ' ' → c ≠ '<' → c ≠ '>' → c ≠ '&' →
      motive (some { out := [c], column := col + 1, block_open := op, advance := 1 })) :
    motive (html_switch tw col op c cn) := by
  unfold html_switch
  by_cases h1 : c = '\r' ∨ c = '\n'
  · rw [if_pos h1]
    by_cases h2 : c = '\r' ∧ cn = '\n'
    · rw [if_pos h2]; exact h_crlf h2.1 h2.2
    · rw [if_neg h2]; exact h_break h1 h2
  rw [if_neg h1]
  have hr : c ≠ '\r' := fun hc => h1 (Or.inl hc)
  have hn : c ≠ '\n' := fun hc => h1 (Or.inr hc)
  by_cases h2 : c = '\t'
  · rw [if_pos h2]
    by_cases h0 : tw = 0
    · rw [if_pos h0]; exact h_tab0 h2 h0
    · rw [if_neg h0]; exact h_tab h2 h0
  rw [if_neg h2]
  by_cases h3 : c = ' '
  · rw [if_pos h3]; exact h_space h3
  rw [if_neg h3]
  by_cases h4 : c = '<'
  · rw [if_pos h4]; exact h_lt h4
  rw [if_neg h4]
  by_cases h5 : c = '>'
  · rw [if_pos h5]; exact h_gt h5
  rw [if_neg h5]
  by_cases h6 : c = '&'
  · rw [if_pos h6]; exact h_amp h6
  rw [if_neg h6]
  exact h_plain hr hn h2 h3 h4 h5 h6

/-- Case analysis of the `switch` of `write_latex_file`, one case per exit. -/
theorem latex_switch_elim {motive : Option Pass → Prop} (tw col : Int) (op : Bool)
    (c cn : Char)
    (h_crlf : c = '\r' → cn = '\n' →
      motive (some { out := [], column := col, block_open := op, advance := 1 }))
    (h_break : (c = '\r' ∨ c = '\n') → ¬(c = '\r' ∧ cn = '\n') →
      motive (some { out := (if op then "\x7d".toList else []) ++ " \\\\\n".toList
                     column := -1 + 1, block_open := false, advance := 1 }))
    (h_tab0 : c = '\t' → tw = 0 → motive none)
    (h_tab : c = '\t' → tw ≠ 0 →
      motive (some { out := "\\hspace*\x7b".toList ++ fmt_d (tw - Int.tmod col tw) ++
                       "em\x7d".toList
                     column := col + (tw - Int.tmod col tw - 1) + 1
                     block_open := op, advance := 1 }))
    (h_space2 : c = ' ' → cn = ' ' →
      motive (some { out := "\x7b\\hspace*\x7b1em\x7d\x7d".toList
                     column := col + 1, block_open := op, advance := 2 }))
    (h_space1 : c = ' ' → cn ≠ ' ' →
      motive (some { out := [' '], column := col + 1, block_open := op, advance := 1 }))
    (h_special : (c = '{' ∨ c = '}' ∨ c = '_' ∨ c = '&' ∨ c = '$' ∨ c = '#' ∨ c = '%') →
      motive (some { out := ['\\', c], column := col + 1, block_open := op, advance := 1 }))
    (h_backslash : c = '\\' →
      motive (some { out := "\\symbol\x7b92\x7d".toList
                     column := col + 1, block_open := op, advance := 1 }))
    (h_tilde : c = '~' →
      motive (some { out := "\\symbol\x7b126\x7d".toList
                     column := col + 1, block_open := op, advance := 1 }))
    (h_caret : c = '^' →
      motive (some { out := "\\symbol\x7b94\x7d".toList
                     column := col + 1, block_open := op, advance := 1 }))
    (h_dash2 : c = '-' → cn = '-' →
      motive (some { out := "-\\/-".toList, column := col + 1, block_open := op,
                     advance := 2 }))
    (h_dash1 : c = '-' → cn ≠ '-' →
      motive (some { out := ['-'], column := col + 1, block_open := op, advance := 1 }))
    (h_lt2 : c = '<' → cn = '<' →
      motive (some { out := "<\\/<".toList, column := col + 1, block_open := op,
                     advance := 2 }))
    (h_lt1 : c = '<' → cn ≠ '<' →
      motive (some { out := ['<'], column := col + 1, block_open := op, advance := 1 }))
    (h_gt2 : c = '>' → cn = '>' →
      motive (some { out := ">\\/>".toList, column := col + 1, block_open := op,
                     advance := 2 }))
    (h_gt1 : c = '>' → cn ≠ '>' →
      motive (some { out := ['>'], column := col + 1, block_open := op, advance := 1 }))
    (h_plain : c ≠ '\r' → c ≠ '\n' → c ≠ '\t' → c ≠ ' ' →
      ¬(c = '{' ∨ c = '}' ∨ c = '_' ∨ c = '&' ∨ c = '$' ∨ c = '#' ∨ c = '%') →
      c ≠ '\\' → c ≠ '~' → c ≠ '^' → c ≠ '-' → c ≠ '<' → c ≠ '>' →
      motive (some { out := [c], column := col + 1, block_open := op, advance := 1 })) :
    motive (latex_switch tw col op c cn) := by
  unfold latex_switch
  by_cases h1 : c = '\r' ∨ c = '\n'
  · rw [if_pos h1]
    by_cases h2 : c = '\r' ∧ cn = '\n'
    · rw [if_pos h2]; exact h_crlf h2.1 h2.2
    · rw [if_neg h2]; exact h_break h1 h2
  rw [if_neg h1]
  have hr : c ≠ '\r' := fun hc => h1 (Or.inl hc)
  have hn : c ≠ '\n' := fun hc => h1 (Or.inr hc)
  by_cases h2 : c = '\t'
  · rw [if_pos h2]
    by_cases h0 : tw = 0
    · rw [if_pos h0]; exact h_tab0 h2 h0
    · rw [if_neg h0]; exact h_tab h2 h0
  rw [if_neg h2]
  by_cases h3 : c = ' '
  · rw [if_pos h3]
    by_cases hn3 : cn = ' '
    · rw [if_pos hn3]; exact h_space2 h3 hn3
    · rw [if_neg hn3]; exact h_space1 h3 hn3
  rw [if_neg h3]
  by_cases h4 : c = '{' ∨ c = '}' ∨ c = '_' ∨ c = '&' ∨ c = '$' ∨ c = '#' ∨ c = '%'
  · rw [if_pos h4]; exact h_special h4
  rw [if_neg h4]
  by_cases h5 : c = '\\'
  · rw [if_pos h5]; exact h_backslash h5
  rw [if_neg h5]
  by_cases h6 : c = '~'
  · rw [if_pos h6]; exact h_tilde h6
  rw [if_neg h6]
  by_cases h7 : c = '^'
  · rw [if_pos h7]; exact h_caret h7
  rw [if_neg h7]
  by_cases h8 : c = '-'
  · rw [if_pos h8]
    by_cases hn8 : cn = '-'
    · rw [if_pos hn8]; exact h_dash2 h8 hn8
    · rw [if_neg hn8]; exact h_dash1 h8 hn8
  rw [if_neg h8]
  by_cases h9 : c = '<'
  · rw [if_pos h9]
    by_cases hn9 : cn = '<'
    · rw [if_pos hn9]; exact h_lt2 h9 hn9
    · rw [if_neg hn9]; exact h_lt1 h9 hn9
  rw [if_neg h9]
  by_cases h10 : c = '>'
  · rw [if_pos h10]
    by_cases hn10 : cn = '>'
    · rw [if_pos hn10]; exact h_gt2 h10 hn10
    · rw [if_neg hn10]; exact h_gt1 h10 hn10
  rw [if_neg h10]
  exact h_plain hr hn h2 h3 h4 h5 h6 h7 h8 h9 h10

/-! ## The render loops: definedness and termination -/

/-- The `switch` of the HTML loop is defined when the tab width is not zero. -/
theorem html_switch_defined (tw col : Int) (op : Bool) (c cn : Char) (htab : tw ≠ 0) :
    ∃ p, html_switch tw col op c cn = some p := by
  apply html_switch_elim (motive := fun r => ∃ p, r = some p) tw col op c cn <;>
    intros <;> first
    | exact ⟨_, rfl⟩
    | contradiction

/-- A pass of the HTML loop advances the index by one. -/
theorem html_switch_advance (tw col : Int) (op : Bool) (c cn : Char) :
    ∀ p, html_switch tw col op c cn = some p → p.advance = 1 := by
  apply html_switch_elim (motive := fun r => ∀ p, r = some p → p.advance = 1)
    tw col op c cn <;> intros <;> first
    | (rename_i p hp; cases hp; rfl)
    | (rename_i p hp; cases hp)

/-- The `switch` of the LaTeX loop is defined when the tab width is not zero. -/
theorem latex_switch_defined (tw col : Int) (op : Bool) (c cn : Char) (htab : tw ≠ 0) :
    ∃ p, latex_switch tw col op c cn = some p := by
  apply latex_switch_elim (motive := fun r => ∃ p, r = some p) tw col op c cn <;>
    intros <;> first
    | exact ⟨_, rfl⟩
    | contradiction

/-- A pass of the LaTeX loop advances the index by one, or by two when it consumes a
pair of equal characters. -/
theorem latex_switch_advance (tw col : Int) (op : Bool) (c cn : Char) :
    ∀ p, latex_switch tw col op c cn = some p →
      p.advance = 1 ∨ (p.advance = 2 ∧ c = cn ∧ (c = ' ' ∨ c = '-' ∨ c = '<' ∨ c = '>')) := by
  apply latex_switch_elim (motive := fun r => ∀ p, r = some p →
      p.advance = 1 ∨ (p.advance = 2 ∧ c = cn ∧ (c = ' ' ∨ c = '-' ∨ c = '<' ∨ c = '>')))
    tw col op c cn <;> intros <;> first
    | (rename_i p hp; cases hp; exact Or.inl rfl)
    | (rename_i h1 h2 p hp; cases hp; subst h1; subst h2; exact Or.inr ⟨rfl, rfl, by simp⟩)
    | (rename_i p hp; cases hp)

/-- What a pass of the HTML loop computes, in terms of the result of its `switch`. -/
theorem html_iteration_eq (h : Host) (s s' : Locals)
    (hit : html_iteration h s = some s') :
    ∃ p, html_switch h.tab_width s.column
        (if (get_style_at h s.i ≠ s.old_style ∨ s.block_open = false) ∧
            isspace (get_char_at h s.i) = false then true else s.block_open)
        (get_char_at h s.i) (get_char_at h (s.i + 1)) = some p ∧
      s' = (if (get_style_at h s.i ≠ s.old_style ∨ s.block_open = false) ∧
            isspace (get_char_at h s.i) = false then
          { i := s.i + p.advance
            old_style := get_style_at h s.i
            column := p.column
            block_open := p.block_open
            body := s.body ++ html_span_start s.block_open (get_style_at h s.i) ++ p.out
            styles := s.styles.set (get_style_at h s.i) USED 1 }
        else
          { i := s.i + p.advance
            old_style := s.old_style
            column := p.column
            block_open := p.block_open
            body := s.body ++ p.out
            styles := s.styles }) ∧
      ((get_style_at h s.i ≠ s.old_style ∨ s.block_open = false) ∧
            isspace (get_char_at h s.i) = false → get_style_at h s.i ≤ h.STYLE_MAX) := by
  unfold html_iteration at hit
  simp only at hit
  by_cases hb : (get_style_at h s.i ≠ s.old_style ∨ s.block_open = false) ∧
      isspace (get_char_at h s.i) = false
  · rw [if_pos hb] at hit
    by_cases hst : get_style_at h s.i ≤ h.STYLE_MAX
    · rw [if_pos hst] at hit
      simp only [if_pos hb]
      cases hsw : html_switch h.tab_width s.column true (get_char_at h s.i)
          (get_char_at h (s.i + 1)) with
      | none => rw [hsw] at hit; simp at hit
      | some p =>
        rw [hsw] at hit
        simp only [Option.map_some', Option.some.injEq] at hit
        exact ⟨p, rfl, hit.symm, fun _ => hst⟩
    · rw [if_neg hst] at hit; simp at hit
  · rw [if_neg hb] at hit
    simp only [if_neg hb]
    cases hsw : html_switch h.tab_width s.column s.block_open (get_char_at h s.i)
        (get_char_at h (s.i + 1)) with
    | none => rw [hsw] at hit; simp at hit
    | some p =>
      rw [hsw] at hit
      simp only [Option.map_some', Option.some.injEq] at hit
      exact ⟨p, rfl, hit.symm, fun hb' => absurd hb' hb⟩

/-- What a pass of the LaTeX loop computes, in terms of the result of its `switch`. -/
theorem latex_iteration_eq (h : Host) (s s' : Locals)
    (hit : latex_iteration h s = some s') :
    ∃ p, latex_switch h.tab_width s.column true
        (get_char_at h s.i) (get_char_at h (s.i + 1)) = some p ∧
      s' = (if get_style_at h s.i ≠ s.old_style ∨ s.block_open = false then
          { i := s.i + p.advance
            old_style := get_style_at h s.i
            column := p.column
            block_open := p.block_open
            body := s.body ++ latex_block_start s.block_open (get_style_at h s.i) ++ p.out
            styles := s.styles.set (get_style_at h s.i) USED 1 }
        else
          { i := s.i + p.advance
            old_style := get_style_at h s.i
            column := p.column
            block_open := p.block_open
            body := s.body ++ p.out
            styles := s.styles }) ∧
      ((get_style_at h s.i ≠ s.old_style ∨ s.block_open = false) →
        get_style_at h s.i ≤ h.STYLE_MAX) := by
  unfold latex_iteration at hit
  simp only at hit
  by_cases hb : get_style_at h s.i ≠ s.old_style ∨ s.block_open = false
  · rw [if_pos hb] at hit
    by_cases hst : get_style_at h s.i ≤ h.STYLE_MAX
    · rw [if_pos hst] at hit
      simp only [if_pos hb]
      cases hsw : latex_switch h.tab_width s.column true (get_char_at h s.i)
          (get_char_at h (s.i + 1)) with
      | none => rw [hsw] at hit; simp at hit
      | some p =>
        rw [hsw] at hit
        simp only [Option.map_some', Option.some.injEq] at hit
        exact ⟨p, rfl, hit.symm, fun _ => hst⟩
    · rw [if_neg hst] at hit; simp at hit
  · rw [if_neg hb] at hit
    simp only [if_neg hb]
    have hop : s.block_open = true := by
      by_contra hne
      exact hb (Or.inr (by simpa using hne))
    have hos : get_style_at h s.i = s.old_style := by
      by_contra hne
      exact hb (Or.inl hne)
    rw [hop] at hit
    cases hsw : latex_switch h.tab_width s.column true (get_char_at h s.i)
        (get_char_at h (s.i + 1)) with
    | none => rw [hsw] at hit; simp at hit
    | some p =>
      rw [hsw] at hit
      simp only [Option.map_some', Option.some.injEq] at hit
      refine ⟨p, rfl, ?_, fun hb' => absurd hb' hb⟩
      rw [hos]
      exact hit.symm

/-- A pass of the HTML loop is defined when the style read is a row of the table and the
tab width is not zero. -/
theorem html_iteration_defined (h : Host) (s : Locals)
    (hst : get_style_at h s.i ≤ h.STYLE_MAX) (htab : h.tab_width ≠ 0) :
    ∃ s', html_iteration h s = some s' := by
  unfold html_iteration
  simp only [hst, if_true]
  split_ifs
  · obtain ⟨p, hp⟩ := html_switch_defined h.tab_width s.column true
      (get_char_at h s.i) (get_char_at h (s.i + 1)) htab
    rw [hp]
    exact ⟨_, rfl⟩
  · obtain ⟨p, hp⟩ := html_switch_defined h.tab_width s.column s.block_open
      (get_char_at h s.i) (get_char_at h (s.i + 1)) htab
    rw [hp]
    exact ⟨_, rfl⟩

/-- A pass of the LaTeX loop is defined under the same conditions. -/
theorem latex_iteration_defined (h : Host) (s : Locals)
    (hst : get_style_at h s.i ≤ h.STYLE_MAX) (htab : h.tab_width ≠ 0) :
    ∃ s', latex_iteration h s = some s' := by
  unfold latex_iteration
  simp only [hst, if_true]
  split_ifs
  · obtain ⟨p, hp⟩ := latex_switch_defined h.tab_width s.column true
      (get_char_at h s.i) (get_char_at h (s.i + 1)) htab
    rw [hp]
    exact ⟨_, rfl⟩
  · obtain ⟨p, hp⟩ := latex_switch_defined h.tab_width s.column s.block_open
      (get_char_at h s.i) (get_char_at h (s.i + 1)) htab
    rw [hp]
    exact ⟨_, rfl⟩

/-- A pass of the HTML loop advances the index by one. -/
theorem html_iteration_advances (h : Host) (s s' : Locals)
    (hit : html_iteration h s = some s') : s'.i = s.i + 1 := by
  obtain ⟨p, hp, hs, _⟩ := html_iteration_eq h s s' hit
  have := html_switch_advance _ _ _ _ _ p hp
  rw [hs]
  split_ifs <;> simp [this]

/-- A pass of the LaTeX loop advances the index by one or two. -/
theorem latex_iteration_advances (h : Host) (s s' : Locals)
    (hit : latex_iteration h s = some s') : s'.i = s.i + 1 ∨ s'.i = s.i + 2 := by
  obtain ⟨p, hp, hs, _⟩ := latex_iteration_eq h s s' hit
  have := latex_switch_advance _ _ _ _ _ p hp
  rw [hs]
  rcases this with h1 | ⟨h2, _⟩
  · split_ifs <;> simp [h1]
  · split_ifs <;> simp [h2]

/-- An invariant of the passes of the HTML loop holds after any number of passes. -/
theorem html_loop_invariant (h : Host) (P : Locals → Prop)
    (hstep : ∀ s s', s.i < get_length h → P s → html_iteration h s = some s' → P s') :
    ∀ fuel s s', P s → html_loop h fuel s = some s' → P s' := by
  intro fuel
  induction fuel with
  | zero =>
    intro s s' hP hl
    simp only [html_loop, Option.some.injEq] at hl
    exact hl ▸ hP
  | succ fuel ih =>
    intro s s' hP hl
    unfold html_loop at hl
    split_ifs at hl with hi
    · cases hit : html_iteration h s with
      | none => rw [hit] at hl; simp at hl
      | some s1 =>
        rw [hit] at hl
        exact ih s1 s' (hstep s s1 hi hP hit) hl
    · simp only [Option.some.injEq] at hl
      exact hl ▸ hP

/-- An invariant of the passes of the LaTeX loop holds after any number of passes. -/
theorem latex_loop_invariant (h : Host) (P : Locals → Prop)
    (hstep : ∀ s s', s.i < get_length h → P s → latex_iteration h s = some s' → P s') :
    ∀ fuel s s', P s → latex_loop h fuel s = some s' → P s' := by
  intro fuel
  induction fuel with
  | zero =>
    intro s s' hP hl
    simp only [latex_loop, Option.some.injEq] at hl
    exact hl ▸ hP
  | succ fuel ih =>
    intro s s' hP hl
    unfold latex_loop at hl
    split_ifs at hl with hi
    · cases hit : latex_iteration h s with
      | none => rw [hit] at hl; simp at hl
      | some s1 =>
        rw [hit] at hl
        exact ih s1 s' (hstep s s1 hi hP hit) hl
    · simp only [Option.some.injEq] at hl
      exact hl ▸ hP

/-- With styles inside the table and a non-zero tab width the HTML loop is defined, and
with one unit of fuel per remaining character it runs to the end of the document. -/
theorem html_loop_finishes (h : Host) (hsty : ∀ p ∈ h.text, p.2 ≤ h.STYLE_MAX)
    (htab : h.tab_width ≠ 0) :
    ∀ fuel s, ∃ s', html_loop h fuel s = some s' ∧
      (get_length h - s.i ≤ fuel → get_length h ≤ s'.i) := by
  intro fuel
  induction fuel with
  | zero => intro s; exact ⟨s, rfl, by omega⟩
  | succ fuel ih =>
    intro s
    unfold html_loop
    split_ifs with hi
    · obtain ⟨s1, h1⟩ := html_iteration_defined h s (hsty _ (text_mem h s.i hi)) htab
      have hadv := html_iteration_advances h s s1 h1
      obtain ⟨s', h2, hfin⟩ := ih s1
      rw [h1]
      exact ⟨s', h2, fun hf => hfin (by omega)⟩
    · exact ⟨s, rfl, fun _ => by omega⟩

/-- With styles inside the table and a non-zero tab width the LaTeX loop is defined, and
with one unit of fuel per remaining character it runs to the end of the document. -/
theorem latex_loop_finishes (h : Host) (hsty : ∀ p ∈ h.text, p.2 ≤ h.STYLE_MAX)
    (htab : h.tab_width ≠ 0) :
    ∀ fuel s, ∃ s', latex_loop h fuel s = some s' ∧
      (get_length h - s.i ≤ fuel → get_length h ≤ s'.i) := by
  intro fuel
  induction fuel with
  | zero => intro s; exact ⟨s, rfl, by omega⟩
  | succ fuel ih =>
    intro s
    unfold latex_loop
    split_ifs with hi
    · obtain ⟨s1, h1⟩ := latex_iteration_defined h s (hsty _ (text_mem h s.i hi)) htab
      have hadv := latex_iteration_advances h s s1 h1
      obtain ⟨s', h2, hfin⟩ := ih s1
      rw [h1]
      exact ⟨s', h2, fun hf => hfin (by omega)⟩
    · exact ⟨s, rfl, fun _ => by omega⟩

/-! ## Reading the style table -/

/-- The assignment to a cell of the table, read back. -/
theorem Styles.set_apply (t : Styles) (i k v i' k' : Nat) :
    (t.set i k v) i' k' = if i' = i ∧ k' = k then v else t i' k' := rfl

/-- The reader loop of `write_html_file` stays inside the table for `n ≤ STYLE_MAX + 1`
rows; it clears the `USED` cell of the rows below `n` and leaves the other rows as they
were on the stack. -/
theorem html_read_styles_spec (h : Host) (n : Nat) (hn : n ≤ h.STYLE_MAX + 1) :
    ∃ t, html_read_styles h n = some t ∧ (∀ i, i < n → t i USED = 0) ∧
      (∀ i k, n ≤ i → t i k = h.stack i k) := by
  induction n with
  | zero => exact ⟨h.stack, rfl, fun i hi => absurd hi (Nat.not_lt_zero i), fun _ _ _ => rfl⟩
  | succ n ih =>
    obtain ⟨t, ht, hused, hrest⟩ := ih (by omega)
    have hle : n ≤ h.STYLE_MAX := by omega
    refine ⟨_, by rw [html_read_styles, ht, Option.some_bind, if_pos hle], ?_, ?_⟩
    · intro i hi
      by_cases hin : i = n
      · subst hin
        simp [Styles.set_apply]
      · have : i < n := by omega
        simp [Styles.set_apply, hin, hused i this]
    · intro i k hi
      have hin : i ≠ n := by omega
      simp [Styles.set_apply, hin, hrest i k (by omega)]

/-- The reader loop of `write_latex_file` stays inside the table for `n ≤ STYLE_MAX + 1`
rows; it clears the `USED` cell of the rows below `n` and leaves the other rows as they
were on the stack. -/
theorem latex_read_styles_spec (h : Host) (n : Nat) (hn : n ≤ h.STYLE_MAX + 1) :
    ∃ t, latex_read_styles h n = some t ∧ (∀ i, i < n → t i USED = 0) ∧
      (∀ i k, n ≤ i → t i k = h.stack i k) := by
  induction n with
  | zero => exact ⟨h.stack, rfl, fun i hi => absurd hi (Nat.not_lt_zero i), fun _ _ _ => rfl⟩
  | succ n ih =>
    obtain ⟨t, ht, hused, hrest⟩ := ih (by omega)
    have hle : n ≤ h.STYLE_MAX := by omega
    refine ⟨_, by rw [latex_read_styles, ht, Option.some_bind, if_pos hle], ?_, ?_⟩
    · intro i hi
      by_cases hin : i = n
      · subst hin
        simp [Styles.set_apply]
      · have : i < n := by omega
        simp [Styles.set_apply, hin, hused i this]
    · intro i k hi
      have hin : i ≠ n := by omega
      simp [Styles.set_apply, hin, hrest i k (by omega)]

/-! ## The exporters in terms of their loops -/

/-- Once the table is read and the loop has run to the end of the document,
`write_html_file` reaches `write_data`; the body is the text of the loop followed by the
closing of the span left open. -/
theorem html_export_of_loop (h : Host) (use_zoom : Bool) (t : Styles) (s : Locals)
    (ht : html_read_styles h (style_max h) = some t)
    (hs : html_loop h (get_length h) (loop_start t) = some s)
    (hfin : get_length h ≤ s.i) :
    ∃ e, html_export h use_zoom = some e ∧
      e.body = s.body ++ (if s.block_open then "</span>".toList else []) ∧
      e.styles = s.styles ∧
      e.defs = html_css_head h use_zoom ++ html_rules s.styles (h.STYLE_MAX + 1) ∧
      e.document = string_replace_all (string_replace_all (string_replace_all
        (string_replace_all (TEMPLATE_HTML h) PH_DATE h.date_html) PH_CONTENT e.body)
        PH_STYLES e.defs) PH_FILENAME (export_filename h) := by
  have hnlt : ¬ s.i < get_length h := by omega
  by_cases hop : s.block_open = true
  · simp only [html_export, ht, Option.some_bind, html_render, hs, if_neg hnlt, if_pos hop]
    exact ⟨_, rfl, by simp, rfl, rfl, rfl⟩
  · simp only [html_export, ht, Option.some_bind, html_render, hs, if_neg hnlt, if_neg hop]
    exact ⟨_, rfl, by simp [hop], rfl, rfl, by simp [hop]⟩

/-- Once the table is read and the loop has run to the end of the document,
`write_latex_file` reaches `write_data`; the body is the text of the loop followed by the
closing of the block left open, and row 0 is marked as used. -/
theorem latex_export_of_loop (h : Host) (t : Styles) (s : Locals)
    (ht : latex_read_styles h (style_max h) = some t)
    (hs : latex_loop h (get_length h) (loop_start t) = some s)
    (hfin : get_length h ≤ s.i) :
    ∃ e, latex_export h = some e ∧
      e.body = s.body ++ (if s.block_open then "\x7d\n".toList else []) ∧
      e.styles = s.styles.set 0 USED 1 ∧
      e.defs = latex_cmds (s.styles.set 0 USED 1) (h.STYLE_MAX + 1) ∧
      e.document = string_replace_all (string_replace_all (string_replace_all
        (string_replace_all (TEMPLATE_LATEX h) PH_CONTENT e.body) PH_STYLES e.defs)
        PH_DATE h.date_default) PH_FILENAME (export_filename h) := by
  have hnlt : ¬ s.i < get_length h := by omega
  by_cases hop : s.block_open = true
  · simp only [latex_export, ht, Option.some_bind, latex_render, hs, if_neg hnlt, if_pos hop]
    exact ⟨_, rfl, by simp, rfl, rfl, rfl⟩
  · simp only [latex_export, ht, Option.some_bind, latex_render, hs, if_neg hnlt, if_neg hop]
    exact ⟨_, rfl, by simp [hop], rfl, rfl, by simp [hop]⟩

/-- When the table holds `style_max` rows, every style of the document is a row of the
table and the tab width is not zero, `write_html_file` reaches `write_data`. -/
theorem html_export_spec (h : Host) (use_zoom : Bool)
    (hcap : style_max h ≤ h.STYLE_MAX + 1) (hsty : ∀ p ∈ h.text, p.2 ≤ h.STYLE_MAX)
    (htab : h.tab_width ≠ 0) :
    ∃ t s e, html_read_styles h (style_max h) = some t ∧
      (∀ i, i < style_max h → t i USED = 0) ∧
      html_loop h (get_length h) (loop_start t) = some s ∧ get_length h ≤ s.i ∧
      html_export h use_zoom = some e ∧
      e.body = s.body ++ (if s.block_open then "</span>".toList else []) ∧
      e.styles = s.styles ∧
      e.defs = html_css_head h use_zoom ++ html_rules s.styles (h.STYLE_MAX + 1) := by
  obtain ⟨t, ht, hused, _⟩ := html_read_styles_spec h (style_max h) hcap
  obtain ⟨s, hs, hfin⟩ := html_loop_finishes h hsty htab (get_length h) (loop_start t)
  have hlen : get_length h ≤ s.i := hfin (by simp [loop_start])
  obtain ⟨e, he, h1, h2, h3, _⟩ := html_export_of_loop h use_zoom t s ht hs hlen
  exact ⟨t, s, e, ht, hused, hs, hlen, he, h1, h2, h3⟩

/-- When the table holds `style_max` rows, every style of the document is a row of the
table and the tab width is not zero, `write_latex_file` reaches `write_data`. -/
theorem latex_export_spec (h : Host)
    (hcap : style_max h ≤ h.STYLE_MAX + 1) (hsty : ∀ p ∈ h.text, p.2 ≤ h.STYLE_MAX)
    (htab : h.tab_width ≠ 0) :
    ∃ t s e, latex_read_styles h (style_max h) = some t ∧
      (∀ i, i < style_max h → t i USED = 0) ∧
      latex_loop h (get_length h) (loop_start t) = some s ∧ get_length h ≤ s.i ∧
      latex_export h = some e ∧
      e.body = s.body ++ (if s.block_open then "\x7d\n".toList else []) ∧
      e.styles = s.styles.set 0 USED 1 ∧
      e.defs = latex_cmds (s.styles.set 0 USED 1) (h.STYLE_MAX + 1) := by
  obtain ⟨t, ht, hused, _⟩ := latex_read_styles_spec h (style_max h) hcap
  obtain ⟨s, hs, hfin⟩ := latex_loop_finishes h hsty htab (get_length h) (loop_start t)
  have hlen : get_length h ≤ s.i := hfin (by simp [loop_start])
  obtain ⟨e, he, h1, h2, h3, _⟩ := latex_export_of_loop h t s ht hs hlen
  exact ⟨t, s, e, ht, hused, hs, hlen, he, h1, h2, h3⟩

/-- Styles below `style_max` are rows of the table when the table holds `style_max` rows. -/
theorem styles_in_table (h : Host) (hcap : style_max h ≤ h.STYLE_MAX + 1)
    (hsty : ∀ p ∈ h.text, p.2 < style_max h) : ∀ p ∈ h.text, p.2 ≤ h.STYLE_MAX := by
  intro p hp
  have := hsty p hp
  omega

/-! ## The style identifier `get_tex_style` -/

/-- The letter that `get_tex_style` stores for a base-26 digit. -/
theorem get_tex_style_loop_getElem? (fuel n k : Nat) (hf : n < fuel) :
    (get_tex_style_loop fuel n)[k]? =
      if k = 0 ∨ 0 < n / 26 ^ k then some (Char.ofNat (n / 26 ^ k % 26 + 97)) else none := by
  induction fuel generalizing n k with
  | zero => omega
  | succ fuel ih =>
    have h97 : 'a'.toNat = 97 := rfl
    simp only [get_tex_style_loop, h97]
    by_cases hq : n / 26 > 0
    · simp only [hq, if_true]
      cases k with
      | zero => simp
      | succ k =>
        have hlt : n / 26 < fuel := by omega
        rw [List.getElem?_cons_succ, ih (n / 26) k hlt]
        have hdiv : n / 26 / 26 ^ k = n / 26 ^ (k + 1) := by
          rw [Nat.div_div_eq_div_mul, pow_succ']
        rw [hdiv]
        by_cases hk : k = 0
        · subst hk
          simp [hq]
        · simp [hk]
    · simp only [hq, if_false]
      cases k with
      | zero => simp
      | succ k =>
        have hz : n / 26 ^ (k + 1) = 0 := by
          rw [pow_succ', ← Nat.div_div_eq_div_mul]
          have : n / 26 = 0 := by omega
          simp [this]
        simp [hz]

/-- The letters of `get_tex_style` are the base-26 digits, least significant first. -/
theorem get_tex_style_loop_eq_digits (fuel n : Nat) (hf : n < fuel) :
    get_tex_style_loop fuel n =
      (if n = 0 then [0] else Nat.digits 26 n).map (fun d => Char.ofNat (d + 97)) := by
  induction fuel generalizing n with
  | zero => omega
  | succ fuel ih =>
    have h97 : 'a'.toNat = 97 := rfl
    simp only [get_tex_style_loop, h97]
    by_cases hn : n = 0
    · subst hn
      simp
    · have hpos : 0 < n := Nat.pos_of_ne_zero hn
      rw [if_neg hn, Nat.digits_def' (by norm_num) hpos]
      by_cases hq : n / 26 > 0
      · have hlt : n / 26 < fuel := by omega
        have hq0 : n / 26 ≠ 0 := by omega
        simp only [hq, if_true, ih (n / 26) hlt, if_neg hq0, List.map_cons]
      · have hq0 : n / 26 = 0 := by omega
        simp [hq0]

/-- C9 (as amended): `get_tex_style` encodes style index 0 as "a", 25 as "z" and 26 as
"ab": the least significant base-26 digit of 26, which is 0, comes first. -/
theorem C9_get_tex_style_examples :
    get_tex_style 0 = "a".toList ∧ get_tex_style 25 = "z".toList ∧
      get_tex_style 26 = "ab".toList := by
  decide

/-- C9 (as stated) fails: the token of style index 26 is not "ba". -/
theorem C9_counterexample : get_tex_style 26 ≠ "ba".toList := by
  decide

/-- C10: for a style index `n < 26 ^ 3` the token `get_tex_style n` is not empty, consists
of letters `a`..`z` only (so it has no digit), its `k`-th letter from the left is
`'a' + (n / 26 ^ k) mod 26`, its length is the number of base-26 digits of `n` (one letter
for 0), the token and its terminator fit the 4-byte buffer, and for `n ≤ 127` the token has
at most two letters. -/
theorem C10_get_tex_style_digits (n : Nat) (hn : n < 26 ^ 3) :
    get_tex_style n ≠ [] ∧
    (∀ c ∈ get_tex_style n, 'a' ≤ c ∧ c ≤ 'z' ∧ c.isDigit = false) ∧
    (∀ k, k < (get_tex_style n).length →
      (get_tex_style n)[k]? = some (Char.ofNat ('a'.toNat + n / 26 ^ k % 26))) ∧
    (get_tex_style n).length = max 1 (Nat.digits 26 n).length ∧
    (get_tex_style n).length + 1 ≤ get_tex_style_buf_size ∧
    (n ≤ 127 → (get_tex_style n).length ≤ 2) := by
  have hdig := get_tex_style_loop_eq_digits (n + 1) n (Nat.lt_succ_self n)
  have hidx := fun k => get_tex_style_loop_getElem? (n + 1) n k (Nat.lt_succ_self n)
  have hlen : (get_tex_style n).length = max 1 (Nat.digits 26 n).length := by
    unfold get_tex_style
    rw [hdig]
    by_cases h0 : n = 0
    · subst h0; simp
    · rw [if_neg h0, List.length_map]
      have : 0 < (Nat.digits 26 n).length := by
        rw [Nat.digits_len 26 n (by norm_num) h0]; omega
      omega
  have hlen3 : (Nat.digits 26 n).length ≤ 3 := by
    by_cases h0 : n = 0
    · subst h0; simp
    · rw [Nat.digits_len 26 n (by norm_num) h0]
      have := Nat.log_lt_of_lt_pow h0 hn
      omega
  refine ⟨?_, ?_, ?_, hlen, ?_, ?_⟩
  · intro hnil
    rw [hnil] at hlen
    simp at hlen
    omega
  · intro c hc
    unfold get_tex_style at hc
    rw [hdig, List.mem_map] at hc
    obtain ⟨d, hd, rfl⟩ := hc
    have hd26 : d < 26 := by
      by_cases h0 : n = 0
      · simp [h0] at hd; omega
      · rw [if_neg h0] at hd
        exact Nat.digits_lt_base (by norm_num) hd
    interval_cases d <;> decide
  · intro k hk
    have h97 : 'a'.toNat = 97 := rfl
    have hsome := hidx k
    unfold get_tex_style at hk ⊢
    by_cases hc : k = 0 ∨ 0 < n / 26 ^ k
    · rw [hsome, if_pos hc, h97, Nat.add_comm]
    · rw [if_neg hc] at hsome
      have := List.getElem?_eq_none_iff.mp hsome
      omega
  · rw [hlen]
    unfold get_tex_style_buf_size
    omega
  · intro h127
    rw [hlen]
    by_cases h0 : n = 0
    · subst h0; simp
    · rw [Nat.digits_len 26 n (by norm_num) h0]
      have : Nat.log 26 n < 2 := Nat.log_lt_of_lt_pow h0 (by omega)
      omega

/-- C10 at the style index 26: the token is "ab", two letters long. -/
theorem C10_witness :
    (26 : Nat) < 26 ^ 3 ∧ (get_tex_style 26).length = max 1 (Nat.digits 26 26).length :=
  ⟨by decide, (C10_get_tex_style_digits 26 (by decide)).2.2.2.1⟩

/-! ## The notions of the statements: decimal digits and runs -/

/-- The digits of `dec_digits` are those of the conversion of the core library. -/
theorem toDigitsCore_eq_dec_digits (fuel n : Nat) (ds : List Char) (hf : n < fuel) :
    Nat.toDigitsCore 10 fuel n ds = dec_digits fuel n ++ ds := by
  induction fuel generalizing n ds with
  | zero => omega
  | succ fuel ih =>
    have hd : (n % 10).digitChar = Char.ofNat (n % 10 + 48) := by
      have : n % 10 < 10 := Nat.mod_lt _ (by norm_num)
      generalize n % 10 = d at this
      interval_cases d <;> rfl
    simp only [Nat.toDigitsCore, dec_digits]
    by_cases h10 : n < 10
    · have h0 : n / 10 = 0 := by omega
      have hm : n % 10 = n := by omega
      rw [if_pos h0, if_pos h10, hd, hm]
      rfl
    · have h0 : ¬ n / 10 = 0 := by omega
      rw [if_neg h0, if_neg h10, ih (n / 10) _ (by omega), hd, List.append_assoc]
      rfl

/-- For a natural number `fmt_d` prints what `Nat.repr` prints. -/
theorem fmt_d_natCast (n : Nat) : fmt_d (n : Int) = (Nat.repr n).toList := by
  have hnn : ¬ ((n : Int) < 0) := by omega
  unfold fmt_d
  rw [if_neg hnn, Int.toNat_ofNat]
  simp only [Nat.repr, Nat.toDigits, List.asString, String.toList]
  rw [toDigitsCore_eq_dec_digits _ _ _ (Nat.lt_succ_self n), List.append_nil]

/-- The runs of `style_runs` are not empty. -/
theorem style_runs_ne_nil (text : List (Char × Nat)) :
    ∀ r ∈ style_runs text, r.2 ≠ [] := by
  induction text with
  | nil => intro r hr; simp [style_runs] at hr
  | cons p rest ih =>
    obtain ⟨c, st⟩ := p
    intro r hr
    simp only [style_runs] at hr
    cases hrest : style_runs rest with
    | nil =>
      rw [hrest] at hr
      simp only [List.mem_singleton] at hr
      rw [hr]
      simp
    | cons r1 runs =>
      obtain ⟨st', cs⟩ := r1
      rw [hrest] at hr ih
      simp only at hr
      split_ifs at hr
      · rcases List.mem_cons.mp hr with hr | hr
        · rw [hr]; simp
        · exact ih r (List.mem_cons_of_mem _ hr)
      · rcases List.mem_cons.mp hr with hr | hr
        · rw [hr]; simp
        · exact ih r hr

/-- The runs of `style_runs`, each with its style put back on its characters, make up
the document. -/
theorem style_runs_flatten (text : List (Char × Nat)) :
    ((style_runs text).map fun r => r.2.map fun c => (c, r.1)).flatten = text := by
  induction text with
  | nil => rfl
  | cons p rest ih =>
    obtain ⟨c, st⟩ := p
    simp only [style_runs]
    cases hrest : style_runs rest with
    | nil =>
      rw [hrest] at ih
      simp only [List.map_nil, List.flatten_nil] at ih
      simp [← ih]
    | cons r1 runs =>
      obtain ⟨st', cs⟩ := r1
      rw [hrest] at ih
      simp only
      split_ifs with hst
      · subst hst
        simp only [List.map_cons, List.flatten_cons, List.cons_append] at ih ⊢
        rw [ih]
      · simp only [List.map_cons, List.flatten_cons, List.map_nil, List.cons_append,
          List.nil_append] at ih ⊢
        rw [ih]

/-- Two runs of `style_runs` that follow each other have different styles: the runs are
maximal. -/
theorem style_runs_chain (text : List (Char × Nat)) :
    List.Chain' (fun r r' : Nat × List Char => r.1 ≠ r'.1) (style_runs text) := by
  induction text with
  | nil => exact List.chain'_nil
  | cons p rest ih =>
    obtain ⟨c, st⟩ := p
    simp only [style_runs]
    cases hrest : style_runs rest with
    | nil => exact List.chain'_singleton _
    | cons r1 runs =>
      obtain ⟨st', cs⟩ := r1
      rw [hrest] at ih
      simp only
      split_ifs with hst
      · subst hst
        cases runs with
        | nil => exact List.chain'_singleton _
        | cons r2 runs2 =>
          rw [List.chain'_cons] at ih ⊢
          exact ih
      · rw [List.chain'_cons]
        exact ⟨hst, ih⟩

/-! ## Runs of equal style in HTML (C1) -/

/-- The markup that remains when one more character is read: the start of a span unless
the open span has the style of the character, the character, and the markup of the rest
with that span open. -/
theorem html_spans_from_cons (op : Bool) (os : Nat) (c : Char) (st : Nat)
    (rest : List (Char × Nat)) :
    html_spans_from op os (style_runs ((c, st) :: rest)) =
      (if op = true ∧ st = os then [] else html_span_start op st) ++ [c] ++
        html_spans_from true st (style_runs rest) := by
  simp only [style_runs]
  cases hr : style_runs rest with
  | nil =>
    simp only [html_spans_from, List.map_nil, List.flatten_nil, List.append_nil, if_true]
    split_ifs <;> simp
  | cons r runs =>
    obtain ⟨st', cs⟩ := r
    simp only
    by_cases hst : st = st'
    · subst hst
      simp only [if_true, html_spans_from, and_self]
      split_ifs <;> simp
    · have hst' : ¬ st' = st := fun hh => hst hh.symm
      simp only [if_neg hst, html_spans_from, List.map_cons, List.flatten_cons, true_and,
        if_neg hst', html_span, html_span_start, if_true]
      split_ifs <;> simp

/-- The markup of the runs of a document is what remains to be written at the start. -/
theorem html_runs_markup_eq (text : List (Char × Nat)) :
    html_runs_markup text = html_spans_from false 0 (style_runs text) := by
  unfold html_runs_markup
  cases style_runs text with
  | nil => simp [html_spans_from]
  | cons r runs =>
    obtain ⟨st, cs⟩ := r
    simp [html_spans_from, html_span, html_span_start]

/-- The `switch` of `write_html_file` appends a character that is neither whitespace nor
one of `<`, `>`, `&` as it is. -/
theorem html_switch_plain (tw col : Int) (op : Bool) (c cn : Char)
    (hsp : isspace c = false) (h1 : c ≠ '<') (h2 : c ≠ '>') (h3 : c ≠ '&') :
    html_switch tw col op c cn =
      some { out := [c], column := col + 1, block_open := op, advance := 1 } := by
  have hr : c ≠ '\r' := by rintro rfl; revert hsp; decide
  have hn : c ≠ '\n' := by rintro rfl; revert hsp; decide
  have ht : c ≠ '\t' := by rintro rfl; revert hsp; decide
  have hs : c ≠ ' ' := by rintro rfl; revert hsp; decide
  unfold html_switch
  have h0 : ¬(c = '\r' ∨ c = '\n') := by
    rintro (h | h)
    · exact hr h
    · exact hn h
  rw [if_neg h0, if_neg ht, if_neg hs, if_neg h1, if_neg h2, if_neg h3]

/-- On a document without whitespace and without `<`, `>`, `&`, the HTML loop is defined
whatever the tab width is, runs to the end of the document, and its text followed by the
closing of the span left open is the text before the loop followed by the markup of the
runs that remained. -/
theorem html_loop_plain (h : Host) (hsty : ∀ p ∈ h.text, p.2 ≤ h.STYLE_MAX)
    (hplain : ∀ p ∈ h.text, isspace p.1 = false ∧ p.1 ≠ '<' ∧ p.1 ≠ '>' ∧ p.1 ≠ '&') :
    ∀ fuel s, get_length h - s.i ≤ fuel →
      ∃ s', html_loop h fuel s = some s' ∧ get_length h ≤ s'.i ∧
        s'.body ++ (if s'.block_open then "</span>".toList else []) =
          s.body ++ html_spans_from s.block_open s.old_style (style_runs (h.text.drop s.i)) := by
  intro fuel
  induction fuel with
  | zero =>
    intro s hf
    have hlen : get_length h ≤ s.i := by omega
    have hdrop : h.text.drop s.i = [] := List.drop_of_length_le hlen
    exact ⟨s, rfl, hlen, by simp [hdrop, style_runs, html_spans_from]⟩
  | succ fuel ih =>
    intro s hf
    by_cases hi : s.i < get_length h
    · have hmem := text_mem h s.i hi
      obtain ⟨hsp, hc1, hc2, hc3⟩ := hplain _ hmem
      have hst := hsty _ hmem
      have hdrop := text_drop_eq h s.i hi
      simp only at hsp hc1 hc2 hc3 hst
      by_cases hb : (get_style_at h s.i ≠ s.old_style ∨ s.block_open = false) ∧
          isspace (get_char_at h s.i) = false
      · obtain ⟨s1, hit, hi1, hos1, hop1, hb1⟩ : ∃ s1, html_iteration h s = some s1 ∧
            s1.i = s.i + 1 ∧ s1.old_style = get_style_at h s.i ∧ s1.block_open = true ∧
            s1.body = s.body ++ html_span_start s.block_open (get_style_at h s.i) ++
              [get_char_at h s.i] := by
          unfold html_iteration
          simp only [if_pos hb, if_pos hst, html_switch_plain _ _ _ _ _ hsp hc1 hc2 hc3,
            Option.map_some']
          exact ⟨_, rfl, rfl, rfl, rfl, rfl⟩
        obtain ⟨s', hs', hfin, hbody⟩ := ih s1 (by omega)
        refine ⟨s', ?_, hfin, ?_⟩
        · rw [html_loop, if_pos hi, hit, Option.some_bind, hs']
        · rw [hbody, hi1, hos1, hop1, hb1, hdrop, html_spans_from_cons]
          have hne : ¬(s.block_open = true ∧ get_style_at h s.i = s.old_style) := by
            rintro ⟨h1, h2⟩
            rcases hb.1 with h3 | h3
            · exact h3 h2
            · rw [h1] at h3; exact absurd h3 (by decide)
          simp only [if_neg hne, List.append_assoc]
      · have hop : s.block_open = true := by
          by_contra hne
          exact hb ⟨Or.inr (by simpa using hne), hsp⟩
        have hos : get_style_at h s.i = s.old_style := by
          by_contra hne
          exact hb ⟨Or.inl hne, hsp⟩
        obtain ⟨s1, hit, hi1, hos1, hop1, hb1⟩ : ∃ s1, html_iteration h s = some s1 ∧
            s1.i = s.i + 1 ∧ s1.old_style = s.old_style ∧ s1.block_open = s.block_open ∧
            s1.body = s.body ++ [get_char_at h s.i] := by
          unfold html_iteration
          simp only [if_neg hb, html_switch_plain _ _ _ _ _ hsp hc1 hc2 hc3,
            Option.map_some']
          exact ⟨_, rfl, rfl, rfl, rfl, rfl⟩
        obtain ⟨s', hs', hfin, hbody⟩ := ih s1 (by omega)
        refine ⟨s', ?_, hfin, ?_⟩
        · rw [html_loop, if_pos hi, hit, Option.some_bind, hs']
        · rw [hbody, hi1, hos1, hop1, hb1, hdrop, html_spans_from_cons]
          simp only [hop, hos, and_self, if_true, List.append_assoc, List.nil_append]
    · have hlen : get_length h ≤ s.i := by omega
      have hdrop : h.text.drop s.i = [] := List.drop_of_length_le hlen
      refine ⟨s, by rw [html_loop, if_neg hi], hlen, ?_⟩
      simp [hdrop, style_runs, html_spans_from]

/-- C1: for a document that contains no whitespace and none of `<`, `>`, `&`, with every
style index below `style_max` and a table that holds `style_max` rows, the body that
`write_html_file` produces is the concatenation, over the maximal runs of consecutive
characters of equal style in order, of `<span class="style_S">`, the characters of the
run and `</span>`. -/
theorem C1_html_runs (h : Host) (use_zoom : Bool)
    (hcap : style_max h ≤ h.STYLE_MAX + 1) (hsty : ∀ p ∈ h.text, p.2 < style_max h)
    (hplain : ∀ p ∈ h.text, isspace p.1 = false ∧ p.1 ≠ '<' ∧ p.1 ≠ '>' ∧ p.1 ≠ '&') :
    (html_export h use_zoom).map (fun e => e.body) = some (html_runs_markup h.text) := by
  obtain ⟨t, ht, _, _⟩ := html_read_styles_spec h (style_max h) hcap
  obtain ⟨s, hs, hfin, hbody⟩ := html_loop_plain h (styles_in_table h hcap hsty) hplain
    (get_length h) (loop_start t) (by simp [loop_start])
  obtain ⟨e, he, hb, _⟩ := html_export_of_loop h use_zoom t s ht hs hfin
  rw [he, Option.map_some', hb, hbody, html_runs_markup_eq]
  simp [loop_start]

/-- C1 at the document "a" (style 0), "b" (style 1): one run for each character. -/
theorem C1_witness :
    (html_export (sample_host [('a', 0), ('b', 1)]) false).map (fun e => e.body) =
      some "<span class=\"style_0\">a</span><span class=\"style_1\">b</span>".toList :=
  (C1_html_runs (sample_host [('a', 0), ('b', 1)]) false (by decide) (by decide)
    (by decide)).trans (by decide)

/-! ## The used styles (C2) -/

/-- A cell that is set stays set when a `USED` cell is set. -/
theorem Styles.set_used_ne_zero (t : Styles) (st i : Nat) (hi : t i USED ≠ 0) :
    (t.set st USED 1) i USED ≠ 0 := by
  rw [Styles.set_apply]
  split_ifs
  · exact Nat.one_ne_zero
  · exact hi

/-- The `USED` cell just set is set. -/
theorem Styles.set_used_self (t : Styles) (st : Nat) : (t.set st USED 1) st USED ≠ 0 := by
  rw [Styles.set_apply, if_pos ⟨rfl, rfl⟩]
  exact Nat.one_ne_zero

/-- A `USED` cell that is set after another one was set is that one or was set before. -/
theorem Styles.set_used_cases (t : Styles) (st i : Nat) (hi : (t.set st USED 1) i USED ≠ 0) :
    i = st ∨ t i USED ≠ 0 := by
  rw [Styles.set_apply] at hi
  split_ifs at hi with hc
  · exact Or.inl hc.1
  · exact Or.inr hi

/-- A span open after the `switch` of `write_html_file` was open before it. -/
theorem html_switch_open (tw col : Int) (op : Bool) (c cn : Char) :
    ∀ p, html_switch tw col op c cn = some p → p.block_open = true → op = true := by
  apply html_switch_elim (motive := fun r => ∀ p, r = some p → p.block_open = true →
    op = true) tw col op c cn <;> intros <;> first
    | (rename_i p hp hop; cases hp; exact hop)
    | (rename_i p hp hop; cases hp; exact absurd hop Bool.false_ne_true)
    | (rename_i p hp hop; cases hp)

/-- The invariant of the HTML loop behind C2: the style of every character read that is
not whitespace is marked, the style of the open span is marked, and every marked style
below `style_max` is the style of a character of the document that is not whitespace. -/
theorem html_used_step (h : Host) (s s' : Locals) (hi : s.i < get_length h)
    (hinv : (∀ j, j < s.i → isspace (get_char_at h j) = false →
        s.styles (get_style_at h j) USED ≠ 0) ∧
      (s.block_open = true → s.styles s.old_style USED ≠ 0) ∧
      (∀ i, i < style_max h → s.styles i USED ≠ 0 →
        ∃ p ∈ h.text, p.2 = i ∧ isspace p.1 = false))
    (hit : html_iteration h s = some s') :
    (∀ j, j < s'.i → isspace (get_char_at h j) = false →
        s'.styles (get_style_at h j) USED ≠ 0) ∧
      (s'.block_open = true → s'.styles s'.old_style USED ≠ 0) ∧
      (∀ i, i < style_max h → s'.styles i USED ≠ 0 →
        ∃ p ∈ h.text, p.2 = i ∧ isspace p.1 = false) := by
  obtain ⟨hA, hB, hC⟩ := hinv
  obtain ⟨p, hp, hs, _⟩ := html_iteration_eq h s s' hit
  have hadv := html_switch_advance _ _ _ _ _ p hp
  have hopen := html_switch_open _ _ _ _ _ p hp
  have hmem := text_mem h s.i hi
  by_cases hb : (get_style_at h s.i ≠ s.old_style ∨ s.block_open = false) ∧
      isspace (get_char_at h s.i) = false
  · rw [if_pos hb] at hs
    subst hs
    refine ⟨?_, ?_, ?_⟩
    · intro j hj hsp
      simp only [hadv] at hj
      by_cases hjs : j = s.i
      · subst hjs
        exact Styles.set_used_self _ _
      · exact Styles.set_used_ne_zero _ _ _ (hA j (by omega) hsp)
    · intro _
      exact Styles.set_used_self _ _
    · intro i hi' hused
      rcases Styles.set_used_cases _ _ _ hused with hc | hc
      · exact ⟨_, hmem, hc.symm, hb.2⟩
      · exact hC i hi' hc
  · rw [if_neg hb] at hs hopen
    subst hs
    refine ⟨?_, ?_, hC⟩
    · intro j hj hsp
      simp only [hadv] at hj
      by_cases hjs : j = s.i
      · rw [hjs] at hsp ⊢
        have hop : s.block_open = true := by
          by_contra hne
          exact hb ⟨Or.inr (by simpa using hne), hsp⟩
        have hos : get_style_at h s.i = s.old_style := by
          by_contra hne
          exact hb ⟨Or.inl hne, hsp⟩
        simp only
        rw [hos]
        exact hB hop
      · exact hA j (by omega) hsp
    · intro hop
      exact hB (hopen hop)

/-- The invariant of the LaTeX loop behind C2: the style of every character before the
index is marked, provided the two characters of a consumed pair share their style; the
style of the last block is marked; every marked style below `style_max` is the style of
a character of the document. -/
theorem latex_used_step (h : Host) (s s' : Locals) (hi : s.i < get_length h)
    (hinv : ((∀ j, j < get_length h - 1 → get_char_at h j = get_char_at h (j + 1) →
          (get_char_at h j = ' ' ∨ get_char_at h j = '-' ∨ get_char_at h j = '<' ∨
            get_char_at h j = '>') → get_style_at h j = get_style_at h (j + 1)) →
        ∀ j, j < s.i → j < get_length h → s.styles (get_style_at h j) USED ≠ 0) ∧
      (s.block_open = true → s.styles s.old_style USED ≠ 0) ∧
      (∀ i, i < style_max h → s.styles i USED ≠ 0 → ∃ p ∈ h.text, p.2 = i))
    (hit : latex_iteration h s = some s') :
    ((∀ j, j < get_length h - 1 → get_char_at h j = get_char_at h (j + 1) →
          (get_char_at h j = ' ' ∨ get_char_at h j = '-' ∨ get_char_at h j = '<' ∨
            get_char_at h j = '>') → get_style_at h j = get_style_at h (j + 1)) →
        ∀ j, j < s'.i → j < get_length h → s'.styles (get_style_at h j) USED ≠ 0) ∧
      (s'.block_open = true → s'.styles s'.old_style USED ≠ 0) ∧
      (∀ i, i < style_max h → s'.styles i USED ≠ 0 → ∃ p ∈ h.text, p.2 = i) := by
  obtain ⟨hA, hB, hC⟩ := hinv
  obtain ⟨p, hp, hs, _⟩ := latex_iteration_eq h s s' hit
  have hadv := latex_switch_advance _ _ _ _ _ p hp
  have hmem := text_mem h s.i hi
  have hmono : ∀ i, s.styles i USED ≠ 0 → s'.styles i USED ≠ 0 := by
    intro i hi'
    rw [hs]
    split_ifs
    · exact Styles.set_used_ne_zero _ _ _ hi'
    · exact hi'
  have hcur : s'.styles (get_style_at h s.i) USED ≠ 0 := by
    rw [hs]
    by_cases hb : get_style_at h s.i ≠ s.old_style ∨ s.block_open = false
    · rw [if_pos hb]
      exact Styles.set_used_self _ _
    · rw [if_neg hb]
      have hop : s.block_open = true := by
        by_contra hne
        exact hb (Or.inr (by simpa using hne))
      have hos : get_style_at h s.i = s.old_style := by
        by_contra hne
        exact hb (Or.inl hne)
      simp only
      rw [hos]
      exact hB hop
  have hold : s'.old_style = get_style_at h s.i := by
    rw [hs]; split_ifs <;> rfl
  have hi' : s'.i = s.i + p.advance := by
    rw [hs]; split_ifs <;> rfl
  refine ⟨?_, ?_, ?_⟩
  · intro hpairs j hj hjl
    by_cases hjs : j < s.i
    · exact hmono _ (hA hpairs j hjs hjl)
    · by_cases hje : j = s.i
      · rw [hje]; exact hcur
      · rcases hadv with h1 | ⟨h2, hceq, hc⟩
        · omega
        · have hj1 : j = s.i + 1 := by omega
          rw [hj1, ← hpairs s.i (by omega) hceq hc]
          exact hcur
  · intro _
    rw [hold]
    exact hcur
  · intro i hil hused
    rw [hs] at hused
    split_ifs at hused
    · rcases Styles.set_used_cases _ _ _ hused with hc | hc
      · exact ⟨_, hmem, hc.symm⟩
      · exact hC i hil hc
    · exact hC i hil hused

/-- An element of the document is read at some offset below the length. -/
theorem text_mem_iff_get (h : Host) (p : Char × Nat) (hp : p ∈ h.text) :
    ∃ j, j < get_length h ∧ get_char_at h j = p.1 ∧ get_style_at h j = p.2 := by
  obtain ⟨j, hj, hget⟩ := List.getElem_of_mem hp
  refine ⟨j, hj, ?_, ?_⟩
  · simp [get_char_at, List.get?_eq_getElem?, List.getElem?_eq_getElem hj, hget]
  · simp [get_style_at, List.get?_eq_getElem?, List.getElem?_eq_getElem hj, hget]

/-- C2 (as stated) fails for both exporters: a space of style 1 leaves `styles[1][USED]`
clear in `write_html_file`, because whitespace starts no span; and the second space of a
pair of spaces, of style 1, leaves it clear in `write_latex_file`, because the pass of the
first space consumes the second one without reading its style. -/
theorem C2_counterexample :
    ((html_export (sample_host [(' ', 1)]) false).map (fun e => e.styles 1 USED) = some 0 ∧
      (' ', 1) ∈ (sample_host [(' ', 1)]).text ∧ 1 < style_max (sample_host [(' ', 1)])) ∧
    ((latex_export (sample_host [(' ', 0), (' ', 1)])).map (fun e => e.styles 1 USED) =
        some 0 ∧
      (' ', 1) ∈ (sample_host [(' ', 0), (' ', 1)]).text ∧
      1 < style_max (sample_host [(' ', 0), (' ', 1)])) := by
  decide

/-- C2 (as amended): when the table holds `style_max` rows, the styles of the document
lie below `style_max` and the tab width is not zero, then for every style index `i` below
`style_max`: after `write_html_file`, `styles[i][USED]` is set if and only if a character
that is not whitespace has style `i`; after `write_latex_file`, `styles[i][USED]` is set
only if `i` is 0 or a character has style `i`, and it is set whenever `i` is 0 or a
character has style `i` provided that in every pair of equal adjacent characters among
space, `-`, `<`, `>` both characters have the same style. -/
theorem C2_used_styles (h : Host) (use_zoom : Bool)
    (hcap : style_max h ≤ h.STYLE_MAX + 1) (hsty : ∀ p ∈ h.text, p.2 < style_max h)
    (htab : h.tab_width ≠ 0) :
    (∃ e, html_export h use_zoom = some e ∧ ∀ i, i < style_max h →
      (e.styles i USED ≠ 0 ↔ ∃ p ∈ h.text, p.2 = i ∧ isspace p.1 = false)) ∧
    (∃ e, latex_export h = some e ∧ ∀ i, i < style_max h →
      (e.styles i USED ≠ 0 → i = 0 ∨ ∃ p ∈ h.text, p.2 = i) ∧
      ((∀ j, j < get_length h - 1 → get_char_at h j = get_char_at h (j + 1) →
          (get_char_at h j = ' ' ∨ get_char_at h j = '-' ∨ get_char_at h j = '<' ∨
            get_char_at h j = '>') → get_style_at h j = get_style_at h (j + 1)) →
        (i = 0 ∨ ∃ p ∈ h.text, p.2 = i) → e.styles i USED ≠ 0)) := by
  have hsty' := styles_in_table h hcap hsty
  constructor
  · obtain ⟨t, s, e, _, hclear, hs, hfin, he, _, hst, _⟩ :=
      html_export_spec h use_zoom hcap hsty' htab
    refine ⟨e, he, ?_⟩
    obtain ⟨hA, _, hC⟩ := html_loop_invariant h
      (fun s => (∀ j, j < s.i → isspace (get_char_at h j) = false →
          s.styles (get_style_at h j) USED ≠ 0) ∧
        (s.block_open = true → s.styles s.old_style USED ≠ 0) ∧
        (∀ i, i < style_max h → s.styles i USED ≠ 0 →
          ∃ p ∈ h.text, p.2 = i ∧ isspace p.1 = false))
      (fun s s' hi hP hit => html_used_step h s s' hi hP hit)
      (get_length h) (loop_start t) s
      ⟨fun j hj => absurd hj (Nat.not_lt_zero j),
        fun hop => absurd hop (by simp [loop_start]),
        fun i hi hu => absurd (hclear i hi) hu⟩ hs
    intro i hi
    rw [hst]
    constructor
    · exact hC i hi
    · rintro ⟨p, hp, hpi, hsp⟩
      obtain ⟨j, hj, hc, hs2⟩ := text_mem_iff_get h p hp
      have := hA j (by omega) (by rw [hc]; exact hsp)
      rw [hs2, hpi] at this
      exact this
  · obtain ⟨t, s, e, _, hclear, hs, hfin, he, _, hst, _⟩ :=
      latex_export_spec h hcap hsty' htab
    refine ⟨e, he, ?_⟩
    obtain ⟨hA, _, hC⟩ := latex_loop_invariant h
      (fun s => ((∀ j, j < get_length h - 1 → get_char_at h j = get_char_at h (j + 1) →
            (get_char_at h j = ' ' ∨ get_char_at h j = '-' ∨ get_char_at h j = '<' ∨
              get_char_at h j = '>') → get_style_at h j = get_style_at h (j + 1)) →
          ∀ j, j < s.i → j < get_length h → s.styles (get_style_at h j) USED ≠ 0) ∧
        (s.block_open = true → s.styles s.old_style USED ≠ 0) ∧
        (∀ i, i < style_max h → s.styles i USED ≠ 0 → ∃ p ∈ h.text, p.2 = i))
      (fun s s' hi hP hit => latex_used_step h s s' hi hP hit)
      (get_length h) (loop_start t) s
      ⟨fun _ j hj => absurd hj (Nat.not_lt_zero j),
        fun hop => absurd hop (by simp [loop_start]),
        fun i hi hu => absurd (hclear i hi) hu⟩ hs
    intro i hi
    rw [hst]
    constructor
    · intro hused
      rcases Styles.set_used_cases _ _ _ hused with hc | hc
      · exact Or.inl hc
      · exact Or.inr (hC i hi hc)
    · intro hpairs hor
      rcases hor with h0 | ⟨p, hp, hpi⟩
      · rw [h0]
        exact Styles.set_used_self _ _
      · obtain ⟨j, hj, _, hs2⟩ := text_mem_iff_get h p hp
        have := hA hpairs j (by omega) hj
        rw [hs2, hpi] at this
        exact Styles.set_used_ne_zero _ _ _ this

/-- C2 at the document "a" (style 0), space (style 1), "b" (style 2): after
`write_html_file` the styles 0 and 2 are marked and style 1 is not; after
`write_latex_file` style 1 is marked too. -/
theorem C2_witness :
    (∃ e, html_export (sample_host [('a', 0), (' ', 1), ('b', 2)]) false = some e ∧
      e.styles 2 USED ≠ 0 ∧ ¬ e.styles 1 USED ≠ 0) ∧
    (∃ e, latex_export (sample_host [('a', 0), (' ', 1), ('b', 2)]) = some e ∧
      e.styles 1 USED ≠ 0) := by
  obtain ⟨⟨e1, he1, h1⟩, ⟨e2, he2, h2⟩⟩ :=
    C2_used_styles (sample_host [('a', 0), (' ', 1), ('b', 2)]) false
      (by decide) (by decide) (by decide)
  refine ⟨⟨e1, he1, (h1 2 (by decide)).mpr ⟨('b', 2), by decide, rfl, by decide⟩, ?_⟩,
    ⟨e2, he2, (h2 1 (by decide)).2 (by decide) (Or.inr ⟨(' ', 1), by decide, rfl⟩)⟩⟩
  intro hused
  obtain ⟨p, hp, hpi, hsp⟩ := (h1 1 (by decide)).mp hused
  revert hpi hsp
  revert p
  decide

/-! ## The style definitions (C3) -/

/-- The cast of `get_tex_rgb` in integer arithmetic: rounding `10 n / 256` half up. -/
theorem tex_scale_eq (n : Nat) : tex_scale n = (10 * n + 128) / 256 := by
  unfold tex_scale
  have h : ((n : ℚ) / 256) * 10 + 1 / 2 = ((10 * n + 128 : ℕ) : ℚ) / (256 : ℕ) := by
    push_cast
    ring
  rw [h, Nat.floor_div_eq_div]

/-- The loop that fills `cmds` emits one definition for every row below `n` whose `USED`
cell is set, in ascending order of the rows. -/
theorem latex_cmds_eq (t : Styles) (n : Nat) :
    latex_cmds t n =
      (((List.range n).filter fun i => decide (t i USED ≠ 0)).map (latex_cmd t)).flatten := by
  induction n with
  | zero => rfl
  | succ n ih =>
    rw [latex_cmds, ih, List.range_succ, List.filter_append, List.map_append,
      List.flatten_append]
    by_cases hu : t n USED ≠ 0
    · simp [hu]
    · simp [hu]

/-- The loop that fills `css` emits one rule for every row below `n` whose `USED` cell is
set, in ascending order of the rows. -/
theorem html_rules_eq (t : Styles) (n : Nat) :
    html_rules t n =
      (((List.range n).filter fun i => decide (t i USED ≠ 0)).map (html_rule t)).flatten := by
  induction n with
  | zero => rfl
  | succ n ih =>
    rw [html_rules, ih, List.range_succ, List.filter_append, List.map_append,
      List.flatten_append]
    by_cases hu : t n USED ≠ 0
    · simp [hu]
    · simp [hu]

/-- The style definitions of `write_latex_file` are those of the rows `0` to `STYLE_MAX`
of the final table. -/
theorem latex_export_defs (h : Host) (e : Export) (he : latex_export h = some e) :
    e.defs = latex_cmds e.styles (h.STYLE_MAX + 1) := by
  unfold latex_export at he
  simp only [Option.bind_eq_some] at he
  obtain ⟨t, _, s, _, hs⟩ := he
  simp only [Option.some.injEq] at hs
  rw [← hs]

/-- The style definitions of `write_html_file` are the `body` rule and the rules of the
rows `0` to `STYLE_MAX` of the final table. -/
theorem html_export_defs (h : Host) (use_zoom : Bool) (e : Export)
    (he : html_export h use_zoom = some e) :
    e.defs = html_css_head h use_zoom ++ html_rules e.styles (h.STYLE_MAX + 1) := by
  unfold html_export at he
  simp only [Option.bind_eq_some] at he
  obtain ⟨t, _, s, _, hs⟩ := he
  simp only [Option.some.injEq] at hs
  rw [← hs]

set_option maxRecDepth 1000000 in
/-- C3 at a failing input: with `STYLE_MAX` 127, five style bits (`style_max` 32), the
document "a" in style 0 and a non-zero value left on the stack in `styles[32][USED]`,
both exporters emit, after the definition of style 0, a definition for the index 32,
which is not below `style_max`. -/
theorem C3_leftover_definition :
    style_max leftover_host = 32 ∧
    (∃ e, html_export leftover_host false = some e ∧ e.defs =
      html_css_head leftover_host false ++ (html_rule e.styles 0 ++ html_rule e.styles 32)) ∧
    (∃ e, latex_export leftover_host = some e ∧ e.defs =
      latex_cmd e.styles 0 ++ latex_cmd e.styles 32) := by
  have h1 : (html_export leftover_host false).map (fun e =>
      (List.range (leftover_host.STYLE_MAX + 1)).filter fun i => decide (e.styles i USED ≠ 0)) =
      some [0, 32] := by decide
  have h2 : (latex_export leftover_host).map (fun e =>
      (List.range (leftover_host.STYLE_MAX + 1)).filter fun i => decide (e.styles i USED ≠ 0)) =
      some [0, 32] := by decide
  refine ⟨by decide, ?_, ?_⟩
  · cases he : html_export leftover_host false with
    | none => rw [he] at h1; simp at h1
    | some e =>
      rw [he, Option.map_some', Option.some.injEq] at h1
      refine ⟨e, rfl, ?_⟩
      rw [html_export_defs _ _ e he, html_rules_eq, h1]
      simp
  · cases he : latex_export leftover_host with
    | none => rw [he] at h2; simp at h2
    | some e =>
      rw [he, Option.map_some', Option.some.injEq] at h2
      refine ⟨e, rfl, ?_⟩
      rw [latex_export_defs _ e he, latex_cmds_eq, h2]
      simp

/-! ## The template (C4) -/

set_option maxRecDepth 1000000 in
/-- C4 at a failing input: for the document `{export_styles}` in style 0,
`write_html_file` hands to `write_data` a text that is not the template with its four
placeholders replaced by the file name, the date, the style definitions and the body:
the call of `string_replace_all` for `{export_styles}` also replaces the token that the
call for `{export_content}` has inserted with the body.  For the document "a" the two
texts are the same. -/
theorem C4_placeholder_in_text :
    (html_export placeholder_host false).map (fun e => decide (e.document =
      fill_template (TEMPLATE_HTML placeholder_host) (export_filename placeholder_host)
        placeholder_host.date_html e.defs e.body)) = some false ∧
    (html_export (sample_host [('a', 0)]) false).map (fun e => decide (e.document =
      fill_template (TEMPLATE_HTML (sample_host [('a', 0)]))
        (export_filename (sample_host [('a', 0)]))
        (sample_host [('a', 0)]).date_html e.defs e.body)) = some true := by
  decide

/-! ## Line breaks (C5) -/

/-- The letters of a style token lie between `a` and `z`. -/
theorem get_tex_style_loop_mem (fuel n : Nat) (c : Char)
    (hc : c ∈ get_tex_style_loop fuel n) : ∃ d, d < 26 ∧ c = Char.ofNat (d + 97) := by
  induction fuel generalizing n with
  | zero => simp [get_tex_style_loop] at hc
  | succ fuel ih =>
    have h97 : 'a'.toNat = 97 := rfl
    simp only [get_tex_style_loop, h97] at hc
    split_ifs at hc
    · rcases List.mem_cons.mp hc with hc | hc
      · exact ⟨n % 26, Nat.mod_lt _ (by norm_num), hc⟩
      · exact ih _ hc
    · rw [List.mem_singleton] at hc
      exact ⟨n % 26, Nat.mod_lt _ (by norm_num), hc⟩

/-- A style token has no newline. -/
theorem newline_not_mem_get_tex_style (n : Nat) : '\n' ∉ get_tex_style n := by
  intro hc
  obtain ⟨d, hd, heq⟩ := get_tex_style_loop_mem _ _ _ hc
  revert heq
  interval_cases d <;> decide

/-- The expansion of a tab in HTML has no newline. -/
theorem newline_not_mem_html_tab (n : Int) : '\n' ∉ html_tab n := by
  unfold html_tab
  intro hc
  rw [List.mem_flatten] at hc
  obtain ⟨l, hl, hcl⟩ := hc
  rw [List.eq_of_mem_replicate hl] at hcl
  revert hcl
  decide

/-- After a whole marker the number of its occurrences is one more. -/
theorem occurrences_append_pat (pat' s : List Char) (m : Char) (hm : m ∉ pat') :
    occurrences (pat' ++ [m]) (s ++ (pat' ++ [m])) = occurrences (pat' ++ [m]) s + 1 := by
  have hlast : (pat' ++ [m]).getLast? = some m := by simp
  rw [← List.append_assoc, occurrences_concat,
    occurrences_append_of_not_mem _ s pat' m hlast hm]
  have : (pat' ++ [m]).isSuffixOf (s ++ pat' ++ [m]) = true := by
    rw [List.isSuffixOf_iff_suffix, List.append_assoc]
    exact List.suffix_append _ _
  simp [this]

/-- The opening of a span, with the closing of the previous one, has no line break. -/
theorem occurrences_html_span_start (b : List Char) (op : Bool) (st : Nat) :
    occurrences HTML_BREAK (b ++ html_span_start op st) = occurrences HTML_BREAK b := by
  apply occurrences_append_of_not_mem _ _ _ '\n' (by decide)
  unfold html_span_start
  have hd := not_mem_fmt_d (st : Int) '\n' (by decide) (by decide)
  cases op <;> simp [hd]

/-- The text that the `switch` of `write_html_file` appends has one line-break marker
for `'\n'` and for a `'\r'` that no `'\n'` follows, and none otherwise. -/
theorem occurrences_html_switch (tw col : Int) (op : Bool) (c cn : Char) :
    ∀ p, html_switch tw col op c cn = some p → ∀ b,
      occurrences HTML_BREAK (b ++ p.out) = occurrences HTML_BREAK b +
        (if c = '\n' ∨ (c = '\r' ∧ cn ≠ '\n') then 1 else 0) := by
  have hlast : HTML_BREAK.getLast? = some '\n' := by decide
  apply html_switch_elim (motive := fun r => ∀ p, r = some p → ∀ b,
      occurrences HTML_BREAK (b ++ p.out) = occurrences HTML_BREAK b +
        (if c = '\n' ∨ (c = '\r' ∧ cn ≠ '\n') then 1 else 0)) tw col op c cn
  · intro h1 h2 p hp b
    cases hp
    subst h1; subst h2
    simp
  · intro h1 h2 p hp b
    cases hp
    have hcond : c = '\n' ∨ (c = '\r' ∧ cn ≠ '\n') := by
      rcases h1 with h1 | h1
      · exact Or.inr ⟨h1, fun hcn => h2 ⟨h1, hcn⟩⟩
      · exact Or.inl h1
    rw [if_pos hcond]
    have hsplit : HTML_BREAK = "<br />".toList ++ ['\n'] := by decide
    show occurrences HTML_BREAK (b ++ ((if op = true then "</span>".toList else []) ++
      "<br />\n".toList)) = _
    have hbr : "<br />\n".toList = HTML_BREAK := rfl
    rw [hbr, ← List.append_assoc, hsplit,
      occurrences_append_pat _ _ _ (by decide)]
    rw [← hsplit, occurrences_append_of_not_mem _ _ _ '\n' hlast (by cases op <;> decide)]
  · intro _ _ p hp; cases hp
  · intro h1 _ p hp b
    cases hp
    subst h1
    rw [occurrences_append_of_not_mem _ _ _ '\n' hlast (newline_not_mem_html_tab _)]
    simp
  iterate 4
    intro h1 p hp b
    cases hp
    subst h1
    dsimp only
    rw [occurrences_append_of_not_mem _ _ _ '\n' hlast (by decide)]
    simp
  · intro h1 h2 _ _ _ _ _ p hp b
    cases hp
    have hmem : '\n' ∉ [c] := by simp [Ne.symm h2]
    rw [occurrences_append_of_not_mem _ _ _ '\n' hlast hmem]
    simp [h1, h2]

/-- The closing of a LaTeX block, a brace and a newline, is not a line-break marker. -/
theorem occurrences_latex_close (b : List Char) :
    occurrences LATEX_BREAK (b ++ "\x7d\n".toList) = occurrences LATEX_BREAK b := by
  have h0 : "\x7d\n".toList = ['}'] ++ ['\n'] := by decide
  have h1 : LATEX_BREAK.isSuffixOf (b ++ ['}']) = false := by
    simp [List.isSuffixOf, LATEX_BREAK, List.isPrefixOf]
  have h2 : LATEX_BREAK.isSuffixOf (b ++ ['}'] ++ ['\n']) = false := by
    simp [List.isSuffixOf, LATEX_BREAK, List.isPrefixOf]
  rw [h0, ← List.append_assoc, occurrences_concat, occurrences_concat, h1, h2]
  simp

/-- The opening of a block, with the closing of the previous one, has no line break. -/
theorem occurrences_latex_block_start (b : List Char) (op : Bool) (st : Nat) :
    occurrences LATEX_BREAK (b ++ latex_block_start op st) = occurrences LATEX_BREAK b := by
  have hlast : LATEX_BREAK.getLast? = some '\n' := by decide
  have hrest : '\n' ∉ "\\style".toList ++ get_tex_style st ++ "\x7b".toList := by
    have := newline_not_mem_get_tex_style st
    simp [this]
  unfold latex_block_start
  cases op
  · simp only [Bool.false_eq_true, if_false, List.nil_append]
    exact occurrences_append_of_not_mem _ _ _ '\n' hlast hrest
  · simp only [if_true]
    rw [List.append_assoc, List.append_assoc, ← List.append_assoc b,
      ← List.append_assoc ("\\style".toList),
      occurrences_append_of_not_mem _ _ _ '\n' hlast hrest, occurrences_latex_close]

/-- The text that the `switch` of `write_latex_file` appends has one line-break marker
for `'\n'` and for a `'\r'` that no `'\n'` follows, and none otherwise. -/
theorem occurrences_latex_switch (tw col : Int) (op : Bool) (c cn : Char) :
    ∀ p, latex_switch tw col op c cn = some p → ∀ b,
      occurrences LATEX_BREAK (b ++ p.out) = occurrences LATEX_BREAK b +
        (if c = '\n' ∨ (c = '\r' ∧ cn ≠ '\n') then 1 else 0) := by
  have hlast : LATEX_BREAK.getLast? = some '\n' := by decide
  apply latex_switch_elim (motive := fun r => ∀ p, r = some p → ∀ b,
      occurrences LATEX_BREAK (b ++ p.out) = occurrences LATEX_BREAK b +
        (if c = '\n' ∨ (c = '\r' ∧ cn ≠ '\n') then 1 else 0)) tw col op c cn
  · intro h1 h2 p hp b
    cases hp
    subst h1; subst h2
    simp
  · intro h1 h2 p hp b
    cases hp
    have hcond : c = '\n' ∨ (c = '\r' ∧ cn ≠ '\n') := by
      rcases h1 with h1 | h1
      · exact Or.inr ⟨h1, fun hcn => h2 ⟨h1, hcn⟩⟩
      · exact Or.inl h1
    rw [if_pos hcond]
    have hsplit : LATEX_BREAK = " \\\\".toList ++ ['\n'] := by decide
    show occurrences LATEX_BREAK (b ++ ((if op = true then "\x7d".toList else []) ++
      " \\\\\n".toList)) = _
    have hbr : " \\\\\n".toList = LATEX_BREAK := rfl
    rw [hbr, ← List.append_assoc, hsplit,
      occurrences_append_pat _ _ _ (by decide)]
    rw [← hsplit, occurrences_append_of_not_mem _ _ _ '\n' hlast (by cases op <;> decide)]
  · intro _ _ p hp; cases hp
  · intro h1 _ p hp b
    cases hp
    subst h1
    have hd := not_mem_fmt_d (tw - Int.tmod col tw) '\n' (by decide) (by decide)
    have hmem : '\n' ∉ "\\hspace*\x7b".toList ++ fmt_d (tw - Int.tmod col tw) ++
        "em\x7d".toList := by simp [hd]
    dsimp only
    rw [occurrences_append_of_not_mem _ _ _ '\n' hlast hmem]
    simp
  · intro h1 _ p hp b
    cases hp; subst h1; dsimp only
    rw [occurrences_append_of_not_mem _ _ _ '\n' hlast (by decide)]
    simp
  · intro h1 _ p hp b
    cases hp; subst h1; dsimp only
    rw [occurrences_append_of_not_mem _ _ _ '\n' hlast (by decide)]
    simp
  · intro h1 p hp b
    cases hp
    have hmem : '\n' ∉ ['\\', c] := by
      rcases h1 with h | h | h | h | h | h | h <;> subst h <;> decide
    have hcond : ¬(c = '\n' ∨ (c = '\r' ∧ cn ≠ '\n')) := by
      rcases h1 with h | h | h | h | h | h | h <;> subst h <;> simp
    dsimp only
    rw [occurrences_append_of_not_mem _ _ _ '\n' hlast hmem, if_neg hcond]
    rfl
  iterate 3
    intro h1 p hp b
    cases hp; subst h1; dsimp only
    rw [occurrences_append_of_not_mem _ _ _ '\n' hlast (by decide)]
    simp
  iterate 6
    intro h1 _ p hp b
    cases hp; subst h1; dsimp only
    rw [occurrences_append_of_not_mem _ _ _ '\n' hlast (by decide)]
    simp
  · intro h1 h2 _ _ _ _ _ _ _ _ _ p hp b
    cases hp
    have hmem : '\n' ∉ [c] := by simp [Ne.symm h2]
    rw [occurrences_append_of_not_mem _ _ _ '\n' hlast hmem]
    simp [h1, h2]

/-- The look-ahead character is a newline exactly when the rest of the document starts
with one. -/
theorem next_is_newline_iff (h : Host) (i : Nat) :
    get_char_at h i ≠ '\n' ↔ ((h.text.drop i).map Prod.fst).head? ≠ some '\n' := by
  rw [get_char_at_eq_head, List.head?_map]
  cases (h.text.drop i).head? with
  | none => simp
  | some p => simp

/-- The invariant behind C5 for HTML: the markers written so far and the line breaks still
to be read add up to the line breaks of the document. -/
theorem html_line_breaks_step (h : Host) (s s' : Locals) (hi : s.i < get_length h)
    (hit : html_iteration h s = some s') :
    occurrences HTML_BREAK s'.body + line_breaks ((h.text.drop s'.i).map Prod.fst) =
      occurrences HTML_BREAK s.body + line_breaks ((h.text.drop s.i).map Prod.fst) := by
  obtain ⟨p, hp, hs, _⟩ := html_iteration_eq h s s' hit
  have hadv := html_switch_advance _ _ _ _ _ p hp
  have hocc := occurrences_html_switch _ _ _ _ _ p hp
  have hdrop := text_drop_eq h s.i hi
  have hnext := next_is_newline_iff h (s.i + 1)
  rw [hdrop, List.map_cons, line_breaks]
  have hi' : s'.i = s.i + 1 := by rw [hs]; split_ifs <;> simp [hadv]
  have hbody : occurrences HTML_BREAK s'.body = occurrences HTML_BREAK s.body +
      (if get_char_at h s.i = '\n' ∨
        (get_char_at h s.i = '\r' ∧ get_char_at h (s.i + 1) ≠ '\n') then 1 else 0) := by
    rw [hs]
    by_cases hb : (get_style_at h s.i ≠ s.old_style ∨ s.block_open = false) ∧
        isspace (get_char_at h s.i) = false
    · rw [if_pos hb]
      simp only [hocc, occurrences_html_span_start]
    · rw [if_neg hb]
      exact hocc _
  rw [hi', hbody]
  simp only [hnext]
  omega

/-- The invariant behind C5 for LaTeX. -/
theorem latex_line_breaks_step (h : Host) (s s' : Locals) (hi : s.i < get_length h)
    (hit : latex_iteration h s = some s') :
    occurrences LATEX_BREAK s'.body + line_breaks ((h.text.drop s'.i).map Prod.fst) =
      occurrences LATEX_BREAK s.body + line_breaks ((h.text.drop s.i).map Prod.fst) := by
  obtain ⟨p, hp, hs, _⟩ := latex_iteration_eq h s s' hit
  have hadv := latex_switch_advance _ _ _ _ _ p hp
  have hocc := occurrences_latex_switch _ _ _ _ _ p hp
  have hdrop := text_drop_eq h s.i hi
  have hnext := next_is_newline_iff h (s.i + 1)
  have hbody : occurrences LATEX_BREAK s'.body = occurrences LATEX_BREAK s.body +
      (if get_char_at h s.i = '\n' ∨
        (get_char_at h s.i = '\r' ∧ get_char_at h (s.i + 1) ≠ '\n') then 1 else 0) := by
    rw [hs]
    by_cases hb : get_style_at h s.i ≠ s.old_style ∨ s.block_open = false
    · rw [if_pos hb]
      simp only [hocc, occurrences_latex_block_start]
    · rw [if_neg hb]
      exact hocc _
  rw [hdrop, List.map_cons, line_breaks, hbody]
  rcases hadv with hadv | ⟨hadv, hceq, hc⟩
  · have hi' : s'.i = s.i + 1 := by rw [hs]; split_ifs <;> simp [hadv]
    rw [hi']
    simp only [hnext]
    omega
  · have hi' : s'.i = s.i + 2 := by rw [hs]; split_ifs <;> simp [hadv]
    have hlt : s.i + 1 < get_length h := by
      by_contra hge
      have hnone : h.text.get? (s.i + 1) = none := by
        rw [List.get?_eq_getElem?, List.getElem?_eq_none_iff]
        unfold get_length at hge
        omega
      have h0 : get_char_at h (s.i + 1) = Char.ofNat 0 := by
        unfold get_char_at
        rw [hnone]
      rw [← hceq] at h0
      rcases hc with hc | hc | hc | hc <;> rw [hc] at h0 <;> revert h0 <;> decide
    have hdrop2 := text_drop_eq h (s.i + 1) hlt
    rw [hi', hdrop2, List.map_cons, line_breaks, ← hceq]
    have hnb : ¬(get_char_at h s.i = '\n' ∨ get_char_at h s.i = '\r' ∧
        ((get_char_at h s.i :: List.map Prod.fst (List.drop (s.i + 1 + 1) h.text)).head? ≠
          some '\n')) := by
      rcases hc with hc | hc | hc | hc <;> rw [hc] <;> simp
    have hnb2 : ¬(get_char_at h s.i = '\n' ∨ get_char_at h s.i = '\r' ∧
        ((List.map Prod.fst (List.drop (s.i + 1 + 1) h.text)).head? ≠ some '\n')) := by
      rcases hc with hc | hc | hc | hc <;> rw [hc] <;> simp
    have hnb3 : ¬(get_char_at h s.i = '\n' ∨ get_char_at h s.i = '\r' ∧
        get_char_at h s.i ≠ '\n') := by
      rcases hc with hc | hc | hc | hc <;> rw [hc] <;> simp
    rw [if_neg hnb, if_neg hnb2, if_neg hnb3]
    simp

/-- C5: when the table holds `style_max` rows, the styles of the document lie below
`style_max` and the tab width is not zero, both exporters reach `write_data` and the
number of line-break markers in the body (`<br />` and a newline for HTML; a space, two
backslashes and a newline for LaTeX) is the number of `'\n'` characters plus the number of
`'\r'` characters not immediately followed by `'\n'`: a CR LF pair yields one marker. -/
theorem C5_line_breaks (h : Host) (use_zoom : Bool)
    (hcap : style_max h ≤ h.STYLE_MAX + 1) (hsty : ∀ p ∈ h.text, p.2 < style_max h)
    (htab : h.tab_width ≠ 0) :
    (∃ e, html_export h use_zoom = some e ∧
      occurrences HTML_BREAK e.body = line_breaks (h.text.map Prod.fst)) ∧
    (∃ e, latex_export h = some e ∧
      occurrences LATEX_BREAK e.body = line_breaks (h.text.map Prod.fst)) := by
  have hsty' := styles_in_table h hcap hsty
  constructor
  · obtain ⟨t, s, e, _, _, hs, hfin, he, hbody, _, _⟩ :=
      html_export_spec h use_zoom hcap hsty' htab
    refine ⟨e, he, ?_⟩
    have hinv := html_loop_invariant h
      (fun s => occurrences HTML_BREAK s.body +
        line_breaks ((h.text.drop s.i).map Prod.fst) = line_breaks (h.text.map Prod.fst))
      (fun s s' hi hP hit => by
        have := html_line_breaks_step h s s' hi hit
        simp only at hP ⊢
        omega)
      (get_length h) (loop_start t) s (by simp [loop_start, occurrences]; decide) hs
    have hdrop : h.text.drop s.i = [] := List.drop_of_length_le hfin
    simp only [hdrop, List.map_nil, line_breaks, Nat.add_zero] at hinv
    rw [hbody, occurrences_append_of_not_mem _ _ _ '\n' (by decide)
      (by cases s.block_open <;> decide)]
    exact hinv
  · obtain ⟨t, s, e, _, _, hs, hfin, he, hbody, _, _⟩ := latex_export_spec h hcap hsty' htab
    refine ⟨e, he, ?_⟩
    have hinv := latex_loop_invariant h
      (fun s => occurrences LATEX_BREAK s.body +
        line_breaks ((h.text.drop s.i).map Prod.fst) = line_breaks (h.text.map Prod.fst))
      (fun s s' hi hP hit => by
        have := latex_line_breaks_step h s s' hi hit
        simp only at hP ⊢
        omega)
      (get_length h) (loop_start t) s (by simp [loop_start, occurrences]; decide) hs
    have hdrop : h.text.drop s.i = [] := List.drop_of_length_le hfin
    simp only [hdrop, List.map_nil, line_breaks, Nat.add_zero] at hinv
    rw [hbody]
    cases hop : s.block_open
    · simpa using hinv
    · simp only [if_true]
      rw [occurrences_latex_close]
      exact hinv

/-- C5 at the document "a", CR, LF, "b": one marker in each body. -/
theorem C5_witness :
    (∃ e, html_export (sample_host [('a', 0), ('\r', 0), ('\n', 0), ('b', 0)]) false =
        some e ∧ occurrences HTML_BREAK e.body = 1) ∧
    (∃ e, latex_export (sample_host [('a', 0), ('\r', 0), ('\n', 0), ('b', 0)]) = some e ∧
        occurrences LATEX_BREAK e.body = 1) := by
  obtain ⟨⟨e1, he1, h1⟩, ⟨e2, he2, h2⟩⟩ :=
    C5_line_breaks (sample_host [('a', 0), ('\r', 0), ('\n', 0), ('b', 0)]) false
      (by decide) (by decide) (by decide)
  exact ⟨⟨e1, he1, h1.trans (by decide)⟩, ⟨e2, he2, h2.trans (by decide)⟩⟩

/-! ## Tab expansion (C6) -/

/-- The width of a tab expansion from a column `col ≥ 0` with tab width `w ≥ 1` lies
between 1 and `w` and leads to the next multiple of `w` above `col`. -/
theorem tab_stop_spec (w col : Int) (hw : 1 ≤ w) :
    1 ≤ w - col % w ∧ w - col % w ≤ w ∧ (col + (w - col % w)) % w = 0 ∧
      ∀ m, col < m → m % w = 0 → col + (w - col % w) ≤ m := by
  have hpos : 0 < w := by omega
  have h0 : 0 ≤ col % w := Int.emod_nonneg col (by omega)
  have h1 : col % w < w := Int.emod_lt_of_pos col hpos
  have hdiv : col % w + w * (col / w) = col := Int.emod_add_ediv col w
  have hsum : col + (w - col % w) = w * (col / w + 1) := by
    have : w * (col / w + 1) = w * (col / w) + w := by ring
    omega
  refine ⟨by omega, by omega, ?_, ?_⟩
  · rw [hsum]
    exact Int.mul_emod_right w _
  · intro m hm hmod
    obtain ⟨k, hk⟩ := Int.dvd_of_emod_eq_zero hmod
    have hlt : col / w < k := by
      apply Int.ediv_lt_of_lt_mul hpos
      rw [Int.mul_comm, ← hk]
      exact hm
    rw [hsum, hk]
    exact Int.mul_le_mul_of_nonneg_left (by omega) (by omega)

/-- C6: when a pass of either loop reads a tab with the column counter `col ≥ 0` and the
tab width `w ≥ 1` (and, for LaTeX, a style that is a row of the table), the pass appends
an expansion of width `N = w - col mod w` (`N` times `&nbsp;` in HTML, `\hspace*{Nem}`
in LaTeX, there after the start of a block when one starts), `1 ≤ N ≤ w`, and the column
counter afterwards is `col + N`, the least multiple of `w` above `col`. -/
theorem C6_tab_expansion (h : Host) (s : Locals) (htabc : get_char_at h s.i = '\t')
    (hcol : 0 ≤ s.column) (hw : 1 ≤ h.tab_width)
    (hst : get_style_at h s.i ≤ h.STYLE_MAX) :
    1 ≤ h.tab_width - s.column % h.tab_width ∧
    h.tab_width - s.column % h.tab_width ≤ h.tab_width ∧
    (∃ s', html_iteration h s = some s' ∧
      s'.body = s.body ++ (List.replicate (h.tab_width - s.column % h.tab_width).toNat
        "&nbsp;".toList).flatten ∧
      s'.column = s.column + (h.tab_width - s.column % h.tab_width)) ∧
    (∃ s', latex_iteration h s = some s' ∧
      s'.body = s.body ++
        (if get_style_at h s.i ≠ s.old_style ∨ s.block_open = false then
          latex_block_start s.block_open (get_style_at h s.i) else []) ++
        ("\\hspace*\x7b".toList ++ fmt_d (h.tab_width - s.column % h.tab_width) ++
          "em\x7d".toList) ∧
      s'.column = s.column + (h.tab_width - s.column % h.tab_width)) ∧
    (s.column + (h.tab_width - s.column % h.tab_width)) % h.tab_width = 0 ∧
    ∀ m, s.column < m → m % h.tab_width = 0 →
      s.column + (h.tab_width - s.column % h.tab_width) ≤ m := by
  obtain ⟨h1, h2, h3, h4⟩ := tab_stop_spec h.tab_width s.column hw
  have hne : h.tab_width ≠ 0 := by omega
  have htmod : Int.tmod s.column h.tab_width = s.column % h.tab_width :=
    Int.tmod_eq_emod hcol (by omega)
  have hsp : ¬ isspace '\t' = false := by decide
  have hnb : ¬('\t' = '\r' ∨ '\t' = '\n') := by decide
  refine ⟨h1, h2, ?_, ?_, h3, h4⟩
  · have hcond : ¬((get_style_at h s.i ≠ s.old_style ∨ s.block_open = false) ∧
        isspace (get_char_at h s.i) = false) := by
      rw [htabc]
      exact fun hh => hsp hh.2
    unfold html_iteration
    simp only [if_neg hcond]
    simp only [htabc]
    unfold html_switch
    simp only [if_neg hnb, if_true, if_neg hne, htmod, Option.map_some']
    refine ⟨_, rfl, rfl, ?_⟩
    show s.column + (h.tab_width - s.column % h.tab_width - 1) + 1 = _
    omega
  · unfold latex_iteration
    simp only [htabc, if_pos hst]
    unfold latex_switch
    simp only [if_neg hnb, if_true, if_neg hne, htmod, Option.map_some']
    by_cases hb : get_style_at h s.i ≠ s.old_style ∨ s.block_open = false
    · simp only [if_pos hb]
      refine ⟨_, rfl, rfl, ?_⟩
      show s.column + (h.tab_width - s.column % h.tab_width - 1) + 1 = _
      omega
    · simp only [if_neg hb]
      refine ⟨_, rfl, by simp, ?_⟩
      show s.column + (h.tab_width - s.column % h.tab_width - 1) + 1 = _
      omega

/-- C6 at column 3 with tab width 4: the expansion has width 1 and leads to column 4. -/
theorem C6_witness :
    (∃ s', html_iteration (sample_host [('a', 0), ('b', 0), ('c', 0), ('\t', 0)])
        tab_sample_locals = some s' ∧ s'.body = "abc&nbsp;".toList ∧ s'.column = 4) ∧
    (∃ s', latex_iteration (sample_host [('a', 0), ('b', 0), ('c', 0), ('\t', 0)])
        tab_sample_locals = some s' ∧ s'.body = "abc\\hspace*\x7b1em\x7d".toList ∧
        s'.column = 4) := by
  obtain ⟨_, _, ⟨s1, h1, h2, h3⟩, ⟨s2, h4, h5, h6⟩, _⟩ :=
    C6_tab_expansion (sample_host [('a', 0), ('b', 0), ('c', 0), ('\t', 0)])
      tab_sample_locals (by decide) (by decide) (by decide) (by decide)
  exact ⟨⟨s1, h1, h2.trans (by decide), h3.trans (by decide)⟩,
    ⟨s2, h4, h5.trans (by decide), h6.trans (by decide)⟩⟩

/-! ## Runs of spaces in LaTeX (C7) -/

/-- A loop that has reached the end of the document does nothing. -/
theorem latex_loop_done (h : Host) (fuel : Nat) (s : Locals) (hi : ¬ s.i < get_length h) :
    latex_loop h fuel s = some s := by
  cases fuel with
  | zero => rfl
  | succ fuel => rw [latex_loop, if_neg hi]

/-- Passes of the loop compose: `a + b` passes are `a` passes followed by `b` passes. -/
theorem latex_loop_add (h : Host) (a b : Nat) (s : Locals) :
    latex_loop h (a + b) s = (latex_loop h a s).bind (latex_loop h b) := by
  induction a generalizing s with
  | zero => simp [latex_loop]
  | succ a ih =>
    rw [Nat.succ_add]
    by_cases hi : s.i < get_length h
    · simp only [latex_loop, if_pos hi]
      cases latex_iteration h s with
      | none => rfl
      | some s1 => simp only [Option.some_bind, ih]
    · simp only [latex_loop, if_neg hi, Option.some_bind]
      exact (latex_loop_done h b s hi).symm

/-- A pass that reads a space followed by a space, with the block of the style open,
appends one fixed-width space construct and advances the index by two. -/
theorem latex_iteration_space_pair (h : Host) (s : Locals)
    (hc : get_char_at h s.i = ' ') (hn : get_char_at h (s.i + 1) = ' ')
    (hst : get_style_at h s.i = s.old_style) (hop : s.block_open = true) :
    latex_iteration h s = some { s with
      i := s.i + 2, column := s.column + 1, body := s.body ++ LATEX_HSPACE } := by
  have hb : ¬(get_style_at h s.i ≠ s.old_style ∨ s.block_open = false) := by
    simp [hst, hop]
  have h1 : ¬(' ' = '\r' ∨ ' ' = '\n') := by decide
  have h2 : ¬(' ' = '\t') := by decide
  unfold latex_iteration
  simp only [if_neg hb, hc, hn]
  unfold latex_switch
  simp only [if_neg h1, if_neg h2, if_true, Option.map_some', hop]
  rfl

/-- A pass that reads a space not followed by a space, with the block of the style open,
appends one plain space and advances the index by one. -/
theorem latex_iteration_space_single (h : Host) (s : Locals)
    (hc : get_char_at h s.i = ' ') (hn : get_char_at h (s.i + 1) ≠ ' ')
    (hst : get_style_at h s.i = s.old_style) (hop : s.block_open = true) :
    latex_iteration h s = some { s with
      i := s.i + 1, column := s.column + 1, body := s.body ++ [' '] } := by
  have hb : ¬(get_style_at h s.i ≠ s.old_style ∨ s.block_open = false) := by
    simp [hst, hop]
  have h1 : ¬(' ' = '\r' ∨ ' ' = '\n') := by decide
  have h2 : ¬(' ' = '\t') := by decide
  unfold latex_iteration
  simp only [if_neg hb, hc]
  unfold latex_switch
  simp only [if_neg h1, if_neg h2, if_true, if_neg hn, Option.map_some', hop]

/-- The markup of two more spaces starts with one more construct. -/
theorem latex_spaces_markup_add_two (n : Nat) :
    latex_spaces_markup (n + 2) = LATEX_HSPACE ++ latex_spaces_markup n := by
  unfold latex_spaces_markup
  have h1 : (n + 2) / 2 = n / 2 + 1 := by omega
  have h2 : (n + 2) % 2 = n % 2 := by omega
  rw [h1, h2, List.replicate_succ, List.flatten_cons, List.append_assoc]

/-- From a pass that starts at a run of `n` spaces of the style of the open block, the
loop writes the markup of the run in `(n + 1) / 2` passes. -/
theorem latex_loop_spaces_open (h : Host) (st : Nat) :
    ∀ n (s : Locals), s.block_open = true → s.old_style = st →
      (∀ j, j < n → get_char_at h (s.i + j) = ' ' ∧ get_style_at h (s.i + j) = st) →
      get_char_at h (s.i + n) ≠ ' ' → s.i + n ≤ get_length h →
      latex_loop h ((n + 1) / 2) s = some { s with
        i := s.i + n, column := s.column + ((n + 1) / 2 : Nat),
        body := s.body ++ latex_spaces_markup n } := by
  intro n
  induction n using Nat.strong_induction_on with
  | _ n ih =>
    intro s hop hos hrun hend hlen
    match n, ih, hrun, hend, hlen with
    | 0, _, _, _, _ =>
      simp [latex_loop, latex_spaces_markup]
    | 1, _, hrun, hend, hlen =>
      have h0 := hrun 0 (by omega)
      simp only [Nat.add_zero] at h0
      have hi : s.i < get_length h := by omega
      have hit := latex_iteration_space_single h s h0.1 hend (h0.2.trans hos.symm) hop
      simp only [Nat.reduceAdd, Nat.reduceDiv, latex_loop, if_pos hi, hit, Option.some_bind]
      simp [latex_spaces_markup]
    | n + 2, ih, hrun, hend, hlen =>
      have h0 := hrun 0 (by omega)
      have h1 := hrun 1 (by omega)
      simp only [Nat.add_zero] at h0
      have hi : s.i < get_length h := by omega
      have hit := latex_iteration_space_pair h s h0.1 h1.1 (h0.2.trans hos.symm) hop
      have hfuel : (n + 2 + 1) / 2 = 1 + (n + 1) / 2 := by omega
      rw [hfuel, latex_loop_add]
      simp only [latex_loop, if_pos hi, hit, Option.some_bind]
      have ih1 := ih n (by omega)
        { s with i := s.i + 2, column := s.column + 1, body := s.body ++ LATEX_HSPACE }
        hop hos
        (fun j hj => by
          have := hrun (j + 2) (by omega)
          simpa [Nat.add_assoc, Nat.add_comm 2 j] using this)
        (by simpa [Nat.add_assoc, Nat.add_comm 2 n] using hend)
        (by simp only; omega)
      rw [ih1]
      simp only [latex_spaces_markup_add_two, Option.some.injEq, Locals.mk.injEq,
        List.append_assoc, and_true, true_and]
      constructor
      · omega
      · push_cast
        omega

/-- The statements under the test on the style act before the `switch`: a pass that starts
a block is the pass from the locals in which the block has been started. -/
theorem latex_iteration_block_start (h : Host) (s : Locals)
    (hb : get_style_at h s.i ≠ s.old_style ∨ s.block_open = false)
    (hst : get_style_at h s.i ≤ h.STYLE_MAX) :
    latex_iteration h s = latex_iteration h { s with
      old_style := get_style_at h s.i
      block_open := true
      body := s.body ++ latex_block_start s.block_open (get_style_at h s.i)
      styles := s.styles.set (get_style_at h s.i) USED 1 } := by
  have hnb : ¬(get_style_at h s.i ≠ get_style_at h s.i ∨ true = false) := by simp
  unfold latex_iteration
  simp only [if_pos hb, if_pos hst, if_neg hnb]

/-- From a pass that starts at a maximal run of `n ≥ 1` spaces of one style, the loop
writes the start of a block when the style changes or no block is open, then the markup
of the run, in `(n + 1) / 2` passes. -/
theorem latex_loop_spaces (h : Host) (st : Nat) (hst : st ≤ h.STYLE_MAX) (n : Nat)
    (hn : 1 ≤ n) (s : Locals)
    (hrun : ∀ j, j < n → get_char_at h (s.i + j) = ' ' ∧ get_style_at h (s.i + j) = st)
    (hend : get_char_at h (s.i + n) ≠ ' ') (hlen : s.i + n ≤ get_length h) :
    latex_loop h ((n + 1) / 2) s = some
      { i := s.i + n
        old_style := st
        column := s.column + ((n + 1) / 2 : Nat)
        block_open := true
        body := s.body ++ (if st ≠ s.old_style ∨ s.block_open = false then
          latex_block_start s.block_open st else []) ++ latex_spaces_markup n
        styles := if st ≠ s.old_style ∨ s.block_open = false then s.styles.set st USED 1
          else s.styles } := by
  have h0 := hrun 0 (by omega)
  simp only [Nat.add_zero] at h0
  have hi : s.i < get_length h := by omega
  by_cases hb : st ≠ s.old_style ∨ s.block_open = false
  · have hb' : get_style_at h s.i ≠ s.old_style ∨ s.block_open = false := by
      rw [h0.2]; exact hb
    have hst' : get_style_at h s.i ≤ h.STYLE_MAX := by rw [h0.2]; exact hst
    obtain ⟨m, hm⟩ : ∃ m, (n + 1) / 2 = m + 1 := ⟨(n + 1) / 2 - 1, by omega⟩
    have hfirst : latex_loop h ((n + 1) / 2) s = latex_loop h ((n + 1) / 2) { s with
        old_style := get_style_at h s.i
        block_open := true
        body := s.body ++ latex_block_start s.block_open (get_style_at h s.i)
        styles := s.styles.set (get_style_at h s.i) USED 1 } := by
      rw [hm]
      simp only [latex_loop, if_pos hi]
      rw [latex_iteration_block_start h s hb' hst']
    have key := latex_loop_spaces_open h st n { s with
        old_style := get_style_at h s.i
        block_open := true
        body := s.body ++ latex_block_start s.block_open (get_style_at h s.i)
        styles := s.styles.set (get_style_at h s.i) USED 1 } rfl h0.2 hrun hend hlen
    rw [hfirst, key]
    simp only [if_pos hb, h0.2, List.append_assoc]
  · have hop : s.block_open = true := by
      by_contra hne
      exact hb (Or.inr (by simpa using hne))
    have hos : s.old_style = st := by
      by_contra hne
      exact hb (Or.inl (fun hh => hne hh.symm))
    rw [latex_loop_spaces_open h st n s hop hos hrun hend hlen, if_neg hb, if_neg hb]
    simp only [List.append_nil, hop, hos]

/-! ### Which offsets the LaTeX loop visits -/

/-- A pass of the defined loop advances by one, or by two over a pair of equal characters
among space, `-`, `<`, `>`. -/
theorem latex_iteration_next (h : Host) (s : Locals)
    (hst : get_style_at h s.i ≤ h.STYLE_MAX) (htab : h.tab_width ≠ 0) :
    ∃ s', latex_iteration h s = some s' ∧
      (s'.i = s.i + 1 ∨ (s'.i = s.i + 2 ∧ get_char_at h s.i = get_char_at h (s.i + 1) ∧
        (get_char_at h s.i = ' ' ∨ get_char_at h s.i = '-' ∨ get_char_at h s.i = '<' ∨
          get_char_at h s.i = '>'))) := by
  obtain ⟨s', hs'⟩ := latex_iteration_defined h s hst htab
  obtain ⟨p, hp, heq, _⟩ := latex_iteration_eq h s s' hs'
  refine ⟨s', hs', ?_⟩
  have hi : s'.i = s.i + p.advance := by rw [heq]; split_ifs <;> rfl
  rcases latex_switch_advance _ _ _ _ _ p hp with h1 | ⟨h2, h3, h4⟩
  · left; rw [hi, h1]
  · right; exact ⟨by rw [hi, h2], h3, h4⟩

/-- Every offset up to the length is visited by the LaTeX loop, unless it is the second
character of a pair that the pass at the offset before consumes; the loop then visits the
offset after it. -/
theorem latex_loop_visits (h : Host) (t : Styles) (hsty : ∀ p ∈ h.text, p.2 ≤ h.STYLE_MAX)
    (htab : h.tab_width ≠ 0) :
    ∀ p, p ≤ get_length h →
      (∃ k s, latex_loop h k (loop_start t) = some s ∧ s.i = p) ∨
      (∃ q, p = q + 1 ∧ get_char_at h q = get_char_at h (q + 1) ∧
        (get_char_at h q = ' ' ∨ get_char_at h q = '-' ∨ get_char_at h q = '<' ∨
          get_char_at h q = '>') ∧
        ∃ k s, latex_loop h k (loop_start t) = some s ∧ s.i = q + 2) := by
  intro p
  induction p with
  | zero => intro _; exact Or.inl ⟨0, loop_start t, rfl, rfl⟩
  | succ p ih =>
    intro hp
    rcases ih (by omega) with ⟨k, s, hk, hs⟩ | ⟨q, hq, _, _, k, s, hk, hs⟩
    · have hi : s.i < get_length h := by omega
      obtain ⟨s', hit, hnext⟩ := latex_iteration_next h s (hsty _ (text_mem h s.i hi)) htab
      have hk1 : latex_loop h (k + 1) (loop_start t) = some s' := by
        rw [latex_loop_add, hk, Option.some_bind]
        simp only [latex_loop, if_pos hi, hit, Option.some_bind]
      rcases hnext with h1 | ⟨h2, h3, h4⟩
      · exact Or.inl ⟨k + 1, s', hk1, by omega⟩
      · rw [hs] at h2 h3 h4
        exact Or.inr ⟨p, rfl, h3, h4, k + 1, s', hk1, h2⟩
    · exact Or.inl ⟨k, s, hk, by omega⟩

/-- Reading inside the middle part of a document split in three. -/
theorem text_get_middle (h : Host) (pre mid post : List (Char × Nat))
    (htext : h.text = pre ++ mid ++ post) (j : Nat) (hj : j < mid.length) :
    h.text.get? (pre.length + j) = mid.get? j := by
  rw [htext, List.get?_eq_getElem?, List.get?_eq_getElem?, List.append_assoc,
    List.getElem?_append_right (by omega), Nat.add_sub_cancel_left,
    List.getElem?_append_left hj]

/-- Reading just after the middle part of a document split in three. -/
theorem text_get_after (h : Host) (pre mid post : List (Char × Nat))
    (htext : h.text = pre ++ mid ++ post) :
    h.text.get? (pre.length + mid.length) = post.head? := by
  rw [htext, List.get?_eq_getElem?, List.getElem?_append_right (by simp)]
  simp [List.head?_eq_getElem?]

/-- Reading the last character of the first part of a document split in three. -/
theorem text_get_before (h : Host) (pre mid post : List (Char × Nat))
    (htext : h.text = pre ++ mid ++ post) (q : Nat) (hq : pre.length = q + 1) :
    h.text.get? q = pre.getLast? := by
  rw [htext, List.get?_eq_getElem?, List.append_assoc,
    List.getElem?_append_left (by omega), List.getLast?_eq_getElem?, hq]
  simp

/-- C7: in a document with a maximal run of `n ≥ 1` spaces of one style `st` (the
character before the run, if any, and the character after it, if any, are not spaces),
with styles that are rows of the table and a non-zero tab width, the loop of
`write_latex_file` reaches the first space of the run after some number `k` of passes,
and `(n + 1) / 2` passes later it stands just after the run and has appended the start
of a block, when the style changes or no block is open, followed by `n / 2` copies of the
fixed-width space construct and one plain space when `n` is odd: each construct is
written by one pass that advances the index by two. -/
theorem C7_double_space (h : Host) (t : Styles) (pre post : List (Char × Nat))
    (n st : Nat) (htext : h.text = pre ++ List.replicate n (' ', st) ++ post)
    (hn : 1 ≤ n) (hpre : ∀ p, pre.getLast? = some p → p.1 ≠ ' ')
    (hpost : ∀ p, post.head? = some p → p.1 ≠ ' ')
    (hsty : ∀ p ∈ h.text, p.2 ≤ h.STYLE_MAX) (htab : h.tab_width ≠ 0) :
    ∃ k s, latex_loop h k (loop_start t) = some s ∧ s.i = pre.length ∧
      latex_loop h (k + (n + 1) / 2) (loop_start t) = some
        { i := pre.length + n
          old_style := st
          column := s.column + ((n + 1) / 2 : Nat)
          block_open := true
          body := s.body ++ (if st ≠ s.old_style ∨ s.block_open = false then
            latex_block_start s.block_open st else []) ++
            ((List.replicate (n / 2) LATEX_HSPACE).flatten ++
              (if n % 2 = 1 then [' '] else []))
          styles := if st ≠ s.old_style ∨ s.block_open = false then s.styles.set st USED 1
            else s.styles } := by
  have hlenrep : (List.replicate n (' ', st)).length = n := List.length_replicate _ _
  have hrun : ∀ j, j < n → get_char_at h (pre.length + j) = ' ' ∧
      get_style_at h (pre.length + j) = st := by
    intro j hj
    have hg := text_get_middle h pre _ post htext j (by rw [hlenrep]; exact hj)
    rw [List.get?_eq_getElem?, List.get?_eq_getElem?, List.getElem?_replicate,
      if_pos hj, ← List.get?_eq_getElem?] at hg
    simp only [get_char_at, get_style_at, hg, and_self]
  have hend : get_char_at h (pre.length + n) ≠ ' ' := by
    have hg := text_get_after h pre _ post htext
    rw [hlenrep] at hg
    unfold get_char_at
    rw [hg]
    cases hp : post.head? with
    | none => decide
    | some p => exact hpost p hp
  have hlen : pre.length + n ≤ get_length h := by
    simp [get_length, htext]
  have hmem : (' ', st) ∈ h.text := by
    rw [htext]
    simp only [List.mem_append, List.mem_replicate]
    exact Or.inl (Or.inr ⟨by omega, trivial⟩)
  have hst : st ≤ h.STYLE_MAX := hsty _ hmem
  have hvisit := latex_loop_visits h t hsty htab pre.length (by omega)
  have hreach : ∃ k s, latex_loop h k (loop_start t) = some s ∧ s.i = pre.length := by
    rcases hvisit with hv | ⟨q, hq, hceq, _, _⟩
    · exact hv
    · exfalso
      have hg := text_get_before h pre _ post htext q hq
      have h0 := (hrun 0 (by omega)).1
      rw [Nat.add_zero, hq] at h0
      rw [h0] at hceq
      cases hp : pre.getLast? with
      | none =>
        have : pre = [] := List.getLast?_eq_none_iff.mp hp
        rw [this] at hq
        simp at hq
      | some p =>
        have hne := hpre p hp
        apply hne
        rw [hp] at hg
        simp only [get_char_at, hg] at hceq
        exact hceq
  obtain ⟨k, s, hk, hs⟩ := hreach
  refine ⟨k, s, hk, hs, ?_⟩
  rw [latex_loop_add, hk, Option.some_bind,
    latex_loop_spaces h st hst n hn s (by rw [hs]; exact hrun) (by rw [hs]; exact hend)
      (by rw [hs]; exact hlen), hs]
  rfl

/-- C7 at the document "a", three spaces, "b": some passes reach the run at offset 1, and
two more passes (one construct, one plain space) lead to offset 4. -/
theorem C7_witness :
    ∃ k s, latex_loop (sample_host [('a', 0), (' ', 0), (' ', 0), (' ', 0), ('b', 0)]) k
        (loop_start (fun _ _ => 0)) = some s ∧ s.i = 1 ∧
      ∃ s', latex_loop (sample_host [('a', 0), (' ', 0), (' ', 0), (' ', 0), ('b', 0)])
        (k + 2) (loop_start (fun _ _ => 0)) = some s' ∧ s'.i = 4 ∧
        s'.column = s.column + 2 := by
  obtain ⟨k, s, h1, h2, h3⟩ := C7_double_space
    (sample_host [('a', 0), (' ', 0), (' ', 0), (' ', 0), ('b', 0)]) (fun _ _ => 0)
    [('a', 0)] [('b', 0)] 3 0 rfl (by decide) (by decide) (by decide) (by decide)
    (by decide)
  exact ⟨k, s, h1, h2, _, h3, rfl, rfl⟩

/-! ## The example "a--b" (C8) -/

/-- C8 (as stated) fails: for "a--b" in style 0 the body is not the text `\stylea{`, `a-`,
the ligature break, `-b`, `}`, because the block is closed with a brace and a newline. -/
theorem C8_counterexample :
    (latex_export (sample_host [('a', 0), ('-', 0), ('-', 0), ('b', 0)])).map
      (fun e => e.body) ≠ some ("\\style".toList ++ get_tex_style 0 ++
        "\x7ba-\\/-b\x7d".toList) := by
  decide

/-- C8 (as amended): for the document "a--b" with all four characters of one style `s`
below `style_max`, and a table that holds `style_max` rows, the body that
`write_latex_file` produces is `\style<token>{`, `a-`, the ligature break (a backslash
and a slash), `-b`, `}` and a newline, where `<token>` is `get_tex_style s`. -/
theorem C8_latex_example (h : Host) (s : Nat)
    (htext : h.text = [('a', s), ('-', s), ('-', s), ('b', s)])
    (hcap : style_max h ≤ h.STYLE_MAX + 1) (hs : s < style_max h) :
    (latex_export h).map (fun e => e.body) =
      some ("\\style".toList ++ get_tex_style s ++ "\x7ba-\\/-b\x7d\n".toList) := by
  obtain ⟨t, ht, _, _⟩ := latex_read_styles_spec h (style_max h) hcap
  have hle : s ≤ h.STYLE_MAX := by omega
  have hlen : get_length h = 4 := by simp [get_length, htext]
  have hloop : ∃ s', latex_loop h (get_length h) (loop_start t) = some s' ∧ s'.i = 4 ∧
      s'.block_open = true ∧
      s'.body = "\\style".toList ++ get_tex_style s ++ "\x7ba-\\/-b".toList := by
    rw [hlen]
    simp [latex_loop, latex_iteration, latex_switch, latex_block_start, loop_start,
      get_length, get_char_at, get_style_at, htext, hle]
  obtain ⟨s', hs', hi, hop, hbody⟩ := hloop
  obtain ⟨e, he, hb, _⟩ := latex_export_of_loop h t s' ht hs' (by omega)
  rw [he, Option.map_some', hb, hbody, hop]
  simp

/-- C8 at style 1: the token is "b" and the body ends with a brace and a newline. -/
theorem C8_witness :
    (latex_export (sample_host [('a', 1), ('-', 1), ('-', 1), ('b', 1)])).map
      (fun e => e.body) = some "\\styleb\x7ba-\\/-b\x7d\n".toList :=
  (C8_latex_example (sample_host [('a', 1), ('-', 1), ('-', 1), ('b', 1)]) 1 rfl
    (by decide) (by decide)).trans (by decide)

/-! ## The style identifier is unique (C11) -/

/-- The letters of two base-26 digits are equal only when the digits are. -/
theorem style_letter_injective (a b : Nat) (ha : a < 26) (hb : b < 26)
    (hab : Char.ofNat (a + 97) = Char.ofNat (b + 97)) : a = b := by
  have key : ∀ d, d < 26 → (Char.ofNat (d + 97)).toNat = d + 97 := by decide
  have h1 := key a ha
  have h2 := key b hb
  rw [hab, h2] at h1
  omega

/-- Two lists of base-26 digits with the same letters are equal. -/
theorem style_letters_injective (l1 l2 : List Nat) (h1 : ∀ d ∈ l1, d < 26)
    (h2 : ∀ d ∈ l2, d < 26)
    (heq : l1.map (fun d => Char.ofNat (d + 97)) = l2.map (fun d => Char.ofNat (d + 97))) :
    l1 = l2 := by
  induction l1 generalizing l2 with
  | nil =>
    cases l2 with
    | nil => rfl
    | cons b l2 => simp at heq
  | cons a l1 ih =>
    cases l2 with
    | nil => simp at heq
    | cons b l2 =>
      simp only [List.map_cons, List.cons.injEq] at heq
      have hab := style_letter_injective a b (h1 a (List.mem_cons_self _ _))
        (h2 b (List.mem_cons_self _ _)) heq.1
      rw [hab, ih l2 (fun d hd => h1 d (List.mem_cons_of_mem _ hd))
        (fun d hd => h2 d (List.mem_cons_of_mem _ hd)) heq.2]

/-- The digit list of a style index: the base-26 digits, or one digit 0 for the index 0. -/
theorem style_digits_injective (m n : Nat)
    (heq : (if m = 0 then [0] else Nat.digits 26 m) = (if n = 0 then [0] else Nat.digits 26 n)) :
    m = n := by
  have key : ∀ k, k ≠ 0 → Nat.digits 26 k ≠ [0] := by
    intro k hk hd
    rw [Nat.digits_def' (by norm_num) (Nat.pos_of_ne_zero hk)] at hd
    simp only [List.cons.injEq] at hd
    have h2 : k / 26 = 0 := Nat.digits_eq_nil_iff_eq_zero.mp hd.2
    omega
  by_cases hm : m = 0
  · by_cases hn : n = 0
    · rw [hm, hn]
    · rw [if_pos hm, if_neg hn] at heq
      exact absurd heq.symm (key n hn)
  · by_cases hn : n = 0
    · rw [if_neg hm, if_pos hn] at heq
      exact absurd heq (key m hm)
    · rw [if_neg hm, if_neg hn] at heq
      exact Nat.digits_inj_iff.mp heq

/-- The token of a style index below `26 ^ 3` has at most three letters, so that it fits
the buffer of `get_tex_style` with its terminator. -/
theorem get_tex_style_fits (n : Nat) (hn : n < 26 ^ 3) :
    (get_tex_style n).length < get_tex_style_buf_size := by
  unfold get_tex_style get_tex_style_buf_size
  rw [get_tex_style_loop_eq_digits _ _ (Nat.lt_succ_self n)]
  by_cases h0 : n = 0
  · subst h0; simp
  · rw [if_neg h0, List.length_map, Nat.digits_len 26 n (by norm_num) h0]
    have := Nat.log_lt_of_lt_pow h0 hn
    omega

/-- C11: two style indices below `26 ^ 3` have tokens `get_tex_style` that fit the
buffer, and when the tokens are equal the indices are equal, so different styles never
share a macro name. -/
theorem C11_get_tex_style_injective (m n : Nat) (hm : m < 26 ^ 3) (hn : n < 26 ^ 3)
    (heq : get_tex_style m = get_tex_style n) :
    m = n ∧ (get_tex_style m).length < get_tex_style_buf_size ∧
      (get_tex_style n).length < get_tex_style_buf_size := by
  refine ⟨?_, get_tex_style_fits m hm, get_tex_style_fits n hn⟩
  have hlt : ∀ k, ∀ d ∈ (if k = 0 then [0] else Nat.digits 26 k), d < 26 := by
    intro k d hd
    by_cases hk : k = 0
    · rw [if_pos hk] at hd
      simp only [List.mem_singleton] at hd
      omega
    · rw [if_neg hk] at hd
      exact Nat.digits_lt_base (by norm_num) hd
  unfold get_tex_style at heq
  rw [get_tex_style_loop_eq_digits _ _ (Nat.lt_succ_self m),
    get_tex_style_loop_eq_digits _ _ (Nat.lt_succ_self n)] at heq
  exact style_digits_injective m n (style_letters_injective _ _ (hlt m) (hlt n) heq)

/-- C11 at the index 26 on both sides, and read contrapositively at the indices 1 and
26: their tokens "b" and "ab" differ, as the indices do. -/
theorem C11_witness :
    (get_tex_style 26 = get_tex_style 26 ∧ (26 : Nat) = 26) ∧
      get_tex_style 1 ≠ get_tex_style 26 :=
  ⟨⟨rfl, (C11_get_tex_style_injective 26 26 (by decide) (by decide) rfl).1⟩,
    fun heq => absurd (C11_get_tex_style_injective 1 26 (by decide) (by decide) heq).1
      (by decide)⟩

/-! ## The bytes of a packed colour -/

/-- A colour below `2 ^ 24` has no bit at or above position 24. -/
theorem testBit_colour_high (v i : Nat) (hv : v < 2 ^ 24) (hi : 24 ≤ i) :
    v.testBit i = false :=
  Nat.testBit_lt_two_pow (lt_of_lt_of_le hv (Nat.pow_le_pow_right (by norm_num) hi))

/-- The mask `- 16711936` of `get_tex_rgb` followed by the division by 256 extracts the
middle byte of a 24-bit colour. -/
theorem and_mask_middle (v : Nat) (hv : v < 2 ^ 24) :
    (v &&& 4278255360) / 256 = v / 256 % 256 := by
  have h256 : (256 : Nat) = 2 ^ 8 := by norm_num
  rw [h256, ← Nat.shiftRight_eq_div_pow, ← Nat.shiftRight_eq_div_pow]
  apply Nat.eq_of_testBit_eq
  intro i
  rw [Nat.testBit_shiftRight, Nat.testBit_and, Nat.testBit_mod_two_pow,
    Nat.testBit_shiftRight]
  by_cases hi : i < 8
  · have hm : Nat.testBit 4278255360 (8 + i) = true := by interval_cases i <;> decide
    simp [hm, hi]
  · by_cases hi2 : i < 16
    · have hm : Nat.testBit 4278255360 (8 + i) = false := by interval_cases i <;> decide
      simp [hm, hi]
    · have hb := testBit_colour_high v (8 + i) hv (by omega)
      simp [hb, hi]

/-- The mask `0xff0000` followed by the division by 65536 extracts the high byte of a
24-bit colour. -/
theorem and_mask_high (v : Nat) (hv : v < 2 ^ 24) :
    (v &&& 0xff0000) / 65536 = v / 65536 := by
  have h65536 : (65536 : Nat) = 2 ^ 16 := by norm_num
  rw [h65536, ← Nat.shiftRight_eq_div_pow, ← Nat.shiftRight_eq_div_pow]
  apply Nat.eq_of_testBit_eq
  intro i
  rw [Nat.testBit_shiftRight, Nat.testBit_and, Nat.testBit_shiftRight]
  by_cases hi : i < 8
  · have hm : Nat.testBit 0xff0000 (16 + i) = true := by interval_cases i <;> decide
    simp [hm]
  · have hb := testBit_colour_high v (16 + i) hv (by omega)
    simp [hb]

/-- The mask `0x00FF00` keeps the middle byte of a 24-bit colour in its place. -/
theorem and_mask_middle_in_place (v : Nat) :
    v &&& 0x00FF00 = (v / 256 % 256) * 256 := by
  have h256 : (256 : Nat) = 2 ^ 8 := by norm_num
  rw [h256, ← Nat.shiftLeft_eq, ← Nat.shiftRight_eq_div_pow]
  apply Nat.eq_of_testBit_eq
  intro i
  rw [Nat.testBit_and, Nat.testBit_shiftLeft, Nat.testBit_mod_two_pow,
    Nat.testBit_shiftRight]
  by_cases hi : i < 8
  · have hm : Nat.testBit 0x00FF00 i = false := by interval_cases i <;> decide
    have hge : ¬ i ≥ 8 := by omega
    simp [hm, hge]
  · by_cases hi2 : i < 16
    · have hm : Nat.testBit 0x00FF00 i = true := by interval_cases i <;> decide
      have hge : i ≥ 8 := by omega
      have hsub : 8 + (i - 8) = i := by omega
      have hlt : i - 8 < 8 := by omega
      simp [hm, hge, hsub, hlt]
    · have hm : Nat.testBit 0x00FF00 i = false :=
        Nat.testBit_lt_two_pow (lt_of_lt_of_le (by norm_num : 0x00FF00 < 2 ^ 16)
          (Nat.pow_le_pow_right (by norm_num) (by omega)))
      have hlt : ¬ i - 8 < 8 := by omega
      simp [hm, hlt]

/-- The mask `0x0000FF` keeps the low byte of a colour. -/
theorem and_mask_low (v : Nat) : v &&& 0x0000FF = v % 256 := by
  have h : (0x0000FF : Nat) = 2 ^ 8 - 1 := by norm_num
  rw [h, Nat.and_pow_two_sub_one_eq_mod]

/-- The macro `ROTATE_RGB` exchanges the low and the high byte of a 24-bit colour. -/
theorem ROTATE_RGB_eq (v : Nat) (hv : v < 2 ^ 24) :
    ROTATE_RGB v = (v % 256) * 65536 + (v / 256 % 256) * 256 + v / 65536 := by
  have hhigh : (v &&& 0xFF0000) >>> 16 = v / 65536 := by
    rw [Nat.shiftRight_eq_div_pow]
    exact and_mask_high v hv
  unfold ROTATE_RGB
  rw [hhigh, and_mask_middle_in_place v, and_mask_low, Nat.shiftLeft_eq]
  omega

/-! ## The colour conversions (C12, C13, C14) -/

/-- One decimal digit printed by `fmt_d`. -/
theorem fmt_d_digit (d : Nat) (hd : d < 10) : fmt_d (d : Int) = [Char.ofNat (d + 48)] := by
  have hnn : ¬ ((d : Int) < 0) := by omega
  unfold fmt_d
  rw [if_neg hnn, Int.toNat_ofNat, dec_digits, if_pos hd]

/-- The text of `get_tex_rgb` in terms of the three scaled values. -/
theorem get_tex_rgb_eq (v : Nat) :
    get_tex_rgb v =
      fmt_d ((tex_scaled (v % 256) / 10 : Nat) : Int) ++ ['.'] ++
        fmt_d ((tex_scaled (v % 256) % 10 : Nat) : Int) ++ ", ".toList ++
      fmt_d ((tex_scaled ((v &&& 4278255360) / 256) / 10 : Nat) : Int) ++ ['.'] ++
        fmt_d ((tex_scaled ((v &&& 4278255360) / 256) % 10 : Nat) : Int) ++ ", ".toList ++
      fmt_d ((tex_scaled ((v &&& 0xff0000) / 65536) / 10 : Nat) : Int) ++ ['.'] ++
        fmt_d ((tex_scaled ((v &&& 0xff0000) / 65536) % 10 : Nat) : Int) := by
  simp only [get_tex_rgb, tex_scale_eq, tex_scaled]

/-- C12: for a 24-bit packed colour `v`, the masks of `get_tex_rgb` extract the low byte
`v mod 256`, the middle byte `(v div 256) mod 256` and the high byte `v div 65536`; the
cast of `channel / 256.0 * 10 + 0.5` is `floor((10 * channel + 128) / 256)`; and the text
returned is the three components, in that order, joined by a comma and a space, each
component being the scaled value divided by 10, a point, the scaled value modulo 10. -/
theorem C12_get_tex_rgb (v : Nat) (hv : v ≤ 0xFFFFFF) :
    (v &&& 4278255360) / 256 = v / 256 % 256 ∧
    (v &&& 0xff0000) / 65536 = v / 65536 ∧
    (∀ c, tex_scale c = tex_scaled c) ∧
    get_tex_rgb v = tex_component (v % 256) ++ ", ".toList ++
      tex_component (v / 256 % 256) ++ ", ".toList ++ tex_component (v / 65536) := by
  have hv' : v < 2 ^ 24 := by omega
  refine ⟨and_mask_middle v hv', and_mask_high v hv', fun c => tex_scale_eq c, ?_⟩
  rw [get_tex_rgb_eq, and_mask_middle v hv', and_mask_high v hv']
  simp only [tex_component, fmt_d_natCast, List.append_assoc]

/-- C12 at the colour `0xFF8040`: the channels 64, 128 and 255 give "0.3, 0.5, 1.0". -/
theorem C12_witness : get_tex_rgb 0xFF8040 = "0.3, 0.5, 1.0".toList :=
  (C12_get_tex_rgb 0xFF8040 (by decide)).2.2.2.trans (by decide)

/-- C13: for a 24-bit packed colour, the three scaled values lie between 0 and 10, and
the text returned by `get_tex_rgb` is exactly thirteen characters: three components of
the shape digit, point, digit, joined by a comma and a space.  The separator inside a
component is the point and the six other characters are decimal digits, so a comma
stands only between components; a component with integer part 1 has the fractional
digit 0. -/
theorem C13_get_tex_rgb_format (v : Nat) (hv : v ≤ 0xFFFFFF) :
    tex_scaled (v % 256) ≤ 10 ∧ tex_scaled (v / 256 % 256) ≤ 10 ∧
    tex_scaled (v / 65536) ≤ 10 ∧
    get_tex_rgb v =
      [Char.ofNat (tex_scaled (v % 256) / 10 + 48), '.',
        Char.ofNat (tex_scaled (v % 256) % 10 + 48), ',', ' ',
        Char.ofNat (tex_scaled (v / 256 % 256) / 10 + 48), '.',
        Char.ofNat (tex_scaled (v / 256 % 256) % 10 + 48), ',', ' ',
        Char.ofNat (tex_scaled (v / 65536) / 10 + 48), '.',
        Char.ofNat (tex_scaled (v / 65536) % 10 + 48)] ∧
    (get_tex_rgb v).length = 13 ∧
    (∀ c, c = v % 256 ∨ c = v / 256 % 256 ∨ c = v / 65536 →
      (Char.ofNat (tex_scaled c / 10 + 48)).isDigit = true ∧
      (Char.ofNat (tex_scaled c % 10 + 48)).isDigit = true ∧
      (tex_scaled c / 10 = 1 → tex_scaled c % 10 = 0)) := by
  have hv' : v < 2 ^ 24 := by omega
  have hscale : ∀ c, c ≤ 255 → tex_scaled c ≤ 10 := by
    intro c hc
    unfold tex_scaled
    omega
  have hdig : ∀ d, d < 10 → (Char.ofNat (d + 48)).isDigit = true := by decide
  have h1 := hscale (v % 256) (by omega)
  have h2 := hscale (v / 256 % 256) (by omega)
  have h3 := hscale (v / 65536) (by omega)
  have htext : get_tex_rgb v =
      [Char.ofNat (tex_scaled (v % 256) / 10 + 48), '.',
        Char.ofNat (tex_scaled (v % 256) % 10 + 48), ',', ' ',
        Char.ofNat (tex_scaled (v / 256 % 256) / 10 + 48), '.',
        Char.ofNat (tex_scaled (v / 256 % 256) % 10 + 48), ',', ' ',
        Char.ofNat (tex_scaled (v / 65536) / 10 + 48), '.',
        Char.ofNat (tex_scaled (v / 65536) % 10 + 48)] := by
    rw [get_tex_rgb_eq, and_mask_middle v hv', and_mask_high v hv',
      fmt_d_digit _ (by omega), fmt_d_digit _ (by omega), fmt_d_digit _ (by omega),
      fmt_d_digit _ (by omega), fmt_d_digit _ (by omega), fmt_d_digit _ (by omega)]
    rfl
  refine ⟨h1, h2, h3, htext, by rw [htext]; rfl, ?_⟩
  intro c hc
  have hc10 : tex_scaled c ≤ 10 := by
    rcases hc with hc | hc | hc <;> rw [hc] <;> assumption
  exact ⟨hdig _ (by omega), hdig _ (by omega), fun _ => by omega⟩

/-- C13 at the colour white, `0xFFFFFF`: every component is "1.0". -/
theorem C13_witness : get_tex_rgb 0xFFFFFF = "1.0, 1.0, 1.0".toList :=
  (C13_get_tex_rgb_format 0xFFFFFF (by decide)).2.2.2.1.trans (by decide)

/-- The conversion `%06x` of a value below `2 ^ 24` prints six digits. -/
theorem fmt_06x_eq (n : Nat) (hn : n < 2 ^ 24) :
    fmt_06x n = [hex_digit (n / 1048576), hex_digit (n / 65536 % 16),
      hex_digit (n / 4096 % 16), hex_digit (n / 256 % 16), hex_digit (n / 16 % 16),
      hex_digit (n % 16)] := by
  have e1 : n / 16 / 16 = n / 256 := by omega
  have e2 : n / 16 / 16 / 16 = n / 4096 := by omega
  have e3 : n / 16 / 16 / 16 / 16 = n / 65536 := by omega
  have e4 : n / 16 / 16 / 16 / 16 / 16 = n / 1048576 := by omega
  have c1 : ¬(n < 16 ∧ 6 ≤ 1) := by omega
  have c2 : ¬(n / 16 < 16 ∧ 6 - 1 ≤ 1) := by omega
  have c3 : ¬(n / 16 / 16 < 16 ∧ 6 - 1 - 1 ≤ 1) := by omega
  have c4 : ¬(n / 16 / 16 / 16 < 16 ∧ 6 - 1 - 1 - 1 ≤ 1) := by omega
  have c5 : ¬(n / 16 / 16 / 16 / 16 < 16 ∧ 6 - 1 - 1 - 1 - 1 ≤ 1) := by omega
  have c6 : n / 16 / 16 / 16 / 16 / 16 < 16 ∧ 6 - 1 - 1 - 1 - 1 - 1 ≤ 1 := by omega
  unfold fmt_06x
  rw [hex_digits, if_neg c1, hex_digits, if_neg c2, hex_digits, if_neg c3, hex_digits,
    if_neg c4, hex_digits, if_neg c5, hex_digits, if_pos c6, e4, e3, e2, e1]
  rfl

/-- A hexadecimal digit printed by `hex_digit` is a digit or a letter from `a` to `f`,
and `hex_value` reads it back. -/
theorem hex_digit_spec (d : Nat) (hd : d < 16) :
    hex_digit d ∈ "0123456789abcdef".toList ∧ hex_value (hex_digit d) = d := by
  interval_cases d <;> decide

/-- The six hexadecimal digits of three bytes packed with the first one on top. -/
theorem packed_bytes_digits (r g b : Nat) (hg : g < 256) (hb : b < 256) :
    (r * 65536 + g * 256 + b) / 1048576 = r / 16 ∧
    (r * 65536 + g * 256 + b) / 65536 % 16 = r % 16 ∧
    (r * 65536 + g * 256 + b) / 4096 % 16 = g / 16 ∧
    (r * 65536 + g * 256 + b) / 256 % 16 = g % 16 ∧
    (r * 65536 + g * 256 + b) / 16 % 16 = b / 16 ∧
    (r * 65536 + g * 256 + b) % 16 = b % 16 := by
  refine ⟨by omega, by omega, by omega, by omega, by omega, by omega⟩

/-- For a host colour `v` of 24 bits with red in the low byte, green in the middle byte
and blue in the high byte, the text `ROTATE_RGB(v)` printed with `%06x` is six
hexadecimal digits in lower case: the two digits of red, the two digits of green, the two
digits of blue; read back pair by pair they give the three channels of `v`. -/
theorem fmt_06x_ROTATE_RGB (v : Nat) (hv : v ≤ 0xFFFFFF) :
    fmt_06x (ROTATE_RGB v) =
      hex_byte (v % 256) ++ hex_byte (v / 256 % 256) ++ hex_byte (v / 65536) ∧
    (fmt_06x (ROTATE_RGB v)).length = 6 ∧
    (∀ c ∈ fmt_06x (ROTATE_RGB v), c ∈ "0123456789abcdef".toList) ∧
    (∀ b, b = v % 256 ∨ b = v / 256 % 256 ∨ b = v / 65536 →
      hex_value (hex_digit (b / 16)) * 16 + hex_value (hex_digit (b % 16)) = b) := by
  have hv' : v < 2 ^ 24 := by omega
  have hrot := ROTATE_RGB_eq v hv'
  have hlt : ROTATE_RGB v < 2 ^ 24 := by rw [hrot]; omega
  have htext : fmt_06x (ROTATE_RGB v) =
      hex_byte (v % 256) ++ hex_byte (v / 256 % 256) ++ hex_byte (v / 65536) := by
    rw [fmt_06x_eq _ hlt, hrot]
    have hG : v / 256 % 256 < 256 := Nat.mod_lt _ (by norm_num)
    have hB : v / 65536 < 256 := by omega
    obtain ⟨a1, a2, a3, a4, a5, a6⟩ := packed_bytes_digits (v % 256) (v / 256 % 256)
      (v / 65536) hG hB
    rw [a1, a2, a3, a4, a5, a6]
    rfl
  refine ⟨htext, by rw [htext]; rfl, ?_, ?_⟩
  · intro c hc
    rw [htext] at hc
    simp only [hex_byte, List.cons_append, List.nil_append, List.mem_cons,
      List.mem_singleton, List.not_mem_nil, or_false] at hc
    rcases hc with hc | hc | hc | hc | hc | hc <;> rw [hc] <;>
      exact (hex_digit_spec _ (by omega)).1
  · intro b hb
    have hb256 : b < 256 := by
      rcases hb with hb | hb | hb <;> rw [hb] <;> omega
    rw [(hex_digit_spec (b / 16) (by omega)).2, (hex_digit_spec (b % 16) (by omega)).2]
    omega

/-- What `write_html_file` has computed when it reaches `write_data`, in terms of the
table read and of the loop. -/
theorem html_export_inv (h : Host) (use_zoom : Bool) (e : Export)
    (he : html_export h use_zoom = some e) :
    ∃ t s, html_read_styles h (style_max h) = some t ∧
      html_loop h (get_length h) (loop_start t) = some s ∧ get_length h ≤ s.i ∧
      e.body = s.body ++ (if s.block_open then "</span>".toList else []) ∧
      e.styles = s.styles := by
  cases ht : html_read_styles h (style_max h) with
  | none => simp [html_export, ht] at he
  | some t =>
    cases hs : html_loop h (get_length h) (loop_start t) with
    | none => simp [html_export, ht, html_render, hs] at he
    | some s =>
      by_cases hi : s.i < get_length h
      · simp [html_export, ht, html_render, hs, hi] at he
      · obtain ⟨e', he', hb, hst, _⟩ := html_export_of_loop h use_zoom t s ht hs (by omega)
        rw [he] at he'
        simp only [Option.some.injEq] at he'
        subst he'
        exact ⟨t, s, rfl, hs, by omega, hb, hst⟩

/-- What `write_latex_file` has computed when it reaches `write_data`, in terms of the
table read and of the loop. -/
theorem latex_export_inv (h : Host) (e : Export) (he : latex_export h = some e) :
    ∃ t s, latex_read_styles h (style_max h) = some t ∧
      latex_loop h (get_length h) (loop_start t) = some s ∧ get_length h ≤ s.i ∧
      e.body = s.body ++ (if s.block_open then "\x7d\n".toList else []) ∧
      e.styles = s.styles.set 0 USED 1 := by
  cases ht : latex_read_styles h (style_max h) with
  | none => simp [latex_export, ht] at he
  | some t =>
    cases hs : latex_loop h (get_length h) (loop_start t) with
    | none => simp [latex_export, ht, latex_render, hs] at he
    | some s =>
      by_cases hi : s.i < get_length h
      · simp [latex_export, ht, latex_render, hs, hi] at he
      · obtain ⟨e', he', hb, hst, _⟩ := latex_export_of_loop h t s ht hs (by omega)
        rw [he] at he'
        simp only [Option.some.injEq] at he'
        subst he'
        exact ⟨t, s, rfl, hs, by omega, hb, hst⟩

/-- The reader loop of `write_html_file` stores the rotated colours of the host in the
rows below `n`. -/
theorem html_read_styles_colours (h : Host) (n : Nat) (t : Styles)
    (ht : html_read_styles h n = some t) :
    ∀ i, i < n → t i FORE = ROTATE_RGB (h.style_fore i) ∧
      t i BACK = ROTATE_RGB (h.style_back i) ∧ t i BOLD = h.style_bold i ∧
      t i ITALIC = h.style_italic i := by
  induction n generalizing t with
  | zero => intro i hi; omega
  | succ n ih =>
    simp only [html_read_styles, Option.bind_eq_some] at ht
    obtain ⟨t0, ht0, hset⟩ := ht
    split_ifs at hset
    simp only [Option.some.injEq] at hset
    intro i hi
    rw [← hset]
    by_cases hin : i = n
    · subst hin
      simp [Styles.set_apply, FORE, BACK, BOLD, ITALIC, USED]
    · have := ih t0 ht0 i (by omega)
      simp [Styles.set_apply, hin, this]

/-- The passes of the HTML loop write the `USED` column of the table only. -/
theorem html_loop_keeps_columns (h : Host) (t : Styles) (fuel : Nat) (s : Locals)
    (hs : html_loop h fuel (loop_start t) = some s) :
    ∀ i k, k ≠ USED → s.styles i k = t i k := by
  refine html_loop_invariant h (fun s => ∀ i k, k ≠ USED → s.styles i k = t i k) ?_
    fuel (loop_start t) s (fun _ _ _ => rfl) hs
  intro s s' _ hP hit i k hk
  obtain ⟨p, _, heq, _⟩ := html_iteration_eq h s s' hit
  rw [heq]
  split_ifs
  · simp only [Styles.set_apply]
    rw [if_neg (fun hc => hk hc.2)]
    exact hP i k hk
  · exact hP i k hk

/-- C14: in the stylesheet of `write_html_file`, the rule of a style index `i` below
`style_max` whose host colours have 24 bits, with red in the low byte, green in the
middle byte and blue in the high byte, holds for each of the two colours
(`SCI_STYLEGETFORE`, `SCI_STYLEGETBACK`) the text of `ROTATE_RGB(v)` printed with `%06x`:
six hexadecimal digits in lower case, the two digits of red, then of green, then of
blue. -/
theorem C14_html_colour (h : Host) (use_zoom : Bool) (e : Export)
    (he : html_export h use_zoom = some e) (i : Nat) (hi : i < style_max h)
    (hfore : h.style_fore i ≤ 0xFFFFFF) (hback : h.style_back i ≤ 0xFFFFFF) :
    html_rule e.styles i =
      "\t.style_".toList ++ fmt_d i ++ "\n\t\x7b\n\t\tcolor: #".toList ++
      (hex_byte (h.style_fore i % 256) ++ hex_byte (h.style_fore i / 256 % 256) ++
        hex_byte (h.style_fore i / 65536)) ++
      ";\n\t\tbackground-color: #".toList ++
      (hex_byte (h.style_back i % 256) ++ hex_byte (h.style_back i / 256 % 256) ++
        hex_byte (h.style_back i / 65536)) ++ ";\n".toList ++
      (if h.style_bold i ≠ 0 then "\t\tfont-weight: bold;\n".toList else []) ++
      (if h.style_italic i ≠ 0 then "\t\tfont-style: italic;\n".toList else []) ++
      "\t\x7d\n".toList ∧
    (∀ b, b < 256 → (∀ c ∈ hex_byte b, c ∈ "0123456789abcdef".toList) ∧
      hex_value (hex_digit (b / 16)) * 16 + hex_value (hex_digit (b % 16)) = b) := by
  obtain ⟨t, s, ht, hs, _, _, hst⟩ := html_export_inv h use_zoom e he
  have hcol := html_read_styles_colours h (style_max h) t ht i hi
  have hkeep := html_loop_keeps_columns h t (get_length h) s hs i
  have hF : e.styles i FORE = ROTATE_RGB (h.style_fore i) := by
    rw [hst, hkeep FORE (by decide), hcol.1]
  have hB : e.styles i BACK = ROTATE_RGB (h.style_back i) := by
    rw [hst, hkeep BACK (by decide), hcol.2.1]
  have hb : e.styles i BOLD = h.style_bold i := by
    rw [hst, hkeep BOLD (by decide), hcol.2.2.1]
  have hit : e.styles i ITALIC = h.style_italic i := by
    rw [hst, hkeep ITALIC (by decide), hcol.2.2.2]
  constructor
  · unfold html_rule
    rw [hF, hB, hb, hit, (fmt_06x_ROTATE_RGB _ hfore).1, (fmt_06x_ROTATE_RGB _ hback).1]
  · intro b hb
    constructor
    · intro c hc
      simp only [hex_byte, List.mem_cons, List.mem_singleton, List.not_mem_nil,
        or_false] at hc
      rcases hc with hc | hc <;> rw [hc] <;> exact (hex_digit_spec _ (by omega)).1
    · rw [(hex_digit_spec (b / 16) (by omega)).2, (hex_digit_spec (b % 16) (by omega)).2]
      omega

/-- C14 at the sample host, whose styles are black (`0x000000`) on white (`0xffffff`),
for the document "a" and the style 0. -/
theorem C14_witness :
    ∃ e, html_export (sample_host [('a', 0)]) false = some e ∧
      html_rule e.styles 0 = ("\t.style_0\n\t\x7b\n\t\tcolor: #000000;\n" ++
        "\t\tbackground-color: #ffffff;\n\t\x7d\n").toList := by
  obtain ⟨_, _, e, _, _, _, _, he, _, _, _⟩ := html_export_spec (sample_host [('a', 0)])
    false (by decide) (by decide) (by decide)
  refine ⟨e, he, ?_⟩
  rw [(C14_html_colour _ false e he 0 (by decide) (by decide) (by decide)).1]
  decide

/-! ## The column counter (C15) -/

/-- The column after a pass of the `switch` of `write_html_file` entered with a column
`col ≥ 0` and a tab width `tw ≥ 1`: it lies between 0 and `col + tw`, and it is 0 when the
pass emits a line break. -/
theorem html_switch_column (tw col : Int) (op : Bool) (c cn : Char) (htw : 1 ≤ tw)
    (hcol : 0 ≤ col) :
    ∀ p, html_switch tw col op c cn = some p →
      0 ≤ p.column ∧ p.column ≤ col + tw ∧
      ((c = '\n' ∨ (c = '\r' ∧ cn ≠ '\n')) → p.column = 0 ∧ p.advance = 1 ∧
        p.out = (if op then "</span>".toList else []) ++ HTML_BREAK) := by
  have h0 : 0 ≤ Int.tmod col tw := Int.tmod_nonneg tw hcol
  have h1 : Int.tmod col tw < tw := Int.tmod_lt_of_pos col (by omega)
  apply html_switch_elim (motive := fun r => ∀ p, r = some p →
      0 ≤ p.column ∧ p.column ≤ col + tw ∧
      ((c = '\n' ∨ (c = '\r' ∧ cn ≠ '\n')) → p.column = 0 ∧ p.advance = 1 ∧
        p.out = (if op then "</span>".toList else []) ++ HTML_BREAK)) tw col op c cn
  · intro hc hn p hp
    cases hp
    refine ⟨hcol, by dsimp only; omega, ?_⟩
    rintro (h | ⟨_, h⟩)
    · rw [hc] at h; exact absurd h (by decide)
    · exact absurd hn h
  · intro _ _ p hp
    cases hp
    exact ⟨by dsimp only; omega, by dsimp only; omega, fun _ => ⟨rfl, rfl, rfl⟩⟩
  · intro _ _ p hp
    cases hp
  · intro hc _ p hp
    cases hp
    refine ⟨by dsimp only; omega, by dsimp only; omega, ?_⟩
    rintro (h | ⟨h, _⟩) <;> (rw [hc] at h; exact absurd h (by decide))
  all_goals
    intro hc
    intros
    rename_i p hp
    cases hp
    refine ⟨by dsimp only; omega, by dsimp only; omega, ?_⟩
    first
    | (rintro (h | ⟨h, _⟩) <;> (rw [hc] at h; exact absurd h (by decide)))
    | (rintro (h | ⟨h, _⟩) <;> contradiction)

/-- The column after a pass of the `switch` of `write_latex_file` entered with a column
`col ≥ 0` and a tab width `tw ≥ 1`: it lies between 0 and `col + tw`, and it is 0 when the
pass emits a line break. -/
theorem latex_switch_column (tw col : Int) (op : Bool) (c cn : Char) (htw : 1 ≤ tw)
    (hcol : 0 ≤ col) :
    ∀ p, latex_switch tw col op c cn = some p →
      0 ≤ p.column ∧ p.column ≤ col + tw ∧
      ((c = '\n' ∨ (c = '\r' ∧ cn ≠ '\n')) → p.column = 0 ∧ p.advance = 1 ∧
        p.out = (if op then "\x7d".toList else []) ++ LATEX_BREAK) := by
  have h0 : 0 ≤ Int.tmod col tw := Int.tmod_nonneg tw hcol
  have h1 : Int.tmod col tw < tw := Int.tmod_lt_of_pos col (by omega)
  apply latex_switch_elim (motive := fun r => ∀ p, r = some p →
      0 ≤ p.column ∧ p.column ≤ col + tw ∧
      ((c = '\n' ∨ (c = '\r' ∧ cn ≠ '\n')) → p.column = 0 ∧ p.advance = 1 ∧
        p.out = (if op then "\x7d".toList else []) ++ LATEX_BREAK)) tw col op c cn
  · intro hc hn p hp
    cases hp
    refine ⟨hcol, by dsimp only; omega, ?_⟩
    rintro (h | ⟨_, h⟩)
    · rw [hc] at h; exact absurd h (by decide)
    · exact absurd hn h
  · intro _ _ p hp
    cases hp
    exact ⟨by dsimp only; omega, by dsimp only; omega, fun _ => ⟨rfl, rfl, rfl⟩⟩
  · intro _ _ p hp
    cases hp
  · intro hc _ p hp
    cases hp
    refine ⟨by dsimp only; omega, by dsimp only; omega, ?_⟩
    rintro (h | ⟨h, _⟩) <;> (rw [hc] at h; exact absurd h (by decide))
  all_goals
    intro hc
    intros
    rename_i p hp
    cases hp
    refine ⟨by dsimp only; omega, by dsimp only; omega, ?_⟩
    first
    | (rintro (h | ⟨h, _⟩) <;> (rw [hc] at h; exact absurd h (by decide)))
    | (rintro (h | ⟨h, _⟩) <;> (rcases hc with hc | hc | hc | hc | hc | hc | hc <;>
        (rw [hc] at h; exact absurd h (by decide))))
    | (rintro (h | ⟨h, _⟩) <;> contradiction)

/-- The index, the column and the body after a pass of the HTML loop, in terms of the
result of its `switch`. -/
theorem html_iteration_proj (h : Host) (s s' : Locals)
    (hit : html_iteration h s = some s') :
    ∃ p op pre, html_switch h.tab_width s.column op (get_char_at h s.i)
        (get_char_at h (s.i + 1)) = some p ∧
      s'.i = s.i + p.advance ∧ s'.column = p.column ∧ s'.block_open = p.block_open ∧
      s'.body = s.body ++ pre ++ p.out := by
  obtain ⟨p, hp, heq, _⟩ := html_iteration_eq h s s' hit
  by_cases hb : (get_style_at h s.i ≠ s.old_style ∨ s.block_open = false) ∧
      isspace (get_char_at h s.i) = false
  · rw [if_pos hb] at heq
    exact ⟨p, _, html_span_start s.block_open (get_style_at h s.i), hp, by rw [heq],
      by rw [heq], by rw [heq], by rw [heq]⟩
  · rw [if_neg hb] at heq
    exact ⟨p, _, [], hp, by rw [heq], by rw [heq], by rw [heq],
      by rw [heq, List.append_nil]⟩

/-- The index, the column and the body after a pass of the LaTeX loop, in terms of the
result of its `switch`. -/
theorem latex_iteration_proj (h : Host) (s s' : Locals)
    (hit : latex_iteration h s = some s') :
    ∃ p pre, latex_switch h.tab_width s.column true (get_char_at h s.i)
        (get_char_at h (s.i + 1)) = some p ∧
      s'.i = s.i + p.advance ∧ s'.column = p.column ∧ s'.block_open = p.block_open ∧
      s'.body = s.body ++ pre ++ p.out := by
  obtain ⟨p, hp, heq, _⟩ := latex_iteration_eq h s s' hit
  by_cases hb : get_style_at h s.i ≠ s.old_style ∨ s.block_open = false
  · rw [if_pos hb] at heq
    exact ⟨p, latex_block_start s.block_open (get_style_at h s.i), hp, by rw [heq],
      by rw [heq], by rw [heq], by rw [heq]⟩
  · rw [if_neg hb] at heq
    exact ⟨p, [], hp, by rw [heq], by rw [heq], by rw [heq],
      by rw [heq, List.append_nil]⟩

/-- C15: in both render loops, for every document and every tab width of at least 1, the
column counter is at least 0 whenever a character is about to be processed, that is in
every state that the loop reaches from its start, and it is 0 after a pass that emits a
line break, that is when the following character is processed.  The counter is a
mathematical integer here; it is at most `i * tab_width`, so that it stays in the range of
`gint` for documents with `get_length * tab_width` below `2^31`. -/
theorem C15_column_invariant (h : Host) (htab : 1 ≤ h.tab_width) (t : Styles) :
    (∀ fuel s, html_loop h fuel (loop_start t) = some s →
      0 ≤ s.column ∧ s.column ≤ (s.i : Int) * h.tab_width) ∧
    (∀ fuel s, latex_loop h fuel (loop_start t) = some s →
      0 ≤ s.column ∧ s.column ≤ (s.i : Int) * h.tab_width) ∧
    (∀ fuel s s', html_loop h fuel (loop_start t) = some s →
      html_iteration h s = some s' →
      (get_char_at h s.i = '\n' ∨
        (get_char_at h s.i = '\r' ∧ get_char_at h (s.i + 1) ≠ '\n')) →
      (∃ pre, s'.body = pre ++ HTML_BREAK) ∧ s'.i = s.i + 1 ∧ s'.column = 0) ∧
    (∀ fuel s s', latex_loop h fuel (loop_start t) = some s →
      latex_iteration h s = some s' →
      (get_char_at h s.i = '\n' ∨
        (get_char_at h s.i = '\r' ∧ get_char_at h (s.i + 1) ≠ '\n')) →
      (∃ pre, s'.body = pre ++ LATEX_BREAK) ∧ s'.i = s.i + 1 ∧ s'.column = 0) := by
  have hH : ∀ fuel s, html_loop h fuel (loop_start t) = some s →
      0 ≤ s.column ∧ s.column ≤ (s.i : Int) * h.tab_width := by
    intro fuel s hs
    refine html_loop_invariant h
      (fun s => 0 ≤ s.column ∧ s.column ≤ (s.i : Int) * h.tab_width) ?_
      fuel (loop_start t) s (by simp [loop_start]) hs
    intro s s' _ hP hit
    obtain ⟨p, op, pre, hp, hi, hc, _, _⟩ := html_iteration_proj h s s' hit
    obtain ⟨h0, h1, _⟩ := html_switch_column _ _ op _ _ htab hP.1 p hp
    have had := html_switch_advance _ _ _ _ _ p hp
    rw [hc, hi, had]
    refine ⟨h0, ?_⟩
    have : ((s.i + 1 : Nat) : Int) * h.tab_width = (s.i : Int) * h.tab_width + h.tab_width := by
      push_cast; ring
    omega
  have hL : ∀ fuel s, latex_loop h fuel (loop_start t) = some s →
      0 ≤ s.column ∧ s.column ≤ (s.i : Int) * h.tab_width := by
    intro fuel s hs
    refine latex_loop_invariant h
      (fun s => 0 ≤ s.column ∧ s.column ≤ (s.i : Int) * h.tab_width) ?_
      fuel (loop_start t) s (by simp [loop_start]) hs
    intro s s' _ hP hit
    obtain ⟨p, pre, hp, hi, hc, _, _⟩ := latex_iteration_proj h s s' hit
    obtain ⟨h0, h1, _⟩ := latex_switch_column _ _ true _ _ htab hP.1 p hp
    rw [hc, hi]
    refine ⟨h0, ?_⟩
    have e1 : ((s.i + 1 : Nat) : Int) * h.tab_width = (s.i : Int) * h.tab_width + h.tab_width := by
      push_cast; ring
    have e2 : ((s.i + 2 : Nat) : Int) * h.tab_width =
        (s.i : Int) * h.tab_width + h.tab_width + h.tab_width := by
      push_cast; ring
    rcases latex_switch_advance _ _ _ _ _ p hp with had | ⟨had, _⟩ <;> rw [had] <;> omega
  refine ⟨hH, hL, ?_, ?_⟩
  · intro fuel s s' hs hit hbr
    obtain ⟨p, op, pre, hp, hi, hc, _, hb⟩ := html_iteration_proj h s s' hit
    obtain ⟨_, _, h2⟩ := html_switch_column _ _ op _ _ htab (hH fuel s hs).1 p hp
    obtain ⟨hz, had, hout⟩ := h2 hbr
    refine ⟨⟨s.body ++ pre ++ (if op then "</span>".toList else []), ?_⟩,
      by rw [hi, had], by rw [hc, hz]⟩
    rw [hb, hout, ← List.append_assoc]
  · intro fuel s s' hs hit hbr
    obtain ⟨p, pre, hp, hi, hc, _, hb⟩ := latex_iteration_proj h s s' hit
    obtain ⟨_, _, h2⟩ := latex_switch_column _ _ true _ _ htab (hL fuel s hs).1 p hp
    obtain ⟨hz, had, hout⟩ := h2 hbr
    refine ⟨⟨s.body ++ pre ++ "\x7d".toList, ?_⟩, by rw [hi, had], by rw [hc, hz]⟩
    rw [hb, hout, if_pos rfl, ← List.append_assoc]

/-- C15 at the sample host with the document "a", a tab, a line feed, "b": the HTML loop
is about to process the line feed with the column 4, which is at least 0, and the pass of
the line feed emits a line break and leaves the column 0. -/
theorem C15_witness :
    (1 : Int) ≤ (sample_host [('a', 0), ('\t', 0), ('\n', 0), ('b', 0)]).tab_width ∧
    ∃ s s', html_loop (sample_host [('a', 0), ('\t', 0), ('\n', 0), ('b', 0)]) 2
        (loop_start (fun _ _ => 0)) = some s ∧ s.i = 2 ∧ s.column = 4 ∧ 0 ≤ s.column ∧
      html_iteration (sample_host [('a', 0), ('\t', 0), ('\n', 0), ('b', 0)]) s = some s' ∧
      s'.i = 3 ∧ s'.column = 0 := by
  have hd : (html_loop (sample_host [('a', 0), ('\t', 0), ('\n', 0), ('b', 0)]) 2
      (loop_start (fun _ _ => 0))).map (fun s => (s.i, s.column)) = some (2, 4) := by
    decide
  cases hs : html_loop (sample_host [('a', 0), ('\t', 0), ('\n', 0), ('b', 0)]) 2
      (loop_start (fun _ _ => 0)) with
  | none => rw [hs] at hd; exact absurd hd (by simp)
  | some s =>
    rw [hs] at hd
    simp only [Option.map_some', Option.some.injEq, Prod.mk.injEq] at hd
    obtain ⟨hi, hc⟩ := hd
    have hC := C15_column_invariant (sample_host [('a', 0), ('\t', 0), ('\n', 0), ('b', 0)])
      (by decide) (fun _ _ => 0)
    have hst : get_style_at (sample_host [('a', 0), ('\t', 0), ('\n', 0), ('b', 0)]) s.i ≤
        (sample_host [('a', 0), ('\t', 0), ('\n', 0), ('b', 0)]).STYLE_MAX := by
      rw [hi]; decide
    obtain ⟨s', hs'⟩ := html_iteration_defined _ s hst (by decide)
    obtain ⟨_, h1, h2⟩ := hC.2.2.1 2 s s' hs hs' (by rw [hi]; decide)
    exact ⟨by decide, s, s', rfl, hi, hc, (hC.1 2 s hs).1, hs', by rw [h1, hi], h2⟩

/-! ## The boundary test of the HTML loop (C16) -/

/-- The text that starts a span begins with `<`, after the closing `</span>` if a span
is open. -/
theorem html_span_start_eq (op : Bool) (st : Nat) :
    html_span_start op st = (if op then "</span>".toList else []) ++
      ('<' :: 's' :: ("pan class=\"style_".toList ++ fmt_d st ++ "\">".toList)) := by
  cases op <;> rfl

/-- The text that the `switch` of `write_html_file` appends never starts with the text
that starts a span. -/
theorem html_switch_out_not_span (tw col : Int) (op : Bool) (c cn : Char) :
    ∀ p, html_switch tw col op c cn = some p →
      ∀ st out, p.out ≠ html_span_start op st ++ out := by
  have hne : ∀ (c : Char) (l : List Char) st out, c ≠ '<' →
      c :: l ≠ html_span_start op st ++ out := by
    intro c l st out hc heq
    rw [html_span_start_eq] at heq
    cases op
    · simp only [Bool.false_eq_true, if_false, List.nil_append, List.cons_append,
        List.cons.injEq] at heq
      exact hc heq.1
    · simp only [if_true, String.toList, List.cons_append, List.cons.injEq] at heq
      exact hc heq.1
  apply html_switch_elim (motive := fun r => ∀ p, r = some p →
      ∀ st out, p.out ≠ html_span_start op st ++ out) tw col op c cn
  · intro _ _ p hp st out heq
    cases hp
    have := congrArg List.length heq
    rw [html_span_start_eq] at this
    simp at this
    omega
  · intro _ _ p hp st out heq
    cases hp
    rw [html_span_start_eq] at heq
    simp only [List.append_assoc] at heq
    have := List.append_cancel_left heq
    simp [String.toList] at this
  · intro _ _ p hp
    cases hp
  · intro _ _ p hp st out
    cases hp
    dsimp only
    unfold html_tab
    cases (tw - Int.tmod col tw).toNat with
    | zero =>
      intro heq
      have := congrArg List.length heq
      rw [html_span_start_eq] at this
      simp at this
      omega
    | succ k =>
      rw [List.replicate_succ, List.flatten_cons]
      exact hne '&' _ st out (by decide)
  · intro _ p hp st out
    cases hp
    exact hne '&' _ st out (by decide)
  · intro _ p hp st out
    cases hp
    exact hne '&' _ st out (by decide)
  · intro _ p hp st out
    cases hp
    exact hne '&' _ st out (by decide)
  · intro _ p hp st out
    cases hp
    exact hne '&' _ st out (by decide)
  · intro _ _ _ _ hlt _ _ p hp st out
    cases hp
    exact hne c _ st out hlt

/-- C16, as the code has it: in `write_html_file` a pass opens a new span before its
character, that is the text it appends starts with the text that starts a span, if and
only if the character is not whitespace and either no span is open or its style differs
from the current style.  A whitespace character never opens a span, whether a span is
open or not: the pass appends the text of the `switch` alone and leaves the current
style and the table as they are. -/
theorem C16_html_boundary (h : Host) (s s' : Locals)
    (hit : html_iteration h s = some s') :
    ((∃ out, s'.body = s.body ++ html_span_start s.block_open (get_style_at h s.i) ++ out) ↔
      ((get_style_at h s.i ≠ s.old_style ∨ s.block_open = false) ∧
        isspace (get_char_at h s.i) = false)) ∧
    ((get_style_at h s.i ≠ s.old_style ∨ s.block_open = false) ∧
        isspace (get_char_at h s.i) = false →
      ∃ p, html_switch h.tab_width s.column true (get_char_at h s.i)
          (get_char_at h (s.i + 1)) = some p ∧
        s'.body = s.body ++ html_span_start s.block_open (get_style_at h s.i) ++ p.out ∧
        s'.old_style = get_style_at h s.i ∧
        s'.styles = s.styles.set (get_style_at h s.i) USED 1) ∧
    (isspace (get_char_at h s.i) = true →
      ∃ p, html_switch h.tab_width s.column s.block_open (get_char_at h s.i)
          (get_char_at h (s.i + 1)) = some p ∧
        s'.body = s.body ++ p.out ∧ s'.old_style = s.old_style ∧ s'.styles = s.styles) := by
  obtain ⟨p, hp, heq, _⟩ := html_iteration_eq h s s' hit
  by_cases hb : (get_style_at h s.i ≠ s.old_style ∨ s.block_open = false) ∧
      isspace (get_char_at h s.i) = false
  · rw [if_pos hb] at heq hp
    refine ⟨⟨fun _ => hb, fun _ => ⟨p.out, by rw [heq]⟩⟩,
      fun _ => ⟨p, hp, by rw [heq], by rw [heq], by rw [heq]⟩, ?_⟩
    intro hsp
    rw [hb.2] at hsp
    exact absurd hsp (by decide)
  · rw [if_neg hb] at heq hp
    refine ⟨⟨?_, fun hc => absurd hc hb⟩, fun hc => absurd hc hb,
      fun _ => ⟨p, hp, by rw [heq], by rw [heq], by rw [heq]⟩⟩
    rintro ⟨out, hout⟩
    rw [heq] at hout
    dsimp only at hout
    rw [List.append_assoc] at hout
    exact absurd (List.append_cancel_left hout)
      (html_switch_out_not_span _ _ _ _ _ p hp _ out)

/-- C16 at the sample host with the document "a": the first pass opens a span. -/
theorem C16_witness :
    ∃ s', html_iteration (sample_host [('a', 0)]) (loop_start (fun _ _ => 0)) = some s' ∧
      ∃ out, s'.body = html_span_start false 0 ++ out := by
  obtain ⟨s', hs'⟩ := html_iteration_defined (sample_host [('a', 0)])
    (loop_start (fun _ _ => 0)) (by decide) (by decide)
  obtain ⟨out, hout⟩ := (C16_html_boundary (sample_host [('a', 0)])
    (loop_start (fun _ _ => 0)) s' hs').1.mpr (by decide)
  exact ⟨s', hs', out, hout⟩

/-- C16 fails at the document of one space: at the start of the document no span is open
and the character is whitespace, yet the pass opens no span; it appends `&nbsp;` alone
and leaves `span_open` false, and the body of the export is `&nbsp;`. -/
theorem C16_counterexample :
    (loop_start (fun _ _ => 0)).block_open = false ∧
    isspace (get_char_at (sample_host [(' ', 0)]) 0) = true ∧
    (html_iteration (sample_host [(' ', 0)]) (loop_start (fun _ _ => 0))).map
      (fun s => (s.body, s.block_open)) = some ("&nbsp;".toList, false) ∧
    (html_export (sample_host [(' ', 0)]) false).map (fun e => e.body) =
      some "&nbsp;".toList := by
  decide

/-! ## Runs of `-`, `<`, `>` in LaTeX (C17) -/

/-- The `switch` of `write_latex_file` at a pair of `c` among `-`, `<`, `>`. -/
theorem latex_switch_pair (tw col : Int) (op : Bool) (c : Char)
    (hc : c = '-' ∨ c = '<' ∨ c = '>') :
    latex_switch tw col op c c = some
      { out := LATEX_PAIR c, column := col + 1, block_open := op, advance := 2 } := by
  rcases hc with rfl | rfl | rfl <;> rfl

/-- The `switch` of `write_latex_file` at a `c` among `-`, `<`, `>` that is not followed
by `c`. -/
theorem latex_switch_single (tw col : Int) (op : Bool) (c cn : Char)
    (hc : c = '-' ∨ c = '<' ∨ c = '>') (hn : cn ≠ c) :
    latex_switch tw col op c cn = some
      { out := [c], column := col + 1, block_open := op, advance := 1 } := by
  rcases hc with rfl | rfl | rfl <;> simp [latex_switch, hn]

/-- A pass that reads a pair of `c` among `-`, `<`, `>`, with the block of the style
open, appends the text of a pair and advances the index by two. -/
theorem latex_iteration_pair (h : Host) (s : Locals) (c : Char)
    (hcc : c = '-' ∨ c = '<' ∨ c = '>')
    (hc : get_char_at h s.i = c) (hn : get_char_at h (s.i + 1) = c)
    (hst : get_style_at h s.i = s.old_style) (hop : s.block_open = true) :
    latex_iteration h s = some { s with
      i := s.i + 2, column := s.column + 1, body := s.body ++ LATEX_PAIR c } := by
  have hb : ¬(get_style_at h s.i ≠ s.old_style ∨ s.block_open = false) := by
    simp [hst, hop]
  unfold latex_iteration
  simp only [if_neg hb, hc, hn, latex_switch_pair _ _ _ c hcc, Option.map_some']

/-- A pass that reads a `c` among `-`, `<`, `>` not followed by `c`, with the block of the
style open, appends one plain `c` and advances the index by one. -/
theorem latex_iteration_single (h : Host) (s : Locals) (c : Char)
    (hcc : c = '-' ∨ c = '<' ∨ c = '>')
    (hc : get_char_at h s.i = c) (hn : get_char_at h (s.i + 1) ≠ c)
    (hst : get_style_at h s.i = s.old_style) (hop : s.block_open = true) :
    latex_iteration h s = some { s with
      i := s.i + 1, column := s.column + 1, body := s.body ++ [c] } := by
  have hb : ¬(get_style_at h s.i ≠ s.old_style ∨ s.block_open = false) := by
    simp [hst, hop]
  unfold latex_iteration
  simp only [if_neg hb, hc, latex_switch_single _ _ _ c _ hcc hn, Option.map_some']

/-- The markup of two more characters starts with the text of one more pair. -/
theorem latex_pairs_markup_add_two (c : Char) (n : Nat) :
    latex_pairs_markup c (n + 2) = LATEX_PAIR c ++ latex_pairs_markup c n := by
  unfold latex_pairs_markup
  have h1 : (n + 2) / 2 = n / 2 + 1 := by omega
  have h2 : (n + 2) % 2 = n % 2 := by omega
  rw [h1, h2, List.replicate_succ, List.flatten_cons, List.append_assoc]

/-- From a pass that starts at a run of `n` characters `c` of the style of the open
block, the loop writes the markup of the run in `(n + 1) / 2` passes. -/
theorem latex_loop_pairs_open (h : Host) (st : Nat) (c : Char)
    (hcc : c = '-' ∨ c = '<' ∨ c = '>') :
    ∀ n (s : Locals), s.block_open = true → s.old_style = st →
      (∀ j, j < n → get_char_at h (s.i + j) = c ∧ get_style_at h (s.i + j) = st) →
      get_char_at h (s.i + n) ≠ c → s.i + n ≤ get_length h →
      latex_loop h ((n + 1) / 2) s = some { s with
        i := s.i + n, column := s.column + ((n + 1) / 2 : Nat),
        body := s.body ++ latex_pairs_markup c n } := by
  intro n
  induction n using Nat.strong_induction_on with
  | _ n ih =>
    intro s hop hos hrun hend hlen
    match n, ih, hrun, hend, hlen with
    | 0, _, _, _, _ =>
      simp [latex_loop, latex_pairs_markup]
    | 1, _, hrun, hend, hlen =>
      have h0 := hrun 0 (by omega)
      simp only [Nat.add_zero] at h0
      have hi : s.i < get_length h := by omega
      have hit := latex_iteration_single h s c hcc h0.1 hend (h0.2.trans hos.symm) hop
      simp only [Nat.reduceAdd, Nat.reduceDiv, latex_loop, if_pos hi, hit, Option.some_bind]
      simp [latex_pairs_markup]
    | n + 2, ih, hrun, hend, hlen =>
      have h0 := hrun 0 (by omega)
      have h1 := hrun 1 (by omega)
      simp only [Nat.add_zero] at h0
      have hi : s.i < get_length h := by omega
      have hit := latex_iteration_pair h s c hcc h0.1 h1.1 (h0.2.trans hos.symm) hop
      have hfuel : (n + 2 + 1) / 2 = 1 + (n + 1) / 2 := by omega
      rw [hfuel, latex_loop_add]
      simp only [latex_loop, if_pos hi, hit, Option.some_bind]
      have ih1 := ih n (by omega)
        { s with i := s.i + 2, column := s.column + 1, body := s.body ++ LATEX_PAIR c }
        hop hos
        (fun j hj => by
          have := hrun (j + 2) (by omega)
          simpa [Nat.add_assoc, Nat.add_comm 2 j] using this)
        (by simpa [Nat.add_assoc, Nat.add_comm 2 n] using hend)
        (by simp only; omega)
      rw [ih1]
      simp only [latex_pairs_markup_add_two, Option.some.injEq, Locals.mk.injEq,
        List.append_assoc, and_true, true_and]
      constructor
      · omega
      · push_cast
        omega

/-- From a pass that starts at a maximal run of `n ≥ 1` characters `c` of one style, the
loop writes the start of a block when the style changes or no block is open, then the
markup of the run, in `(n + 1) / 2` passes. -/
theorem latex_loop_pairs (h : Host) (st : Nat) (hst : st ≤ h.STYLE_MAX) (c : Char)
    (hcc : c = '-' ∨ c = '<' ∨ c = '>') (n : Nat)
    (hn : 1 ≤ n) (s : Locals)
    (hrun : ∀ j, j < n → get_char_at h (s.i + j) = c ∧ get_style_at h (s.i + j) = st)
    (hend : get_char_at h (s.i + n) ≠ c) (hlen : s.i + n ≤ get_length h) :
    latex_loop h ((n + 1) / 2) s = some
      { i := s.i + n
        old_style := st
        column := s.column + ((n + 1) / 2 : Nat)
        block_open := true
        body := s.body ++ (if st ≠ s.old_style ∨ s.block_open = false then
          latex_block_start s.block_open st else []) ++ latex_pairs_markup c n
        styles := if st ≠ s.old_style ∨ s.block_open = false then s.styles.set st USED 1
          else s.styles } := by
  have h0 := hrun 0 (by omega)
  simp only [Nat.add_zero] at h0
  have hi : s.i < get_length h := by omega
  by_cases hb : st ≠ s.old_style ∨ s.block_open = false
  · have hb' : get_style_at h s.i ≠ s.old_style ∨ s.block_open = false := by
      rw [h0.2]; exact hb
    have hst' : get_style_at h s.i ≤ h.STYLE_MAX := by rw [h0.2]; exact hst
    obtain ⟨m, hm⟩ : ∃ m, (n + 1) / 2 = m + 1 := ⟨(n + 1) / 2 - 1, by omega⟩
    have hfirst : latex_loop h ((n + 1) / 2) s = latex_loop h ((n + 1) / 2) { s with
        old_style := get_style_at h s.i
        block_open := true
        body := s.body ++ latex_block_start s.block_open (get_style_at h s.i)
        styles := s.styles.set (get_style_at h s.i) USED 1 } := by
      rw [hm]
      simp only [latex_loop, if_pos hi]
      rw [latex_iteration_block_start h s hb' hst']
    have key := latex_loop_pairs_open h st c hcc n { s with
        old_style := get_style_at h s.i
        block_open := true
        body := s.body ++ latex_block_start s.block_open (get_style_at h s.i)
        styles := s.styles.set (get_style_at h s.i) USED 1 } rfl h0.2 hrun hend hlen
    rw [hfirst, key]
    simp only [if_pos hb, h0.2, List.append_assoc]
  · have hop : s.block_open = true := by
      by_contra hne
      exact hb (Or.inr (by simpa using hne))
    have hos : s.old_style = st := by
      by_contra hne
      exact hb (Or.inl (fun hh => hne hh.symm))
    rw [latex_loop_pairs_open h st c hcc n s hop hos hrun hend hlen, if_neg hb, if_neg hb]
    simp only [List.append_nil, hop, hos]

/-- C17: in a document with a maximal run of `n ≥ 1` characters `c` among `-`, `<`, `>`
of one style `st` (the character before the run, if any, and the character after it, if
any, are not `c`), with styles that are rows of the table and a non-zero tab width, the
loop of `write_latex_file` reaches the first character of the run after some number `k`
of passes, and `(n + 1) / 2` passes later it stands just after the run and has appended
the start of a block, when the style changes or no block is open, followed by `n / 2`
copies of `c`, the command that breaks the ligature, `c`, and one plain `c` when `n` is
odd: the pairs are taken from the left, each by one pass that advances the index by
two. -/
theorem C17_ligature_break (h : Host) (t : Styles) (pre post : List (Char × Nat))
    (c : Char) (n st : Nat) (hc : c = '-' ∨ c = '<' ∨ c = '>')
    (htext : h.text = pre ++ List.replicate n (c, st) ++ post)
    (hn : 1 ≤ n) (hpre : ∀ p, pre.getLast? = some p → p.1 ≠ c)
    (hpost : ∀ p, post.head? = some p → p.1 ≠ c)
    (hsty : ∀ p ∈ h.text, p.2 ≤ h.STYLE_MAX) (htab : h.tab_width ≠ 0) :
    ∃ k s, latex_loop h k (loop_start t) = some s ∧ s.i = pre.length ∧
      latex_loop h (k + (n + 1) / 2) (loop_start t) = some
        { i := pre.length + n
          old_style := st
          column := s.column + ((n + 1) / 2 : Nat)
          block_open := true
          body := s.body ++ (if st ≠ s.old_style ∨ s.block_open = false then
            latex_block_start s.block_open st else []) ++
            ((List.replicate (n / 2) [c, '\\', '/', c]).flatten ++
              (if n % 2 = 1 then [c] else []))
          styles := if st ≠ s.old_style ∨ s.block_open = false then s.styles.set st USED 1
            else s.styles } := by
  have hc0 : c ≠ Char.ofNat 0 := by rcases hc with rfl | rfl | rfl <;> decide
  have hlenrep : (List.replicate n (c, st)).length = n := List.length_replicate _ _
  have hrun : ∀ j, j < n → get_char_at h (pre.length + j) = c ∧
      get_style_at h (pre.length + j) = st := by
    intro j hj
    have hg := text_get_middle h pre _ post htext j (by rw [hlenrep]; exact hj)
    rw [List.get?_eq_getElem?, List.get?_eq_getElem?, List.getElem?_replicate,
      if_pos hj, ← List.get?_eq_getElem?] at hg
    simp only [get_char_at, get_style_at, hg, and_self]
  have hend : get_char_at h (pre.length + n) ≠ c := by
    have hg := text_get_after h pre _ post htext
    rw [hlenrep] at hg
    unfold get_char_at
    rw [hg]
    cases hp : post.head? with
    | none => exact fun hh => hc0 hh.symm
    | some p => exact hpost p hp
  have hlen : pre.length + n ≤ get_length h := by
    simp [get_length, htext]
  have hmem : (c, st) ∈ h.text := by
    rw [htext]
    simp only [List.mem_append, List.mem_replicate]
    exact Or.inl (Or.inr ⟨by omega, trivial⟩)
  have hst : st ≤ h.STYLE_MAX := hsty _ hmem
  have hvisit := latex_loop_visits h t hsty htab pre.length (by omega)
  have hreach : ∃ k s, latex_loop h k (loop_start t) = some s ∧ s.i = pre.length := by
    rcases hvisit with hv | ⟨q, hq, hceq, _, _⟩
    · exact hv
    · exfalso
      have hg := text_get_before h pre _ post htext q hq
      have h0 := (hrun 0 (by omega)).1
      rw [Nat.add_zero, hq] at h0
      rw [h0] at hceq
      cases hp : pre.getLast? with
      | none =>
        have : pre = [] := List.getLast?_eq_none_iff.mp hp
        rw [this] at hq
        simp at hq
      | some p =>
        have hne := hpre p hp
        apply hne
        rw [hp] at hg
        simp only [get_char_at, hg] at hceq
        exact hceq
  obtain ⟨k, s, hk, hs⟩ := hreach
  refine ⟨k, s, hk, hs, ?_⟩
  rw [latex_loop_add, hk, Option.some_bind,
    latex_loop_pairs h st hst c hc n hn s (by rw [hs]; exact hrun) (by rw [hs]; exact hend)
      (by rw [hs]; exact hlen), hs]
  rfl

/-- C17 at the document "a---b": some passes reach the run at offset 1, and two more
passes (one pair, one plain character) lead to offset 4 and append the text of a pair
and one dash; the bodies of the exports of "--" and of "---" are as in the examples. -/
theorem C17_witness :
    (∃ k s, latex_loop (sample_host [('a', 0), ('-', 0), ('-', 0), ('-', 0), ('b', 0)]) k
        (loop_start (fun _ _ => 0)) = some s ∧ s.i = 1 ∧
      ∃ s', latex_loop (sample_host [('a', 0), ('-', 0), ('-', 0), ('-', 0), ('b', 0)])
        (k + 2) (loop_start (fun _ _ => 0)) = some s' ∧ s'.i = 4 ∧
        s'.body = s.body ++ (if 0 ≠ s.old_style ∨ s.block_open = false then
            latex_block_start s.block_open 0 else []) ++ ("-\\/-".toList ++ ['-'])) ∧
    (latex_export (sample_host [('-', 0), ('-', 0)])).map (fun e => e.body) =
      some "\\stylea\x7b-\\/-\x7d\n".toList ∧
    (latex_export (sample_host [('-', 0), ('-', 0), ('-', 0)])).map (fun e => e.body) =
      some ("\\stylea\x7b-\\/-".toList ++ "-\x7d\n".toList) := by
  obtain ⟨k, s, h1, h2, h3⟩ := C17_ligature_break
    (sample_host [('a', 0), ('-', 0), ('-', 0), ('-', 0), ('b', 0)]) (fun _ _ => 0)
    [('a', 0)] [('b', 0)] '-' 3 0 (Or.inl rfl) rfl (by decide) (by decide) (by decide)
    (by decide) (by decide)
  exact ⟨⟨k, s, h1, h2, _, h3, rfl, rfl⟩, by decide, by decide⟩

/-! ## The escapes of the LaTeX loop (C18) -/

/-- The `switch` of `write_latex_file` at one of the characters that are escaped by a
backslash. -/
theorem latex_switch_special (tw col : Int) (op : Bool) (c cn : Char)
    (hc : c ∈ ['{', '}', '_', '&', '$', '#', '%']) :
    latex_switch tw col op c cn = some
      { out := ['\\', c], column := col + 1, block_open := op, advance := 1 } := by
  simp only [List.mem_cons, List.mem_singleton, List.not_mem_nil, or_false] at hc
  rcases hc with rfl | rfl | rfl | rfl | rfl | rfl | rfl <;> rfl

/-- The `switch` of `write_latex_file` at a backslash, a tilde or a caret. -/
theorem latex_switch_symbol (tw col : Int) (op : Bool) (c cn : Char)
    (hc : c ∈ ['\\', '~', '^']) :
    latex_switch tw col op c cn = some
      { out := "\\symbol\x7b".toList ++ fmt_d c.toNat ++ "\x7d".toList
        column := col + 1, block_open := op, advance := 1 } := by
  simp only [List.mem_cons, List.mem_singleton, List.not_mem_nil, or_false] at hc
  rcases hc with rfl | rfl | rfl <;> rfl

/-- The `switch` of `write_latex_file` at a character that has no `case`. -/
theorem latex_switch_plain (tw col : Int) (op : Bool) (c cn : Char)
    (h1 : c ∉ [' ', '\t', '\r', '\n', '-', '<', '>'])
    (h2 : c ∉ ['{', '}', '_', '&', '$', '#', '%']) (h3 : c ∉ ['\\', '~', '^']) :
    latex_switch tw col op c cn = some
      { out := [c], column := col + 1, block_open := op, advance := 1 } := by
  simp only [List.mem_cons, List.mem_singleton, List.not_mem_nil, or_false, not_or]
    at h1 h2 h3
  obtain ⟨a1, a2, a3, a4, a5, a6, a7⟩ := h1
  obtain ⟨b1, b2, b3, b4, b5, b6, b7⟩ := h2
  obtain ⟨c1, c2, c3⟩ := h3
  apply latex_switch_elim (motive := fun r => r = some
      { out := [c], column := col + 1, block_open := op, advance := 1 }) tw col op c cn
  all_goals first
    | (intro _ _ _ _ _ _ _ _ _ _ _; rfl)
    | (intro hc; rcases hc with hc | hc | hc | hc | hc | hc | hc <;> contradiction)

/-- A pass of the LaTeX loop whose `switch` appends `o`, adds one to the column and to the
index and leaves `block_open` as it is. -/
theorem latex_iteration_of_switch (h : Host) (s : Locals) (o : List Char)
    (hst : get_style_at h s.i ≤ h.STYLE_MAX)
    (hp : ∀ op, latex_switch h.tab_width s.column op (get_char_at h s.i)
      (get_char_at h (s.i + 1)) = some
        { out := o, column := s.column + 1, block_open := op, advance := 1 }) :
    latex_iteration h s = some
      { i := s.i + 1
        old_style := get_style_at h s.i
        column := s.column + 1
        block_open := true
        body := s.body ++ (if get_style_at h s.i ≠ s.old_style ∨ s.block_open = false then
          latex_block_start s.block_open (get_style_at h s.i) else []) ++ o
        styles := if get_style_at h s.i ≠ s.old_style ∨ s.block_open = false then
          s.styles.set (get_style_at h s.i) USED 1 else s.styles } := by
  unfold latex_iteration
  by_cases hb : get_style_at h s.i ≠ s.old_style ∨ s.block_open = false
  · simp only [if_pos hb, if_pos hst, hp, Option.map_some']
  · have hop : s.block_open = true := by
      by_contra hne
      exact hb (Or.inr (by simpa using hne))
    have hos : s.old_style = get_style_at h s.i := by
      by_contra hne
      exact hb (Or.inl (fun hh => hne hh.symm))
    simp only [if_neg hb, hp, Option.map_some', List.append_nil]
    rw [hop, hos]

/-- C18: a pass of the loop of `write_latex_file` that reads one of the characters
`{ } _ & $ # %` appends a backslash and that character; a pass that reads a backslash, a
tilde or a caret appends `\symbol{N}` with `N` the decimal code of the character, which
is 92, 126 and 94; a pass that reads any other character that is not a space, a tab, a
carriage return, a line feed, `-`, `<` or `>` appends the character unchanged.  In each
case the text follows the start of a block if the pass starts one, and the pass advances
the index and the column by one. -/
theorem C18_latex_escapes (h : Host) (s : Locals) (o : List Char)
    (hst : get_style_at h s.i ≤ h.STYLE_MAX)
    (ho : (get_char_at h s.i ∈ ['{', '}', '_', '&', '$', '#', '%'] ∧
        o = ['\\', get_char_at h s.i]) ∨
      (get_char_at h s.i ∈ ['\\', '~', '^'] ∧
        o = "\\symbol\x7b".toList ++ fmt_d (get_char_at h s.i).toNat ++ "\x7d".toList) ∨
      (get_char_at h s.i ∉ [' ', '\t', '\r', '\n', '-', '<', '>'] ∧
        get_char_at h s.i ∉ ['{', '}', '_', '&', '$', '#', '%'] ∧
        get_char_at h s.i ∉ ['\\', '~', '^'] ∧ o = [get_char_at h s.i])) :
    latex_iteration h s = some
      { i := s.i + 1
        old_style := get_style_at h s.i
        column := s.column + 1
        block_open := true
        body := s.body ++ (if get_style_at h s.i ≠ s.old_style ∨ s.block_open = false then
          latex_block_start s.block_open (get_style_at h s.i) else []) ++ o
        styles := if get_style_at h s.i ≠ s.old_style ∨ s.block_open = false then
          s.styles.set (get_style_at h s.i) USED 1 else s.styles } ∧
    fmt_d ('\\'.toNat) = "92".toList ∧ fmt_d ('~'.toNat) = "126".toList ∧
    fmt_d ('^'.toNat) = "94".toList := by
  refine ⟨?_, by decide, by decide, by decide⟩
  apply latex_iteration_of_switch h s o hst
  intro op
  rcases ho with ⟨hc, rfl⟩ | ⟨hc, rfl⟩ | ⟨h1, h2, h3, rfl⟩
  · exact latex_switch_special _ _ _ _ _ hc
  · exact latex_switch_symbol _ _ _ _ _ hc
  · exact latex_switch_plain _ _ _ _ _ h1 h2 h3

/-- C18 at the document of the ten escaped characters and "a": the body of the export. -/
theorem C18_witness :
    (latex_iteration (sample_host [('~', 0)]) (loop_start (fun _ _ => 0))).map
        (fun s => s.body) = some "\\stylea\x7b\\symbol\x7b126\x7d".toList ∧
    (latex_export (sample_host [('{', 0), ('}', 0), ('_', 0), ('&', 0), ('$', 0), ('#', 0),
        ('%', 0), ('\\', 0), ('~', 0), ('^', 0), ('a', 0)])).map (fun e => e.body) =
      some ("\\stylea\x7b\\\x7b\\\x7d\\_\\&\\$\\#\\%\\symbol\x7b92\x7d\\symbol\x7b126\x7d" ++
        "\\symbol\x7b94\x7da\x7d\n").toList := by
  constructor
  · rw [(C18_latex_escapes (sample_host [('~', 0)]) (loop_start (fun _ _ => 0))
      "\\symbol\x7b126\x7d".toList (by decide) (Or.inr (Or.inl ⟨by decide, by decide⟩))).1]
    decide
  · decide

/-! ## The look-ahead at the end of the document (C19) -/

/-- Reading a character at or after the length gives the sentinel 0. -/
theorem get_char_at_past (h : Host) (o : Nat) (ho : get_length h ≤ o) :
    get_char_at h o = Char.ofNat 0 := by
  unfold get_char_at
  rw [List.get?_eq_none.mpr ho]

/-- The `switch` of `write_latex_file` at a space, `-`, `<` or `>` that is not followed by
the same character. -/
theorem latex_switch_lone (tw col : Int) (op : Bool) (c cn : Char)
    (hc : c ∈ [' ', '-', '<', '>']) (hn : cn ≠ c) :
    latex_switch tw col op c cn = some
      { out := [c], column := col + 1, block_open := op, advance := 1 } := by
  simp only [List.mem_cons, List.mem_singleton, List.not_mem_nil, or_false] at hc
  rcases hc with rfl | hc
  · simp [latex_switch, hn]
  · exact latex_switch_single tw col op c cn hc hn

/-- The `switch` of `write_latex_file` at a carriage return that is not followed by a
line feed. -/
theorem latex_switch_cr (tw col : Int) (op : Bool) (cn : Char) (hn : cn ≠ '\n') :
    latex_switch tw col op '\r' cn = some
      { out := (if op then "\x7d".toList else []) ++ LATEX_BREAK
        column := 0, block_open := false, advance := 1 } := by
  simp [latex_switch, hn, LATEX_BREAK]

/-- The `switch` of `write_html_file` at a carriage return that is not followed by a
line feed. -/
theorem html_switch_cr (tw col : Int) (op : Bool) (cn : Char) (hn : cn ≠ '\n') :
    html_switch tw col op '\r' cn = some
      { out := (if op then "</span>".toList else []) ++ HTML_BREAK
        column := 0, block_open := false, advance := 1 } := by
  simp [html_switch, hn, HTML_BREAK]

/-- The index of the HTML loop never passes the length. -/
theorem html_loop_index_le (h : Host) (t : Styles) (fuel : Nat) (s : Locals)
    (hs : html_loop h fuel (loop_start t) = some s) : s.i ≤ get_length h := by
  refine html_loop_invariant h (fun s => s.i ≤ get_length h) ?_ fuel (loop_start t) s
    (Nat.zero_le _) hs
  intro s s' hi _ hit
  have := html_iteration_advances h s s' hit
  show s'.i ≤ get_length h
  omega

/-- The index of the LaTeX loop never passes the length: the pass that consumes a pair
has read the second character of the pair below the length. -/
theorem latex_loop_index_le (h : Host) (t : Styles) (fuel : Nat) (s : Locals)
    (hs : latex_loop h fuel (loop_start t) = some s) : s.i ≤ get_length h := by
  refine latex_loop_invariant h (fun s => s.i ≤ get_length h) ?_ fuel (loop_start t) s
    (Nat.zero_le _) hs
  intro s s' hi _ hit
  show s'.i ≤ get_length h
  obtain ⟨p, pre, hp, hadv, _⟩ := latex_iteration_proj h s s' hit
  rcases latex_switch_advance _ _ _ _ _ p hp with h1 | ⟨h2, heq, hc⟩
  · omega
  · by_contra hgt
    have hpast := get_char_at_past h (s.i + 1) (by omega)
    rw [← heq] at hpast
    rw [hpast] at hc
    revert hc
    decide

/-- C19: with styles that are rows of the table and a non-zero tab width, both render
loops end after at most `get_length` passes with the index equal to the length; in every
state that a loop reaches the index is at most the length, so that a pass, which runs
only with the index below the length, reads the character and the style at an offset
below the length and the look-ahead at an offset that is at most the length, where the
sentinel 0 is read.  At the last offset of the document the LaTeX pass of a space, `-`,
`<` or `>` appends that single character and ends at the length, and the pass of a
carriage return appends one line break in both loops. -/
theorem C19_lookahead_at_end (h : Host) (t : Styles)
    (hsty : ∀ p ∈ h.text, p.2 ≤ h.STYLE_MAX) (htab : h.tab_width ≠ 0) :
    (∃ s, html_loop h (get_length h) (loop_start t) = some s ∧ s.i = get_length h) ∧
    (∃ s, latex_loop h (get_length h) (loop_start t) = some s ∧ s.i = get_length h) ∧
    (∀ fuel s, html_loop h fuel (loop_start t) = some s → s.i ≤ get_length h) ∧
    (∀ fuel s, latex_loop h fuel (loop_start t) = some s → s.i ≤ get_length h) ∧
    (∀ o, get_length h ≤ o → get_char_at h o = Char.ofNat 0) ∧
    (∀ s, s.i + 1 = get_length h → get_char_at h s.i ∈ [' ', '-', '<', '>'] →
      latex_iteration h s = some
        { i := get_length h
          old_style := get_style_at h s.i
          column := s.column + 1
          block_open := true
          body := s.body ++ (if get_style_at h s.i ≠ s.old_style ∨ s.block_open = false then
            latex_block_start s.block_open (get_style_at h s.i) else []) ++
            [get_char_at h s.i]
          styles := if get_style_at h s.i ≠ s.old_style ∨ s.block_open = false then
            s.styles.set (get_style_at h s.i) USED 1 else s.styles }) ∧
    (∀ s, s.i + 1 = get_length h → get_char_at h s.i = '\r' →
      ∃ s', latex_iteration h s = some s' ∧ s'.i = get_length h ∧
        s'.body = s.body ++ (if get_style_at h s.i ≠ s.old_style ∨ s.block_open = false then
          latex_block_start s.block_open (get_style_at h s.i) else []) ++
          "\x7d".toList ++ LATEX_BREAK) ∧
    (∀ s, s.i + 1 = get_length h → get_char_at h s.i = '\r' →
      ∃ s', html_iteration h s = some s' ∧ s'.i = get_length h ∧
        s'.body = s.body ++ (if s.block_open then "</span>".toList else []) ++
          HTML_BREAK) := by
  refine ⟨?_, ?_, fun fuel s hs => html_loop_index_le h t fuel s hs,
    fun fuel s hs => latex_loop_index_le h t fuel s hs,
    fun o ho => get_char_at_past h o ho, ?_, ?_, ?_⟩
  · obtain ⟨s, hs, hfin⟩ := html_loop_finishes h hsty htab (get_length h) (loop_start t)
    have h1 := hfin (by simp [loop_start])
    have h2 := html_loop_index_le h t _ s hs
    exact ⟨s, hs, by omega⟩
  · obtain ⟨s, hs, hfin⟩ := latex_loop_finishes h hsty htab (get_length h) (loop_start t)
    have h1 := hfin (by simp [loop_start])
    have h2 := latex_loop_index_le h t _ s hs
    exact ⟨s, hs, by omega⟩
  · intro s hlast hc
    have hst := hsty _ (text_mem h s.i (by omega))
    have hn : get_char_at h (s.i + 1) ≠ get_char_at h s.i := by
      rw [get_char_at_past h (s.i + 1) (by omega)]
      intro h0
      rw [← h0] at hc
      revert hc
      decide
    rw [← hlast]
    exact latex_iteration_of_switch h s _ hst
      (fun op => latex_switch_lone _ _ op _ _ hc hn)
  · intro s hlast hc
    have hst := hsty _ (text_mem h s.i (by omega))
    have hn : get_char_at h (s.i + 1) ≠ '\n' := by
      rw [get_char_at_past h (s.i + 1) (by omega)]
      decide
    obtain ⟨s', hs'⟩ := latex_iteration_defined h s hst htab
    obtain ⟨p, hp, heq, _⟩ := latex_iteration_eq h s s' hs'
    rw [hc, latex_switch_cr _ _ _ _ hn] at hp
    simp only [Option.some.injEq] at hp
    subst hp
    refine ⟨s', hs', ?_, ?_⟩
    · rw [heq, ← hlast]
      split_ifs <;> rfl
    · rw [heq]
      split_ifs
      · simp only [if_true, List.append_assoc]
      · simp only [if_true, List.append_assoc, List.nil_append]
  · intro s hlast hc
    have hst := hsty _ (text_mem h s.i (by omega))
    have hn : get_char_at h (s.i + 1) ≠ '\n' := by
      rw [get_char_at_past h (s.i + 1) (by omega)]
      decide
    obtain ⟨s', hs'⟩ := html_iteration_defined h s hst htab
    obtain ⟨p, hp, heq, _⟩ := html_iteration_eq h s s' hs'
    have hsp : ¬((get_style_at h s.i ≠ s.old_style ∨ s.block_open = false) ∧
        isspace (get_char_at h s.i) = false) := by
      rw [hc]
      intro hh
      exact absurd hh.2 (by decide)
    rw [if_neg hsp] at hp heq
    rw [hc, html_switch_cr _ _ _ _ hn] at hp
    simp only [Option.some.injEq] at hp
    subst hp
    refine ⟨s', hs', ?_, ?_⟩
    · rw [heq, ← hlast]
    · rw [heq]
      simp only [List.append_assoc]

/-- C19 at the sample host with the document "a", "-", "-", "-": the LaTeX loop ends with
the index 4, the length, after a pass that consumes a pair and a pass that appends the
last `-` alone; with the document "a" and a carriage return the body of either export
holds one line break. -/
theorem C19_witness :
    (∃ s, latex_loop (sample_host [('a', 0), ('-', 0), ('-', 0), ('-', 0)])
        (get_length (sample_host [('a', 0), ('-', 0), ('-', 0), ('-', 0)]))
        (loop_start (fun _ _ => 0)) = some s ∧ s.i = 4) ∧
    (latex_export (sample_host [('a', 0), ('-', 0), ('-', 0), ('-', 0)])).map
      (fun e => e.body) = some ("\\stylea\x7ba-\\/-".toList ++ "-\x7d\n".toList) ∧
    (latex_export (sample_host [('a', 0), ('\r', 0)])).map (fun e => e.body) =
      some "\\stylea\x7ba\x7d \\\\\n".toList ∧
    (html_export (sample_host [('a', 0), ('\r', 0)]) false).map (fun e => e.body) =
      some "<span class=\"style_0\">a</span><br />\n".toList := by
  obtain ⟨_, ⟨s, hs, hi⟩, _⟩ := C19_lookahead_at_end
    (sample_host [('a', 0), ('-', 0), ('-', 0), ('-', 0)]) (fun _ _ => 0)
    (by decide) (by decide)
  exact ⟨⟨s, hs, hi⟩, by decide, by decide, by decide⟩

/-! ## The bounds of the style table (C20) -/

/-- The reader loop of `write_html_file` stays inside the table only for at most
`STYLE_MAX + 1` rows. -/
theorem html_read_styles_bound (h : Host) (n : Nat) (t : Styles)
    (ht : html_read_styles h n = some t) : n ≤ h.STYLE_MAX + 1 := by
  cases n with
  | zero => omega
  | succ n =>
    simp only [html_read_styles, Option.bind_eq_some] at ht
    obtain ⟨t0, _, hset⟩ := ht
    split_ifs at hset with hle
    omega

/-- The reader loop of `write_latex_file` stays inside the table only for at most
`STYLE_MAX + 1` rows. -/
theorem latex_read_styles_bound (h : Host) (n : Nat) (t : Styles)
    (ht : latex_read_styles h n = some t) : n ≤ h.STYLE_MAX + 1 := by
  cases n with
  | zero => omega
  | succ n =>
    simp only [latex_read_styles, Option.bind_eq_some] at ht
    obtain ⟨t0, _, hset⟩ := ht
    split_ifs at hset with hle
    omega

/-- C20, as the code has it: the table `styles[STYLE_MAX + 1][MAX_TYPES]` has
`STYLE_MAX + 1` rows whatever the style bit width is.  With every style of the document
below `style_max = 2^bits` and a non-zero tab width, an export makes all its accesses
inside the table (the model then gives a result) if and only if `style_max` is at most
`STYLE_MAX + 1`; for a larger bit width the reader loop `for (i = 0; i < style_max; i++)`
writes past the last row. -/
theorem C20_table_bounds (h : Host) (use_zoom : Bool)
    (hsty : ∀ p ∈ h.text, p.2 < style_max h) (htab : h.tab_width ≠ 0) :
    ((∃ e, html_export h use_zoom = some e) ↔ style_max h ≤ h.STYLE_MAX + 1) ∧
    ((∃ e, latex_export h = some e) ↔ style_max h ≤ h.STYLE_MAX + 1) := by
  constructor
  · constructor
    · rintro ⟨e, he⟩
      obtain ⟨t, _, ht, _⟩ := html_export_inv h use_zoom e he
      exact html_read_styles_bound h _ t ht
    · intro hcap
      obtain ⟨_, _, e, _, _, _, _, he, _⟩ := html_export_spec h use_zoom hcap
        (fun p hp => by have := hsty p hp; omega) htab
      exact ⟨e, he⟩
  · constructor
    · rintro ⟨e, he⟩
      obtain ⟨t, _, ht, _⟩ := latex_export_inv h e he
      exact latex_read_styles_bound h _ t ht
    · intro hcap
      obtain ⟨_, _, e, _, _, _, _, he, _⟩ := latex_export_spec h hcap
        (fun p hp => by have := hsty p hp; omega) htab
      exact ⟨e, he⟩

/-- C20 at a failing input: with `STYLE_MAX` 127 and eight style bits, `style_max` is 256
and neither export stays inside the table of 128 rows, although the style 0 of the
document "a" is below `style_max`. -/
theorem C20_witness :
    style_max wide_host = 256 ∧ wide_host.STYLE_MAX + 1 = 128 ∧
    (∀ p ∈ wide_host.text, p.2 < style_max wide_host) ∧
    html_export wide_host false = none ∧ latex_export wide_host = none := by
  have hC := C20_table_bounds wide_host false (by decide) (by decide)
  refine ⟨by decide, by decide, by decide, ?_, ?_⟩
  · cases he : html_export wide_host false with
    | none => rfl
    | some e => exact absurd (hC.1.mp ⟨e, he⟩) (by decide)
  · cases he : latex_export wide_host with
    | none => rfl
    | some e => exact absurd (hC.2.mp ⟨e, he⟩) (by decide)

/-! ## The braces of the LaTeX body (C23) -/

/-- The scan passes a character that is neither a backslash nor a brace. -/
theorem brace_scan_cons_plain (c : Char) (rest : List Char) (d : Nat)
    (hc : c ≠ '\\' ∧ c ≠ '{' ∧ c ≠ '}') :
    brace_scan (c :: rest) false d = brace_scan rest false d := by
  rw [brace_scan, if_neg hc.1, if_neg hc.2.1, if_neg hc.2.2]

/-- The scan passes a backslash and the character after it as one unit. -/
theorem brace_scan_escape (c : Char) (rest : List Char) (d : Nat) :
    brace_scan ('\\' :: c :: rest) false d = brace_scan rest false d := by
  rw [brace_scan, if_pos rfl, brace_scan]

/-- The scan adds one to the depth at an opening brace. -/
theorem brace_scan_open (rest : List Char) (d : Nat) :
    brace_scan ('{' :: rest) false d = brace_scan rest false (d + 1) := rfl

/-- The scan takes one from a positive depth at a closing brace. -/
theorem brace_scan_close (rest : List Char) (d : Nat) :
    brace_scan ('}' :: rest) false (d + 1) = brace_scan rest false d := rfl

/-- The scan passes a text without backslash and braces and keeps the depth. -/
theorem brace_scan_plain (x rest : List Char) (d : Nat)
    (hx : ∀ c ∈ x, c ≠ '\\' ∧ c ≠ '{' ∧ c ≠ '}') :
    brace_scan (x ++ rest) false d = brace_scan rest false d := by
  induction x with
  | nil => rfl
  | cons c x ih =>
    rw [List.cons_append, brace_scan_cons_plain _ _ _ (hx c (List.mem_cons_self _ _))]
    exact ih (fun c hc => hx c (List.mem_cons_of_mem _ hc))

/-- The text of `fmt_d` has no backslash and no brace. -/
theorem fmt_d_plain (n : Int) : ∀ c ∈ fmt_d n, c ≠ '\\' ∧ c ≠ '{' ∧ c ≠ '}' := by
  intro c hc
  refine ⟨?_, ?_, ?_⟩ <;> (intro he; rw [he] at hc; revert hc)
  · exact not_mem_fmt_d n _ (by decide) (by decide)
  · exact not_mem_fmt_d n _ (by decide) (by decide)
  · exact not_mem_fmt_d n _ (by decide) (by decide)

/-- The letters of a style token are lower case letters. -/
theorem get_tex_style_isLower (st : Nat) : ∀ c ∈ get_tex_style st, c.isLower = true := by
  intro c hc
  obtain ⟨d, hd, rfl⟩ := get_tex_style_loop_mem _ _ c hc
  interval_cases d <;> decide

/-- A style token has no backslash and no brace. -/
theorem get_tex_style_plain (st : Nat) :
    ∀ c ∈ get_tex_style st, c ≠ '\\' ∧ c ≠ '{' ∧ c ≠ '}' := by
  intro c hc
  have hl := get_tex_style_isLower st c hc
  refine ⟨?_, ?_, ?_⟩ <;> (intro he; rw [he] at hl; revert hl; decide)

/-- The scan of the text that starts a block, from the depth of the braces that the open
block, if any, gives: the block that was open is closed and the new one is open. -/
theorem brace_scan_block_start (op : Bool) (st : Nat) (rest : List Char) :
    brace_scan (latex_block_start op st ++ rest) false (if op then 1 else 0) =
      brace_scan rest false 1 := by
  have key : brace_scan ('\\' :: 's' :: 't' :: 'y' :: 'l' :: 'e' ::
      (get_tex_style st ++ '{' :: rest)) false 0 = brace_scan rest false 1 := by
    rw [brace_scan_escape, brace_scan_cons_plain _ _ _ (by decide),
      brace_scan_cons_plain _ _ _ (by decide), brace_scan_cons_plain _ _ _ (by decide),
      brace_scan_cons_plain _ _ _ (by decide),
      brace_scan_plain _ _ _ (get_tex_style_plain st), brace_scan_open]
  have e1 : "\\style".toList = ['\\', 's', 't', 'y', 'l', 'e'] := rfl
  have e2 : "\x7b".toList = ['{'] := rfl
  have e3 : "\x7d\n".toList = ['}', '\n'] := rfl
  unfold latex_block_start
  rw [e1, e2, e3]
  cases op
  · simp only [Bool.false_eq_true, if_false, List.nil_append, List.cons_append,
      List.append_assoc]
    exact key
  · simp only [if_true, List.nil_append, List.cons_append, List.append_assoc]
    rw [brace_scan_close, brace_scan_cons_plain _ _ _ (by decide)]
    exact key

/-- The text that the `switch` of `write_latex_file` appends with a block open: either
the closing brace of the block and the line-break marker, for a line break, after which
no block is open, or a text whose braces are balanced and whose backslashes are followed
by a character of the same text, which leaves the block open. -/
theorem latex_switch_braces (tw col : Int) (c cn : Char) :
    ∀ p, latex_switch tw col true c cn = some p →
      (p.block_open = true ∧ ¬(c = '\n' ∨ (c = '\r' ∧ cn ≠ '\n')) ∧
        ∀ rest d, brace_scan (p.out ++ rest) false d = brace_scan rest false d) ∨
      (p.block_open = false ∧ (c = '\n' ∨ (c = '\r' ∧ cn ≠ '\n')) ∧
        p.out = '}' :: LATEX_BREAK) := by
  apply latex_switch_elim (motive := fun r => ∀ p, r = some p →
      (p.block_open = true ∧ ¬(c = '\n' ∨ (c = '\r' ∧ cn ≠ '\n')) ∧
        ∀ rest d, brace_scan (p.out ++ rest) false d = brace_scan rest false d) ∨
      (p.block_open = false ∧ (c = '\n' ∨ (c = '\r' ∧ cn ≠ '\n')) ∧
        p.out = '}' :: LATEX_BREAK)) tw col true c cn
  · intro hc hn p hp
    cases hp
    refine Or.inl ⟨rfl, ?_, fun _ _ => rfl⟩
    rintro (h | ⟨_, h⟩)
    · rw [hc] at h; exact absurd h (by decide)
    · exact h hn
  · intro h1 h2 p hp
    cases hp
    refine Or.inr ⟨rfl, ?_, rfl⟩
    rcases h1 with h1 | h1
    · exact Or.inr ⟨h1, fun hn => h2 ⟨h1, hn⟩⟩
    · exact Or.inl h1
  · intro _ _ p hp
    cases hp
  · intro hc _ p hp
    cases hp
    refine Or.inl ⟨rfl, ?_, ?_⟩
    · rintro (h | ⟨h, _⟩) <;> (rw [hc] at h; exact absurd h (by decide))
    · intro rest d
      have e1 : "\\hspace*\x7b".toList = ['\\', 'h', 's', 'p', 'a', 'c', 'e', '*', '{'] := rfl
      have e2 : "em\x7d".toList = ['e', 'm', '}'] := rfl
      dsimp only
      rw [e1, e2]
      simp only [List.cons_append, List.nil_append, List.append_assoc]
      rw [brace_scan_escape, brace_scan_cons_plain _ _ _ (by decide),
        brace_scan_cons_plain _ _ _ (by decide), brace_scan_cons_plain _ _ _ (by decide),
        brace_scan_cons_plain _ _ _ (by decide), brace_scan_cons_plain _ _ _ (by decide),
        brace_scan_cons_plain _ _ _ (by decide), brace_scan_open,
        brace_scan_plain _ _ _ (fmt_d_plain _), brace_scan_cons_plain _ _ _ (by decide),
        brace_scan_cons_plain _ _ _ (by decide), brace_scan_close]
  case h_special =>
    intro hc p hp
    cases hp
    refine Or.inl ⟨rfl, ?_, fun rest d => brace_scan_escape _ _ _⟩
    rintro (h | ⟨h, _⟩) <;>
      (rcases hc with hc | hc | hc | hc | hc | hc | hc <;>
        (rw [hc] at h; exact absurd h (by decide)))
  case h_plain =>
    intro h1 h2 _ _ h5 h6 _ _ _ _ _ p hp
    cases hp
    refine Or.inl ⟨rfl, ?_, fun rest d => brace_scan_cons_plain _ _ _
      ⟨h6, fun hc => h5 (Or.inl hc), fun hc => h5 (Or.inr (Or.inl hc))⟩⟩
    rintro (h | ⟨h, _⟩)
    · exact h2 h
    · exact h1 h
  all_goals
    intro hc
    intros
    rename_i p hp
    cases hp
    refine Or.inl ⟨rfl, ?_, fun rest d => rfl⟩
    rintro (h | ⟨h, _⟩) <;> (rw [hc] at h; exact absurd h (by decide))

/-- The body, the table and `block_open` after a pass of the LaTeX loop: the pass appends
the start of a block when the style changes or no block is open, then the text of the
`switch`, which runs with a block open. -/
theorem latex_iteration_parts (h : Host) (s s' : Locals)
    (hit : latex_iteration h s = some s') :
    ∃ p, latex_switch h.tab_width s.column true (get_char_at h s.i)
        (get_char_at h (s.i + 1)) = some p ∧
      s'.block_open = p.block_open ∧
      s'.body = s.body ++ (if get_style_at h s.i ≠ s.old_style ∨ s.block_open = false then
        latex_block_start s.block_open (get_style_at h s.i) else []) ++ p.out ∧
      s'.styles = (if get_style_at h s.i ≠ s.old_style ∨ s.block_open = false then
        s.styles.set (get_style_at h s.i) USED 1 else s.styles) ∧
      (¬(get_style_at h s.i ≠ s.old_style ∨ s.block_open = false) → s.block_open = true) ∧
      (get_style_at h s.i ≠ s.old_style ∨ s.block_open = false →
        get_style_at h s.i ≤ h.STYLE_MAX) := by
  obtain ⟨p, hp, heq, hst⟩ := latex_iteration_eq h s s' hit
  refine ⟨p, hp, ?_, ?_, ?_, ?_, hst⟩
  · rw [heq]; split_ifs <;> rfl
  · rw [heq]; split_ifs
    · rfl
    · simp
  · rw [heq]; split_ifs <;> rfl
  · intro hb
    by_contra hne
    exact hb (Or.inr (by simpa using hne))

/-- The scan of the body of the LaTeX loop followed by any text is the scan of that text
from the depth 1 when a block is open and from the depth 0 when none is. -/
theorem latex_loop_braces (h : Host) (t : Styles) (fuel : Nat) (s : Locals)
    (hs : latex_loop h fuel (loop_start t) = some s) :
    ∀ rest, brace_scan (s.body ++ rest) false 0 =
      brace_scan rest false (if s.block_open then 1 else 0) := by
  refine latex_loop_invariant h (fun s => ∀ rest, brace_scan (s.body ++ rest) false 0 =
      brace_scan rest false (if s.block_open then 1 else 0)) ?_ fuel (loop_start t) s
    (fun rest => rfl) hs
  intro s s' _ hP hit rest
  obtain ⟨p, hp, hop, hbody, _, hopen, _⟩ := latex_iteration_parts h s s' hit
  have hpre : ∀ rest, brace_scan (s.body ++ (if get_style_at h s.i ≠ s.old_style ∨
      s.block_open = false then latex_block_start s.block_open (get_style_at h s.i)
      else []) ++ rest) false 0 = brace_scan rest false 1 := by
    intro rest
    rw [List.append_assoc, hP]
    by_cases hb : get_style_at h s.i ≠ s.old_style ∨ s.block_open = false
    · rw [if_pos hb, brace_scan_block_start]
    · rw [if_neg hb, hopen hb]
      rfl
  rw [hbody, hop, List.append_assoc, hpre]
  rcases latex_switch_braces _ _ _ _ p hp with ⟨h1, _, h2⟩ | ⟨h1, _, h2⟩
  · rw [h1, h2]
    rfl
  · rw [h1, h2]
    rfl

/-- C23: with styles that are rows of a table of `style_max` rows and a non-zero tab
width, the body that `write_latex_file` produces, scanned from the left with a backslash
and the character after it taken as one escaped unit, never has more unescaped closing
braces than opening braces in a prefix and has as many at the end.  In every state that
the loop reaches the depth of the braces of the body is 1 when a block is open and 0 when
none is; a pass first starts a block if none of the style is open, so that its `switch`
appends at the depth 1, inside the block; the text of the `switch` is balanced in itself
and leaves the block open, but for a line break, where it is the closing brace of the
block followed by the line-break marker, which then stands outside the blocks. -/
theorem C23_brace_balance (h : Host) (hcap : style_max h ≤ h.STYLE_MAX + 1)
    (hsty : ∀ p ∈ h.text, p.2 ≤ h.STYLE_MAX) (htab : h.tab_width ≠ 0) :
    (∃ e, latex_export h = some e ∧ brace_scan e.body false 0 = some 0) ∧
    (∀ t fuel s, latex_loop h fuel (loop_start t) = some s →
      ∀ rest, brace_scan (s.body ++ rest) false 0 =
        brace_scan rest false (if s.block_open then 1 else 0)) ∧
    (∀ t fuel s s', latex_loop h fuel (loop_start t) = some s →
      latex_iteration h s = some s' →
      ∃ pre out, s'.body = s.body ++ pre ++ out ∧
        (∀ rest, brace_scan (s.body ++ pre ++ rest) false 0 = brace_scan rest false 1) ∧
        ((get_char_at h s.i = '\n' ∨
            (get_char_at h s.i = '\r' ∧ get_char_at h (s.i + 1) ≠ '\n')) →
          out = '}' :: LATEX_BREAK ∧ s'.block_open = false) ∧
        (¬(get_char_at h s.i = '\n' ∨
            (get_char_at h s.i = '\r' ∧ get_char_at h (s.i + 1) ≠ '\n')) →
          (∀ rest d, brace_scan (out ++ rest) false d = brace_scan rest false d) ∧
          s'.block_open = true)) := by
  refine ⟨?_, fun t fuel s hs => latex_loop_braces h t fuel s hs, ?_⟩
  · obtain ⟨t, s, e, _, _, hs, _, he, hbody, _⟩ := latex_export_spec h hcap hsty htab
    refine ⟨e, he, ?_⟩
    have := latex_loop_braces h t _ s hs (if s.block_open then "\x7d\n".toList else [])
    rw [hbody, this]
    cases s.block_open <;> rfl
  · intro t fuel s s' hs hit
    obtain ⟨p, hp, hop, hbody, _, hopen, _⟩ := latex_iteration_parts h s s' hit
    refine ⟨_, p.out, hbody, ?_, ?_, ?_⟩
    · intro rest
      rw [List.append_assoc, latex_loop_braces h t fuel s hs]
      by_cases hb : get_style_at h s.i ≠ s.old_style ∨ s.block_open = false
      · rw [if_pos hb, brace_scan_block_start]
      · rw [if_neg hb, hopen hb]
        rfl
    · intro hbr
      rcases latex_switch_braces _ _ _ _ p hp with ⟨_, h2, _⟩ | ⟨h1, _, h3⟩
      · exact absurd hbr h2
      · exact ⟨h3, by rw [hop, h1]⟩
    · intro hbr
      rcases latex_switch_braces _ _ _ _ p hp with ⟨h1, _, h3⟩ | ⟨_, h2, _⟩
      · exact ⟨h3, by rw [hop, h1]⟩
      · exact absurd h2 hbr

/-- C23 at the sample host with the document "a", an opening brace, a line feed and a
closing brace of another style: the braces of the document are escaped, the line break
closes the block of style 0, and the body is balanced. -/
theorem C23_witness :
    ∃ e, latex_export (sample_host [('a', 0), ('{', 0), ('\n', 0), ('}', 1)]) = some e ∧
      e.body = "\\stylea\x7ba\\\x7b\x7d \\\\\n\\styleb\x7b\\\x7d\x7d\n".toList ∧
      brace_scan e.body false 0 = some 0 := by
  obtain ⟨⟨e, he, hb⟩, _⟩ := C23_brace_balance
    (sample_host [('a', 0), ('{', 0), ('\n', 0), ('}', 1)]) (by decide) (by decide)
    (by decide)
  have hd : (latex_export (sample_host [('a', 0), ('{', 0), ('\n', 0), ('}', 1)])).map
      (fun e => e.body) =
      some "\\stylea\x7ba\\\x7b\x7d \\\\\n\\styleb\x7b\\\x7d\x7d\n".toList := by
    decide
  rw [he] at hd
  exact ⟨e, he, Option.some.inj hd, hb⟩

/-! ## The HTML body read back (C22) -/

/-- A text is at the head of itself followed by any text. -/
theorem isPrefixOf_append_self (a rest : List Char) : a.isPrefixOf (a ++ rest) = true := by
  rw [ List.isPrefixOf_iff_prefix]
  exact List.prefix_append a rest

/-- A text that does not start with `<` does not start with an opening marker. -/
theorem html_open_token_ne (c : Char) (l : List Char) (hc : c ≠ '<') :
    html_open_token (c :: l) = none := by
  have e : HTML_SPAN_HEAD = '<' :: "span class=\"style_".toList := rfl
  have hb : ('<' == c) = false := by simpa using fun h => hc h.symm
  unfold html_open_token
  rw [e, List.isPrefixOf, hb, Bool.false_and]
  rfl

/-- A text that does not start with `<` does not start with a marker. -/
theorem html_marker_length_ne (c : Char) (l : List Char) (hc : c ≠ '<') :
    html_marker_length (c :: l) = 0 := by
  have e : HTML_SPAN_CLOSE = '<' :: "/span>".toList := rfl
  have hb : ('<' == c) = false := by simpa using fun h => hc h.symm
  unfold html_marker_length
  rw [e, List.isPrefixOf, hb, Bool.false_and, html_open_token_ne c l hc]
  rfl

/-- The removal of the markers keeps a text without `<`. -/
theorem html_strip_scan_plain (x rest : List Char) (hx : '<' ∉ x) :
    html_strip_scan (x ++ rest) 0 = x ++ html_strip_scan rest 0 := by
  induction x with
  | nil => rfl
  | cons c x ih =>
    have hc : c ≠ '<' := fun h => hx (h ▸ List.mem_cons_self _ _)
    rw [List.cons_append, html_strip_scan, if_pos (html_marker_length_ne c _ hc),
      ih (fun h => hx (List.mem_cons_of_mem _ h)), List.cons_append]

/-- The removal of the markers drops the characters that `skip` counts. -/
theorem html_strip_scan_skip (x rest : List Char) (k : Nat) :
    html_strip_scan (x ++ rest) (x.length + k) = html_strip_scan rest k := by
  induction x with
  | nil => simp
  | cons c x ih =>
    rw [List.cons_append, List.length_cons, Nat.add_right_comm, html_strip_scan, ih]

/-- The removal of the markers drops a marker that stands at the head of the text. -/
theorem html_strip_scan_marker (m rest : List Char) (hm : m ≠ [])
    (hlen : html_marker_length (m ++ rest) = m.length) :
    html_strip_scan (m ++ rest) 0 = html_strip_scan rest 0 := by
  cases m with
  | nil => exact absurd rfl hm
  | cons c m =>
    rw [List.cons_append] at hlen ⊢
    rw [html_strip_scan, if_neg (by rw [hlen]; simp), hlen, List.length_cons,
      Nat.add_sub_cancel]
    have := html_strip_scan_skip m rest 0
    rwa [Nat.add_zero] at this

/-- The longest prefix of digits of a text of digits followed by a character that is
not a digit is that text. -/
theorem takeWhile_digits (x : List Char) (y : Char) (r : List Char)
    (hx : ∀ c ∈ x, c.isDigit = true) (hy : y.isDigit = false) :
    (x ++ y :: r).takeWhile Char.isDigit = x := by
  induction x with
  | nil => simp [List.takeWhile, hy]
  | cons c x ih =>
    rw [List.cons_append, List.takeWhile_cons, if_pos (hx c (List.mem_cons_self _ _)),
      ih (fun c hc => hx c (List.mem_cons_of_mem _ hc))]

/-- The text of `fmt_d` for a natural number is made of digits and is not empty. -/
theorem fmt_d_nat_digits (n : Nat) :
    (∀ c ∈ fmt_d (n : Int), c.isDigit = true) ∧ fmt_d (n : Int) ≠ [] := by
  have hneg : ¬ ((n : Int) < 0) := by omega
  unfold fmt_d
  rw [if_neg hneg]
  refine ⟨fun c hc => dec_digits_isDigit _ _ c hc, ?_⟩
  simp only [Int.toNat_ofNat]
  unfold dec_digits
  split_ifs <;> simp

/-- The token of an opening marker that stands at the head of a text. -/
theorem html_open_token_marker (digits rest : List Char)
    (hd : ∀ c ∈ digits, c.isDigit = true) (hne : digits ≠ []) :
    html_open_token (HTML_SPAN_HEAD ++ (digits ++ '"' :: '>' :: rest)) = some digits := by
  have hp : HTML_SPAN_HEAD.isPrefixOf (HTML_SPAN_HEAD ++ (digits ++ '"' :: '>' :: rest)) =
      true := by
    exact isPrefixOf_append_self _ _
  have htw : ((HTML_SPAN_HEAD ++ (digits ++ '"' :: '>' :: rest)).drop
      HTML_SPAN_HEAD.length).takeWhile Char.isDigit = digits := by
    rw [List.drop_left, takeWhile_digits _ _ _ hd (by decide)]
  have hdrop : (HTML_SPAN_HEAD ++ (digits ++ '"' :: '>' :: rest)).drop
      (HTML_SPAN_HEAD.length + digits.length) = '"' :: '>' :: rest := by
    rw [← List.append_assoc, ← List.length_append, List.drop_left]
  unfold html_open_token
  have hq : "\">".toList.isPrefixOf ('"' :: '>' :: rest) = true := by
    exact isPrefixOf_append_self ['"', '>'] rest
  rw [if_pos hp, htw, hdrop, if_pos ⟨hne, hq⟩]

/-- The length of the closing marker that stands at the head of a text. -/
theorem html_marker_length_close (rest : List Char) :
    html_marker_length (HTML_SPAN_CLOSE ++ rest) = HTML_SPAN_CLOSE.length := by
  have hp : HTML_SPAN_CLOSE.isPrefixOf (HTML_SPAN_CLOSE ++ rest) = true := by
    exact isPrefixOf_append_self _ _
  unfold html_marker_length
  rw [if_pos hp]

/-- The length of an opening marker that stands at the head of a text. -/
theorem html_marker_length_open (digits rest : List Char)
    (hd : ∀ c ∈ digits, c.isDigit = true) (hne : digits ≠ []) :
    html_marker_length (HTML_SPAN_HEAD ++ (digits ++ '"' :: '>' :: rest)) =
      HTML_SPAN_HEAD.length + digits.length + 2 := by
  have hp : HTML_SPAN_CLOSE.isPrefixOf (HTML_SPAN_HEAD ++ (digits ++ '"' :: '>' :: rest)) =
      false := rfl
  unfold html_marker_length
  rw [hp, html_open_token_marker digits rest hd hne]
  rfl

/-- The text that starts a span, as the markers it is made of. -/
theorem html_span_start_markers (op : Bool) (st : Nat) (rest : List Char) :
    html_span_start op st ++ rest = (if op then HTML_SPAN_CLOSE else []) ++
      ((HTML_SPAN_HEAD ++ (fmt_d (st : Int) ++ ['"', '>'])) ++ rest) := by
  cases op <;> simp [html_span_start, HTML_SPAN_HEAD, HTML_SPAN_CLOSE, List.append_assoc]

/-- The removal of the markers drops the text that starts a span. -/
theorem html_strip_scan_span_start (op : Bool) (st : Nat) (rest : List Char) :
    html_strip_scan (html_span_start op st ++ rest) 0 = html_strip_scan rest 0 := by
  obtain ⟨hd, hne⟩ := fmt_d_nat_digits st
  have hopen : html_strip_scan ((HTML_SPAN_HEAD ++ (fmt_d (st : Int) ++ ['"', '>'])) ++ rest)
      0 = html_strip_scan rest 0 := by
    apply html_strip_scan_marker
    · simp [HTML_SPAN_HEAD]
    · have := html_marker_length_open (fmt_d (st : Int)) rest hd hne
      simp only [List.append_assoc, List.cons_append, List.nil_append, List.length_append,
        List.length_cons, List.length_nil] at this ⊢
      rw [this]
      omega
  rw [html_span_start_markers]
  cases op
  · simpa using hopen
  · rw [if_pos rfl, html_strip_scan_marker HTML_SPAN_CLOSE _ (by simp [HTML_SPAN_CLOSE])
      (html_marker_length_close _)]
    exact hopen

/-- The `switch` of `write_html_file` at a character that is not a tab, a carriage return
or a line feed appends the text that the decoding reads back as the character. -/
theorem html_switch_encoded (tw col : Int) (op : Bool) (c cn : Char)
    (h1 : c ≠ '\t') (h2 : c ≠ '\r') (h3 : c ≠ '\n') :
    html_switch tw col op c cn = some
      { out := html_encoded c, column := col + 1, block_open := op, advance := 1 } := by
  apply html_switch_elim (motive := fun r => r = some
      { out := html_encoded c, column := col + 1, block_open := op, advance := 1 })
    tw col op c cn
  · intro hc; exact absurd hc h2
  · rintro (hc | hc) _
    · exact absurd hc h2
    · exact absurd hc h3
  · intro hc; exact absurd hc h1
  · intro hc; exact absurd hc h1
  · intro hc; subst hc; rfl
  · intro hc; subst hc; rfl
  · intro hc; subst hc; rfl
  · intro hc; subst hc; rfl
  · intro _ _ _ a1 a2 a3 a4
    simp only [html_encoded, if_neg a1, if_neg a2, if_neg a3, if_neg a4]

/-- The text that the decoding reads back as a character has no `<` and no `>`. -/
theorem html_encoded_no_angle (c : Char) : '<' ∉ html_encoded c ∧ '>' ∉ html_encoded c := by
  unfold html_encoded
  split_ifs with a1 a2 a3 a4
  · decide
  · decide
  · decide
  · decide
  · simp only [List.mem_singleton]
    exact ⟨fun hc => a2 hc.symm, fun hc => a3 hc.symm⟩

/-- A pass of the HTML loop at a character that is not a tab, a carriage return or a line
feed: it appends the start of a span, if it opens one, and the text that the decoding
reads back as the character. -/
theorem html_iteration_encoded (h : Host) (s : Locals)
    (hst : get_style_at h s.i ≤ h.STYLE_MAX)
    (h1 : get_char_at h s.i ≠ '\t') (h2 : get_char_at h s.i ≠ '\r')
    (h3 : get_char_at h s.i ≠ '\n') :
    ∃ s', html_iteration h s = some s' ∧ s'.i = s.i + 1 ∧
      s'.body = s.body ++ (if (get_style_at h s.i ≠ s.old_style ∨ s.block_open = false) ∧
          isspace (get_char_at h s.i) = false then
        html_span_start s.block_open (get_style_at h s.i) else []) ++
        html_encoded (get_char_at h s.i) := by
  unfold html_iteration
  simp only [html_switch_encoded _ _ _ _ _ h1 h2 h3, Option.map_some', if_pos hst]
  split_ifs
  · exact ⟨_, rfl, rfl, rfl⟩
  · exact ⟨_, rfl, rfl, by simp⟩

/-- The HTML loop runs to the end of the document when every pass from an index below
the length is defined. -/
theorem html_loop_finishes_of (h : Host)
    (hdef : ∀ s, s.i < get_length h → ∃ s', html_iteration h s = some s') :
    ∀ fuel s, ∃ s', html_loop h fuel s = some s' ∧
      (get_length h - s.i ≤ fuel → get_length h ≤ s'.i) := by
  intro fuel
  induction fuel with
  | zero => intro s; exact ⟨s, rfl, by omega⟩
  | succ fuel ih =>
    intro s
    unfold html_loop
    split_ifs with hi
    · obtain ⟨s1, h1⟩ := hdef s hi
      have hadv := html_iteration_advances h s s1 h1
      obtain ⟨s', h2, hfin⟩ := ih s1
      rw [h1]
      exact ⟨s', h2, fun hf => hfin (by omega)⟩
    · exact ⟨s, rfl, fun _ => by omega⟩

/-- The characters of the document before the offset `i + 1` are those before `i` and the
character at `i`. -/
theorem text_take_succ (h : Host) (i : Nat) (hi : i < get_length h) :
    (h.text.take (i + 1)).map Prod.fst = (h.text.take i).map Prod.fst ++ [get_char_at h i] := by
  have hget : h.text[i]? = some (h.text.get ⟨i, hi⟩) := List.getElem?_eq_getElem hi
  rw [List.take_succ, List.map_append, get_char_at, List.get?_eq_getElem?, hget]
  rfl

/-- The invariant of the HTML loop on a document without tab, carriage return and line
feed: with the markers removed, the body followed by any text is the encoded text of the
characters read followed by that text with its markers removed. -/
theorem html_loop_strip (h : Host) (t : Styles)
    (hchars : ∀ p ∈ h.text, p.1 ≠ '\t' ∧ p.1 ≠ '\r' ∧ p.1 ≠ '\n')
    (fuel : Nat) (s : Locals) (hs : html_loop h fuel (loop_start t) = some s) :
    ∀ rest, html_strip_scan (s.body ++ rest) 0 =
      (((h.text.take s.i).map Prod.fst).map html_encoded).flatten ++
        html_strip_scan rest 0 := by
  refine html_loop_invariant h (fun s => ∀ rest, html_strip_scan (s.body ++ rest) 0 =
      (((h.text.take s.i).map Prod.fst).map html_encoded).flatten ++
        html_strip_scan rest 0) ?_ fuel (loop_start t) s (fun rest => rfl) hs
  intro s s' hi hP hit rest
  have hmem := text_mem h s.i hi
  obtain ⟨c1, c2, c3⟩ := hchars _ hmem
  obtain ⟨p, _, _, hst⟩ := html_iteration_eq h s s' hit
  unfold html_iteration at hit
  simp only [html_switch_encoded _ _ _ _ _ c1 c2 c3, Option.map_some'] at hit
  by_cases hb : (get_style_at h s.i ≠ s.old_style ∨ s.block_open = false) ∧
      isspace (get_char_at h s.i) = false
  · rw [if_pos hb, if_pos (hst hb)] at hit
    simp only [Option.some.injEq] at hit
    subst hit
    simp only
    rw [List.append_assoc, List.append_assoc, hP, html_strip_scan_span_start,
      html_strip_scan_plain _ _ (html_encoded_no_angle _).1, text_take_succ h s.i hi]
    simp [List.append_assoc]
  · rw [if_neg hb] at hit
    simp only [Option.some.injEq] at hit
    subst hit
    simp only
    rw [List.append_assoc, hP,
      html_strip_scan_plain _ _ (html_encoded_no_angle _).1, text_take_succ h s.i hi]
    simp [List.append_assoc]

/-- A text that does not start with `&` does not start with an entity. -/
theorem html_entity_ne (c : Char) (l : List Char) (hc : c ≠ '&') :
    html_entity (c :: l) = none := by
  have hb : ('&' == c) = false := by simpa using fun h => hc h.symm
  have e1 : "&nbsp;".toList = '&' :: "nbsp;".toList := rfl
  have e2 : "&lt;".toList = '&' :: "lt;".toList := rfl
  have e3 : "&gt;".toList = '&' :: "gt;".toList := rfl
  have e4 : "&amp;".toList = '&' :: "amp;".toList := rfl
  unfold html_entity
  rw [e1, e2, e3, e4]
  simp only [List.isPrefixOf, hb, Bool.false_and, Bool.false_eq_true, if_false]

/-- The decoding reads the encoded text of a character back as the character. -/
theorem html_decode_scan_encoded (c : Char) (rest : List Char) :
    html_decode_scan (html_encoded c ++ rest) 0 = c :: html_decode_scan rest 0 := by
  unfold html_encoded
  split_ifs with a1 a2 a3 a4
  · subst a1
    have he : html_entity ("&nbsp;".toList ++ rest) = some (' ', 6) := by
      have hp : "&nbsp;".toList.isPrefixOf ("&nbsp;".toList ++ rest) = true := by
        exact isPrefixOf_append_self _ _
      unfold html_entity
      rw [if_pos hp]
    show html_decode_scan ('&' :: ("nbsp;".toList ++ rest)) 0 = _
    rw [html_decode_scan]
    show (match html_entity ("&nbsp;".toList ++ rest) with
      | some (d, n) => d :: html_decode_scan ("nbsp;".toList ++ rest) (n - 1)
      | none => '&' :: html_decode_scan ("nbsp;".toList ++ rest) 0) = _
    rw [he]
    rfl
  · subst a2
    have he : html_entity ("&lt;".toList ++ rest) = some ('<', 4) := by
      have hp : "&lt;".toList.isPrefixOf ("&lt;".toList ++ rest) = true := by
        exact isPrefixOf_append_self _ _
      have hq : "&nbsp;".toList.isPrefixOf ("&lt;".toList ++ rest) = false := rfl
      unfold html_entity
      rw [hq, if_pos hp]
      rfl
    show html_decode_scan ('&' :: ("lt;".toList ++ rest)) 0 = _
    rw [html_decode_scan]
    show (match html_entity ("&lt;".toList ++ rest) with
      | some (d, n) => d :: html_decode_scan ("lt;".toList ++ rest) (n - 1)
      | none => '&' :: html_decode_scan ("lt;".toList ++ rest) 0) = _
    rw [he]
    rfl
  · subst a3
    have he : html_entity ("&gt;".toList ++ rest) = some ('>', 4) := by
      have hp : "&gt;".toList.isPrefixOf ("&gt;".toList ++ rest) = true := by
        exact isPrefixOf_append_self _ _
      have hq1 : "&nbsp;".toList.isPrefixOf ("&gt;".toList ++ rest) = false := rfl
      have hq2 : "&lt;".toList.isPrefixOf ("&gt;".toList ++ rest) = false := rfl
      unfold html_entity
      rw [hq1, hq2, if_pos hp]
      rfl
    show html_decode_scan ('&' :: ("gt;".toList ++ rest)) 0 = _
    rw [html_decode_scan]
    show (match html_entity ("&gt;".toList ++ rest) with
      | some (d, n) => d :: html_decode_scan ("gt;".toList ++ rest) (n - 1)
      | none => '&' :: html_decode_scan ("gt;".toList ++ rest) 0) = _
    rw [he]
    rfl
  · subst a4
    have he : html_entity ("&amp;".toList ++ rest) = some ('&', 5) := by
      have hp : "&amp;".toList.isPrefixOf ("&amp;".toList ++ rest) = true := by
        exact isPrefixOf_append_self _ _
      have hq1 : "&nbsp;".toList.isPrefixOf ("&amp;".toList ++ rest) = false := rfl
      have hq2 : "&lt;".toList.isPrefixOf ("&amp;".toList ++ rest) = false := rfl
      have hq3 : "&gt;".toList.isPrefixOf ("&amp;".toList ++ rest) = false := rfl
      unfold html_entity
      rw [hq1, hq2, hq3, if_pos hp]
      rfl
    show html_decode_scan ('&' :: ("amp;".toList ++ rest)) 0 = _
    rw [html_decode_scan]
    show (match html_entity ("&amp;".toList ++ rest) with
      | some (d, n) => d :: html_decode_scan ("amp;".toList ++ rest) (n - 1)
      | none => '&' :: html_decode_scan ("amp;".toList ++ rest) 0) = _
    rw [he]
    rfl
  · rw [List.singleton_append, html_decode_scan, html_entity_ne c rest a4]

/-- The decoding reads the encoded text of a list of characters back as the list. -/
theorem html_decode_scan_text (l rest : List Char) :
    html_decode_scan ((l.map html_encoded).flatten ++ rest) 0 =
      l ++ html_decode_scan rest 0 := by
  induction l with
  | nil => rfl
  | cons c l ih =>
    rw [List.map_cons, List.flatten_cons, List.append_assoc, html_decode_scan_encoded, ih,
      List.cons_append]

/-- C22: for a document without tab, carriage return, line feed and NUL, with styles that
are rows of the table and a table that holds `style_max` rows, whatever the tab width
is, the body that `write_html_file` produces, with every marker `<span class="style_N">`
and `</span>` removed and the entities `&nbsp;`, `&lt;`, `&gt;`, `&amp;` then decoded in
one pass from the left, is the text of the document; with the markers removed the body
has no `<` and no `>`, so that every `<` and `>` of the body belongs to a marker. -/
theorem C22_html_round_trip (h : Host) (use_zoom : Bool)
    (hcap : style_max h ≤ h.STYLE_MAX + 1) (hsty : ∀ p ∈ h.text, p.2 ≤ h.STYLE_MAX)
    (hchars : ∀ p ∈ h.text, p.1 ≠ '\t' ∧ p.1 ≠ '\r' ∧ p.1 ≠ '\n' ∧ p.1 ≠ Char.ofNat 0) :
    ∃ e, html_export h use_zoom = some e ∧
      html_decode_scan (html_strip_scan e.body 0) 0 = h.text.map Prod.fst ∧
      '<' ∉ html_strip_scan e.body 0 ∧ '>' ∉ html_strip_scan e.body 0 := by
  have hchars' : ∀ p ∈ h.text, p.1 ≠ '\t' ∧ p.1 ≠ '\r' ∧ p.1 ≠ '\n' :=
    fun p hp => ⟨(hchars p hp).1, (hchars p hp).2.1, (hchars p hp).2.2.1⟩
  obtain ⟨t, ht, _, _⟩ := html_read_styles_spec h (style_max h) hcap
  have hdef : ∀ s, s.i < get_length h → ∃ s', html_iteration h s = some s' := by
    intro s hi
    have hmem := text_mem h s.i hi
    obtain ⟨c1, c2, c3⟩ := hchars' _ hmem
    obtain ⟨s', hs', _⟩ := html_iteration_encoded h s (hsty _ hmem) c1 c2 c3
    exact ⟨s', hs'⟩
  obtain ⟨s, hs, hfin⟩ := html_loop_finishes_of h hdef (get_length h) (loop_start t)
  have hlen : get_length h ≤ s.i := hfin (by simp [loop_start])
  obtain ⟨e, he, hbody, _⟩ := html_export_of_loop h use_zoom t s ht hs hlen
  have hstrip : html_strip_scan e.body 0 = ((h.text.map Prod.fst).map html_encoded).flatten := by
    have := html_loop_strip h t hchars' _ s hs (if s.block_open then "</span>".toList else [])
    rw [hbody, this, List.take_of_length_le hlen]
    cases s.block_open
    · simp [html_strip_scan]
    · have hclose : html_strip_scan ("</span>".toList) 0 = [] := by decide
      rw [if_pos rfl, hclose, List.append_nil]
  refine ⟨e, he, ?_, ?_, ?_⟩
  · have := html_decode_scan_text (h.text.map Prod.fst) []
    rw [List.append_nil] at this
    rw [hstrip, this]
    simp [html_decode_scan]
  · rw [hstrip]
    simp only [List.mem_flatten, List.mem_map, not_exists, not_and]
    rintro l ⟨c, _, rfl⟩
    exact (html_encoded_no_angle c).1
  · rw [hstrip]
    simp only [List.mem_flatten, List.mem_map, not_exists, not_and]
    rintro l ⟨c, _, rfl⟩
    exact (html_encoded_no_angle c).2

/-- C22 at the sample host with the document "a", `<`, a space of another style, `&`: the
body holds one span and three entities and reads back as the document. -/
theorem C22_witness :
    ∃ e, html_export (sample_host [('a', 0), ('<', 0), (' ', 1), ('&', 1)]) false = some e ∧
      e.body = "<span class=\"style_0\">a&lt;&nbsp;</span><span class=\"style_1\">&amp;</span>".toList ∧
      html_strip_scan e.body 0 = "a&lt;&nbsp;&amp;".toList ∧
      html_decode_scan (html_strip_scan e.body 0) 0 = "a< &".toList := by
  obtain ⟨e, he, h1, _⟩ := C22_html_round_trip
    (sample_host [('a', 0), ('<', 0), (' ', 1), ('&', 1)]) false (by decide) (by decide)
    (by decide)
  have hd : (html_export (sample_host [('a', 0), ('<', 0), (' ', 1), ('&', 1)]) false).map
      (fun e => e.body) = some
      "<span class=\"style_0\">a&lt;&nbsp;</span><span class=\"style_1\">&amp;</span>".toList := by
    decide
  rw [he] at hd
  have hb : e.body =
      "<span class=\"style_0\">a&lt;&nbsp;</span><span class=\"style_1\">&amp;</span>".toList :=
    Option.some.inj hd
  refine ⟨e, he, hb, ?_, h1⟩
  rw [hb]
  decide

/-! ## The markers of the body and the style definitions (C21) -/

/-- The scan for tokens passes the characters that `skip` counts. -/
theorem tokens_scan_skip (token : List Char → Option (List Char)) (ov : Nat)
    (x rest : List Char) (k : Nat) :
    tokens_scan token ov (x ++ rest) (x.length + k) = tokens_scan token ov rest k := by
  induction x with
  | nil => simp
  | cons c x ih =>
    rw [List.cons_append, List.length_cons, Nat.add_right_comm, tokens_scan, ih]

/-- The scan for tokens passes a character at which no marker starts. -/
theorem tokens_scan_cons (token : List Char → Option (List Char)) (ov : Nat)
    (c : Char) (rest : List Char) (hc : token (c :: rest) = none) :
    tokens_scan token ov (c :: rest) 0 = tokens_scan token ov rest 0 := by
  rw [tokens_scan, hc]

/-- The scan for tokens passes a text at whose characters no marker starts. -/
theorem tokens_scan_plain (token : List Char → Option (List Char)) (ov : Nat)
    (x rest : List Char) (hx : ∀ c ∈ x, ∀ r, token (c :: r) = none) :
    tokens_scan token ov (x ++ rest) 0 = tokens_scan token ov rest 0 := by
  induction x with
  | nil => rfl
  | cons c x ih =>
    rw [List.cons_append, tokens_scan_cons _ _ _ _ (hx c (List.mem_cons_self _ _) _)]
    exact ih (fun c hc => hx c (List.mem_cons_of_mem _ hc))

/-- The scan for tokens records the token of a marker that stands at the head of the text
and passes the marker. -/
theorem tokens_scan_marker (token : List Char → Option (List Char)) (ov : Nat)
    (m rest tk : List Char) (htk : token (m ++ rest) = some tk)
    (hlen : m.length = ov + tk.length + 1) :
    tokens_scan token ov (m ++ rest) 0 = tk :: tokens_scan token ov rest 0 := by
  cases m with
  | nil => simp at hlen
  | cons c m =>
    rw [List.cons_append] at htk ⊢
    rw [tokens_scan, htk]
    have hm : m.length = ov + tk.length := by simpa using hlen
    have := tokens_scan_skip token ov m rest 0
    rw [Nat.add_zero, hm] at this
    simp only [this]

/-- A text whose second character is not `s` does not start with an opening marker of
HTML. -/
theorem html_open_token_second (c d : Char) (l : List Char) (hd : d ≠ 's') :
    html_open_token (c :: d :: l) = none := by
  have e : HTML_SPAN_HEAD = '<' :: 's' :: "pan class=\"style_".toList := rfl
  have hb : ('s' == d) = false := by simpa using fun h => hd h.symm
  unfold html_open_token
  rw [e, List.isPrefixOf, List.isPrefixOf, hb, Bool.false_and, Bool.and_false]
  rfl

/-- The scan for the tokens of HTML passes a text without `<`. -/
theorem html_tokens_plain (x rest : List Char) (hx : '<' ∉ x) :
    tokens_scan html_open_token (HTML_SPAN_HEAD.length + 1) (x ++ rest) 0 =
      tokens_scan html_open_token (HTML_SPAN_HEAD.length + 1) rest 0 := by
  apply tokens_scan_plain
  intro c hc r
  exact html_open_token_ne c r (fun h => hx (h ▸ hc))

/-- The scan for the tokens of HTML records the token of the text that starts a span. -/
theorem html_tokens_span_start (op : Bool) (st : Nat) (rest : List Char) :
    tokens_scan html_open_token (HTML_SPAN_HEAD.length + 1) (html_span_start op st ++ rest) 0 =
      fmt_d (st : Int) :: tokens_scan html_open_token (HTML_SPAN_HEAD.length + 1) rest 0 := by
  obtain ⟨hd, hne⟩ := fmt_d_nat_digits st
  have hopen : tokens_scan html_open_token (HTML_SPAN_HEAD.length + 1)
      ((HTML_SPAN_HEAD ++ (fmt_d (st : Int) ++ ['"', '>'])) ++ rest) 0 =
      fmt_d (st : Int) :: tokens_scan html_open_token (HTML_SPAN_HEAD.length + 1) rest 0 := by
    apply tokens_scan_marker
    · have := html_open_token_marker (fmt_d (st : Int)) rest hd hne
      simpa [List.append_assoc] using this
    · simp only [List.length_append, List.length_cons, List.length_nil]
      omega
  have hclose : ∀ r, tokens_scan html_open_token (HTML_SPAN_HEAD.length + 1)
      (HTML_SPAN_CLOSE ++ r) 0 = tokens_scan html_open_token (HTML_SPAN_HEAD.length + 1) r 0 := by
    intro r
    have e : HTML_SPAN_CLOSE ++ r = '<' :: '/' :: ("span>".toList ++ r) := rfl
    rw [e, tokens_scan_cons _ _ _ _ (html_open_token_second _ _ _ (by decide)),
      tokens_scan_cons _ _ _ _ (html_open_token_ne _ _ (by decide)),
      html_tokens_plain _ _ (by decide)]
  rw [html_span_start_markers]
  cases op
  · simpa using hopen
  · rw [if_pos rfl, hclose]
    exact hopen

/-- The text that the `switch` of `write_html_file` appends holds no opening marker. -/
theorem html_switch_no_token (tw col : Int) (op : Bool) (c cn : Char) :
    ∀ p, html_switch tw col op c cn = some p → ∀ rest,
      tokens_scan html_open_token (HTML_SPAN_HEAD.length + 1) (p.out ++ rest) 0 =
        tokens_scan html_open_token (HTML_SPAN_HEAD.length + 1) rest 0 := by
  have hbr : ∀ r, tokens_scan html_open_token (HTML_SPAN_HEAD.length + 1)
      ("<br />\n".toList ++ r) 0 =
      tokens_scan html_open_token (HTML_SPAN_HEAD.length + 1) r 0 := by
    intro r
    have e : "<br />\n".toList ++ r = '<' :: 'b' :: ("r />\n".toList ++ r) := rfl
    rw [e, tokens_scan_cons _ _ _ _ (html_open_token_second _ _ _ (by decide)),
      tokens_scan_cons _ _ _ _ (html_open_token_ne _ _ (by decide)),
      html_tokens_plain _ _ (by decide)]
  have hclose : ∀ r, tokens_scan html_open_token (HTML_SPAN_HEAD.length + 1)
      ("</span>".toList ++ r) 0 =
      tokens_scan html_open_token (HTML_SPAN_HEAD.length + 1) r 0 := by
    intro r
    have e : "</span>".toList ++ r = '<' :: '/' :: ("span>".toList ++ r) := rfl
    rw [e, tokens_scan_cons _ _ _ _ (html_open_token_second _ _ _ (by decide)),
      tokens_scan_cons _ _ _ _ (html_open_token_ne _ _ (by decide)),
      html_tokens_plain _ _ (by decide)]
  apply html_switch_elim (motive := fun r => ∀ p, r = some p → ∀ rest,
      tokens_scan html_open_token (HTML_SPAN_HEAD.length + 1) (p.out ++ rest) 0 =
        tokens_scan html_open_token (HTML_SPAN_HEAD.length + 1) rest 0) tw col op c cn
  · intro _ _ p hp rest
    cases hp
    rfl
  · intro _ _ p hp rest
    cases hp
    cases op
    · exact hbr rest
    · simp only [if_true, List.append_assoc]
      rw [hclose, hbr]
  · intro _ _ p hp
    cases hp
  · intro _ _ p hp rest
    cases hp
    apply html_tokens_plain
    unfold html_tab
    simp only [List.mem_flatten, List.mem_replicate, not_exists, not_and]
    rintro l ⟨_, rfl⟩
    decide
  · intro _ p hp rest
    cases hp
    exact html_tokens_plain _ _ (by dsimp only; decide)
  · intro _ p hp rest
    cases hp
    exact html_tokens_plain _ _ (by dsimp only; decide)
  · intro _ p hp rest
    cases hp
    exact html_tokens_plain _ _ (by dsimp only; decide)
  · intro _ p hp rest
    cases hp
    exact html_tokens_plain _ _ (by dsimp only; decide)
  · intro _ _ _ _ hlt _ _ p hp rest
    cases hp
    exact html_tokens_plain _ _ (by simpa using fun h => hlt h.symm)

/-- The invariant of the HTML loop behind C21: the tokens of the opening markers of the
body are the numbers of styles whose `USED` cell is set and that are rows of the table. -/
theorem html_loop_tokens (h : Host) (t : Styles) (fuel : Nat) (s : Locals)
    (hs : html_loop h fuel (loop_start t) = some s) :
    ∃ rows : List Nat, (∀ rest, tokens_scan html_open_token (HTML_SPAN_HEAD.length + 1)
        (s.body ++ rest) 0 = rows.map (fun (st : Nat) => fmt_d (st : Int)) ++
          tokens_scan html_open_token (HTML_SPAN_HEAD.length + 1) rest 0) ∧
      ∀ st ∈ rows, st ≤ h.STYLE_MAX ∧ s.styles st USED ≠ 0 := by
  refine html_loop_invariant h (fun s => ∃ rows : List Nat,
      (∀ rest, tokens_scan html_open_token (HTML_SPAN_HEAD.length + 1)
        (s.body ++ rest) 0 = rows.map (fun (st : Nat) => fmt_d (st : Int)) ++
          tokens_scan html_open_token (HTML_SPAN_HEAD.length + 1) rest 0) ∧
      ∀ st ∈ rows, st ≤ h.STYLE_MAX ∧ s.styles st USED ≠ 0) ?_ fuel (loop_start t) s
    ⟨[], fun rest => rfl, fun st hst => absurd hst (List.not_mem_nil st)⟩ hs
  rintro s s' _ ⟨rows, hscan, hused⟩ hit
  obtain ⟨p, hp, heq, hst⟩ := html_iteration_eq h s s' hit
  by_cases hb : (get_style_at h s.i ≠ s.old_style ∨ s.block_open = false) ∧
      isspace (get_char_at h s.i) = false
  · rw [if_pos hb] at heq hp
    refine ⟨rows ++ [get_style_at h s.i], ?_, ?_⟩
    · intro rest
      rw [heq]
      simp only
      rw [List.append_assoc, List.append_assoc, hscan, html_tokens_span_start,
        html_switch_no_token _ _ _ _ _ p hp]
      simp
    · intro st hmem
      rw [heq]
      simp only
      rcases List.mem_append.mp hmem with hm | hm
      · exact ⟨(hused st hm).1, Styles.set_used_ne_zero _ _ _ (hused st hm).2⟩
      · rw [List.mem_singleton] at hm
        subst hm
        exact ⟨hst hb, by simp [Styles.set_apply]⟩
  · rw [if_neg hb] at heq hp
    refine ⟨rows, ?_, ?_⟩
    · intro rest
      rw [heq]
      simp only
      rw [List.append_assoc, hscan, html_switch_no_token _ _ _ _ _ p hp]
    · intro st hmem
      rw [heq]
      exact hused st hmem

/-- The text of `dec_digits` denotes the number it was made from. -/
theorem dec_value_dec_digits (fuel n : Nat) (hf : n < fuel) :
    dec_value (dec_digits fuel n) = n := by
  have hd : ∀ d, d < 10 → (Char.ofNat (d + 48)).toNat - 48 = d := by decide
  induction fuel generalizing n with
  | zero => omega
  | succ fuel ih =>
    unfold dec_digits
    by_cases h10 : n < 10
    · rw [if_pos h10]
      simp only [dec_value, List.foldl_cons, List.foldl_nil, Nat.mul_zero, Nat.zero_add]
      exact hd n h10
    · rw [if_neg h10]
      have := ih (n / 10) (by omega)
      unfold dec_value at this ⊢
      rw [List.foldl_append, this]
      simp only [List.foldl_cons, List.foldl_nil]
      rw [hd (n % 10) (Nat.mod_lt _ (by norm_num))]
      omega

/-- Different style numbers are printed differently by `%d`. -/
theorem fmt_d_nat_injective (m n : Nat) (heq : fmt_d (m : Int) = fmt_d (n : Int)) :
    m = n := by
  have key : ∀ k : Nat, dec_value (fmt_d (k : Int)) = k := by
    intro k
    have hneg : ¬ ((k : Int) < 0) := by omega
    unfold fmt_d
    rw [if_neg hneg]
    simp only [Int.toNat_ofNat]
    exact dec_value_dec_digits _ _ (Nat.lt_succ_self k)
  rw [← key m, ← key n, heq]

/-- Different style numbers have different tokens `get_tex_style`. -/
theorem get_tex_style_injective (m n : Nat) (heq : get_tex_style m = get_tex_style n) :
    m = n := by
  have hlt : ∀ k, ∀ d ∈ (if k = 0 then [0] else Nat.digits 26 k), d < 26 := by
    intro k d hd
    by_cases hk : k = 0
    · rw [if_pos hk] at hd
      simp only [List.mem_singleton] at hd
      omega
    · rw [if_neg hk] at hd
      exact Nat.digits_lt_base (by norm_num) hd
  unfold get_tex_style at heq
  rw [get_tex_style_loop_eq_digits _ _ (Nat.lt_succ_self m),
    get_tex_style_loop_eq_digits _ _ (Nat.lt_succ_self n)] at heq
  exact style_digits_injective m n (style_letters_injective _ _ (hlt m) (hlt n) heq)

/-- Among the rows for which a definition is written, exactly one has the token of a
given row whose `USED` cell is set, when different rows have different tokens. -/
theorem defined_rows_unique (h : Host) (styles : Styles) (name : Nat → List Char)
    (hinj : ∀ m n, name m = name n → m = n) (i : Nat) (hi : i ≤ h.STYLE_MAX)
    (hused : styles i USED ≠ 0) :
    (defined_rows h styles).filter (fun j => decide (name j = name i)) = [i] := by
  have hmem : i ∈ defined_rows h styles := by
    unfold defined_rows
    rw [List.mem_filter, List.mem_range]
    exact ⟨by omega, by simpa using hused⟩
  have hnd : (defined_rows h styles).Nodup := (List.nodup_range _).filter _
  have hcongr : (defined_rows h styles).filter (fun j => decide (name j = name i)) =
      (defined_rows h styles).filter (fun j => decide (j = i)) := by
    apply List.filter_congr
    intro j _
    by_cases hj : j = i
    · simp [hj]
    · have : name j ≠ name i := fun hn => hj (hinj j i hn)
      simp [hj, this]
  rw [hcongr, List.filter_eq, List.count_eq_one_of_mem hnd hmem]
  rfl

/-- A text that does not start with a backslash does not start with an opening marker of
LaTeX. -/
theorem latex_open_token_ne (c : Char) (l : List Char) (hc : c ≠ '\\') :
    latex_open_token (c :: l) = none := by
  have e : LATEX_BLOCK_HEAD = '\\' :: "style".toList := rfl
  have hb : ('\\' == c) = false := by simpa using fun h => hc h.symm
  unfold latex_open_token
  rw [e, List.isPrefixOf, hb, Bool.false_and]
  rfl

/-- A text whose second character is not `s` does not start with an opening marker of
LaTeX. -/
theorem latex_open_token_second (c d : Char) (l : List Char) (hd : d ≠ 's') :
    latex_open_token (c :: d :: l) = none := by
  have e : LATEX_BLOCK_HEAD = '\\' :: 's' :: "tyle".toList := rfl
  have hb : ('s' == d) = false := by simpa using fun h => hd h.symm
  unfold latex_open_token
  rw [e, List.isPrefixOf, List.isPrefixOf, hb, Bool.false_and, Bool.and_false]
  rfl

/-- A text whose third character is not `t` does not start with an opening marker of
LaTeX. -/
theorem latex_open_token_third (c d e : Char) (l : List Char) (he : e ≠ 't') :
    latex_open_token (c :: d :: e :: l) = none := by
  have e1 : LATEX_BLOCK_HEAD = '\\' :: 's' :: 't' :: "yle".toList := rfl
  have hb : ('t' == e) = false := by simpa using fun h => he h.symm
  unfold latex_open_token
  rw [e1, List.isPrefixOf, List.isPrefixOf, List.isPrefixOf, hb, Bool.false_and,
    Bool.and_false, Bool.and_false]
  rfl

/-- The longest prefix of lower case letters of a text of such letters followed by a
character that is not one is that text. -/
theorem takeWhile_letters (x : List Char) (y : Char) (r : List Char)
    (hx : ∀ c ∈ x, c.isLower = true) (hy : y.isLower = false) :
    (x ++ y :: r).takeWhile Char.isLower = x := by
  induction x with
  | nil => simp [List.takeWhile, hy]
  | cons c x ih =>
    rw [List.cons_append, List.takeWhile_cons, if_pos (hx c (List.mem_cons_self _ _)),
      ih (fun c hc => hx c (List.mem_cons_of_mem _ hc))]

/-- The token of an opening marker of LaTeX that stands at the head of a text. -/
theorem latex_open_token_marker (letters rest : List Char)
    (hl : ∀ c ∈ letters, c.isLower = true) (hne : letters ≠ []) :
    latex_open_token (LATEX_BLOCK_HEAD ++ (letters ++ '{' :: rest)) = some letters := by
  have hp : LATEX_BLOCK_HEAD.isPrefixOf (LATEX_BLOCK_HEAD ++ (letters ++ '{' :: rest)) =
      true := by
    exact isPrefixOf_append_self _ _
  have htw : ((LATEX_BLOCK_HEAD ++ (letters ++ '{' :: rest)).drop
      LATEX_BLOCK_HEAD.length).takeWhile Char.isLower = letters := by
    rw [List.drop_left, takeWhile_letters _ _ _ hl (by decide)]
  have hdrop : (LATEX_BLOCK_HEAD ++ (letters ++ '{' :: rest)).drop
      (LATEX_BLOCK_HEAD.length + letters.length) = '{' :: rest := by
    rw [← List.append_assoc, ← List.length_append, List.drop_left]
  have hq : ['{'].isPrefixOf ('{' :: rest) = true := by
    exact isPrefixOf_append_self ['{'] rest
  unfold latex_open_token
  rw [if_pos hp, htw, hdrop, if_pos ⟨hne, hq⟩]

/-- The scan for the tokens of LaTeX passes a text without backslash. -/
theorem latex_tokens_plain (x rest : List Char) (hx : '\\' ∉ x) :
    tokens_scan latex_open_token LATEX_BLOCK_HEAD.length (x ++ rest) 0 =
      tokens_scan latex_open_token LATEX_BLOCK_HEAD.length rest 0 := by
  apply tokens_scan_plain
  intro c hc r
  exact latex_open_token_ne c r (fun h => hx (h ▸ hc))

/-- The scan for the tokens of LaTeX passes a backslash that is followed by a character
other than `s` and a backslash. -/
theorem latex_tokens_escape (d : Char) (rest : List Char) (hd : d ≠ 's' ∧ d ≠ '\\') :
    tokens_scan latex_open_token LATEX_BLOCK_HEAD.length ('\\' :: d :: rest) 0 =
      tokens_scan latex_open_token LATEX_BLOCK_HEAD.length rest 0 := by
  rw [tokens_scan_cons _ _ _ _ (latex_open_token_second _ _ _ hd.1),
    tokens_scan_cons _ _ _ _ (latex_open_token_ne _ _ hd.2)]

/-- The scan for the tokens of LaTeX records the token of the text that starts a block. -/
theorem latex_tokens_block_start (op : Bool) (st : Nat) (rest : List Char) :
    tokens_scan latex_open_token LATEX_BLOCK_HEAD.length (latex_block_start op st ++ rest) 0 =
      get_tex_style st :: tokens_scan latex_open_token LATEX_BLOCK_HEAD.length rest 0 := by
  have hne : get_tex_style st ≠ [] := by
    unfold get_tex_style get_tex_style_loop
    simp only
    split_ifs <;> simp
  have hopen : tokens_scan latex_open_token LATEX_BLOCK_HEAD.length
      ((LATEX_BLOCK_HEAD ++ (get_tex_style st ++ ['{'])) ++ rest) 0 =
      get_tex_style st :: tokens_scan latex_open_token LATEX_BLOCK_HEAD.length rest 0 := by
    apply tokens_scan_marker
    · have := latex_open_token_marker (get_tex_style st) rest (get_tex_style_isLower st) hne
      simpa [List.append_assoc] using this
    · simp only [List.length_append, List.length_cons, List.length_nil]
      omega
  have e : latex_block_start op st ++ rest = (if op then ['}', '\n'] else []) ++
      ((LATEX_BLOCK_HEAD ++ (get_tex_style st ++ ['{'])) ++ rest) := by
    cases op <;> simp [latex_block_start, LATEX_BLOCK_HEAD, List.append_assoc]
  rw [e]
  cases op
  · simpa using hopen
  · rw [if_pos rfl, latex_tokens_plain _ _ (by decide)]
    exact hopen

/-- The text that the `switch` of `write_latex_file` appends holds no opening marker. -/
theorem latex_switch_no_token (tw col : Int) (op : Bool) (c cn : Char) :
    ∀ p, latex_switch tw col op c cn = some p → ∀ rest,
      tokens_scan latex_open_token LATEX_BLOCK_HEAD.length (p.out ++ rest) 0 =
        tokens_scan latex_open_token LATEX_BLOCK_HEAD.length rest 0 := by
  apply latex_switch_elim (motive := fun r => ∀ p, r = some p → ∀ rest,
      tokens_scan latex_open_token LATEX_BLOCK_HEAD.length (p.out ++ rest) 0 =
        tokens_scan latex_open_token LATEX_BLOCK_HEAD.length rest 0) tw col op c cn
  case h_crlf =>
    intro _ _ p hp rest
    cases hp
    rfl
  case h_break =>
    intro _ _ p hp rest
    cases hp
    have hbr : tokens_scan latex_open_token LATEX_BLOCK_HEAD.length
        (' ' :: '\\' :: '\\' :: '\n' :: rest) 0 =
        tokens_scan latex_open_token LATEX_BLOCK_HEAD.length rest 0 := by
      rw [tokens_scan_cons _ _ _ _ (latex_open_token_ne _ _ (by decide)),
        tokens_scan_cons _ _ _ _ (latex_open_token_second _ _ _ (by decide)),
        latex_tokens_escape _ _ (by decide)]
    cases op
    · exact hbr
    · show tokens_scan _ _ ('}' :: ' ' :: '\\' :: '\\' :: '\n' :: rest) 0 = _
      rw [tokens_scan_cons _ _ _ _ (latex_open_token_ne _ _ (by decide))]
      exact hbr
  case h_tab0 =>
    intro _ _ p hp
    cases hp
  case h_tab =>
    intro _ _ p hp rest
    cases hp
    show tokens_scan _ _ ('\\' :: 'h' :: ("space*\x7b".toList ++
      fmt_d (tw - Int.tmod col tw) ++ "em\x7d".toList ++ rest)) 0 = _
    rw [latex_tokens_escape _ _ (by decide), List.append_assoc, List.append_assoc,
      latex_tokens_plain _ _ (by decide),
      latex_tokens_plain _ _ (not_mem_fmt_d _ _ (by decide) (by decide)),
      latex_tokens_plain _ _ (by decide)]
  case h_space2 =>
    intro _ _ p hp rest
    cases hp
    show tokens_scan _ _ ('{' :: '\\' :: 'h' :: ("space*\x7b1em\x7d\x7d".toList ++ rest)) 0 = _
    rw [tokens_scan_cons _ _ _ _ (latex_open_token_ne _ _ (by decide)),
      latex_tokens_escape _ _ (by decide), latex_tokens_plain _ _ (by decide)]
  case h_special =>
    intro hc p hp rest
    cases hp
    show tokens_scan _ _ ('\\' :: c :: rest) 0 = _
    apply latex_tokens_escape
    rcases hc with hc | hc | hc | hc | hc | hc | hc <;> (rw [hc]; decide)
  case h_backslash =>
    intro _ p hp rest
    cases hp
    show tokens_scan _ _ ('\\' :: 's' :: 'y' :: ("mbol\x7b92\x7d".toList ++ rest)) 0 = _
    rw [tokens_scan_cons _ _ _ _ (latex_open_token_third _ _ _ _ (by decide)),
      tokens_scan_cons _ _ _ _ (latex_open_token_ne _ _ (by decide)),
      tokens_scan_cons _ _ _ _ (latex_open_token_ne _ _ (by decide)),
      latex_tokens_plain _ _ (by decide)]
  case h_tilde =>
    intro _ p hp rest
    cases hp
    show tokens_scan _ _ ('\\' :: 's' :: 'y' :: ("mbol\x7b126\x7d".toList ++ rest)) 0 = _
    rw [tokens_scan_cons _ _ _ _ (latex_open_token_third _ _ _ _ (by decide)),
      tokens_scan_cons _ _ _ _ (latex_open_token_ne _ _ (by decide)),
      tokens_scan_cons _ _ _ _ (latex_open_token_ne _ _ (by decide)),
      latex_tokens_plain _ _ (by decide)]
  case h_caret =>
    intro _ p hp rest
    cases hp
    show tokens_scan _ _ ('\\' :: 's' :: 'y' :: ("mbol\x7b94\x7d".toList ++ rest)) 0 = _
    rw [tokens_scan_cons _ _ _ _ (latex_open_token_third _ _ _ _ (by decide)),
      tokens_scan_cons _ _ _ _ (latex_open_token_ne _ _ (by decide)),
      tokens_scan_cons _ _ _ _ (latex_open_token_ne _ _ (by decide)),
      latex_tokens_plain _ _ (by decide)]
  case h_dash2 =>
    intro _ _ p hp rest
    cases hp
    show tokens_scan _ _ ('-' :: '\\' :: '/' :: '-' :: rest) 0 = _
    rw [tokens_scan_cons _ _ _ _ (latex_open_token_ne _ _ (by decide)),
      latex_tokens_escape _ _ (by decide),
      tokens_scan_cons _ _ _ _ (latex_open_token_ne _ _ (by decide))]
  case h_lt2 =>
    intro _ _ p hp rest
    cases hp
    show tokens_scan _ _ ('<' :: '\\' :: '/' :: '<' :: rest) 0 = _
    rw [tokens_scan_cons _ _ _ _ (latex_open_token_ne _ _ (by decide)),
      latex_tokens_escape _ _ (by decide),
      tokens_scan_cons _ _ _ _ (latex_open_token_ne _ _ (by decide))]
  case h_gt2 =>
    intro _ _ p hp rest
    cases hp
    show tokens_scan _ _ ('>' :: '\\' :: '/' :: '>' :: rest) 0 = _
    rw [tokens_scan_cons _ _ _ _ (latex_open_token_ne _ _ (by decide)),
      latex_tokens_escape _ _ (by decide),
      tokens_scan_cons _ _ _ _ (latex_open_token_ne _ _ (by decide))]
  case h_plain =>
    intro _ _ _ _ _ hbs _ _ _ _ _ p hp rest
    cases hp
    exact tokens_scan_cons _ _ _ _ (latex_open_token_ne _ _ hbs)
  all_goals
    intro hc
    intros
    rename_i p hp rest
    cases hp
    exact tokens_scan_cons _ _ _ _ (latex_open_token_ne _ _ (by decide))

/-- The invariant of the LaTeX loop behind C21: the tokens of the opening markers of the
body are the tokens of styles whose `USED` cell is set and that are rows of the table. -/
theorem latex_loop_tokens (h : Host) (t : Styles) (fuel : Nat) (s : Locals)
    (hs : latex_loop h fuel (loop_start t) = some s) :
    ∃ rows : List Nat, (∀ rest, tokens_scan latex_open_token LATEX_BLOCK_HEAD.length
        (s.body ++ rest) 0 = rows.map get_tex_style ++
          tokens_scan latex_open_token LATEX_BLOCK_HEAD.length rest 0) ∧
      ∀ st ∈ rows, st ≤ h.STYLE_MAX ∧ s.styles st USED ≠ 0 := by
  refine latex_loop_invariant h (fun s => ∃ rows : List Nat,
      (∀ rest, tokens_scan latex_open_token LATEX_BLOCK_HEAD.length
        (s.body ++ rest) 0 = rows.map get_tex_style ++
          tokens_scan latex_open_token LATEX_BLOCK_HEAD.length rest 0) ∧
      ∀ st ∈ rows, st ≤ h.STYLE_MAX ∧ s.styles st USED ≠ 0) ?_ fuel (loop_start t) s
    ⟨[], fun rest => rfl, fun st hst => absurd hst (List.not_mem_nil st)⟩ hs
  rintro s s' _ ⟨rows, hscan, hused⟩ hit
  obtain ⟨p, hp, _, hbody, hstyles, _, hst⟩ := latex_iteration_parts h s s' hit
  by_cases hb : get_style_at h s.i ≠ s.old_style ∨ s.block_open = false
  · rw [if_pos hb] at hbody hstyles
    refine ⟨rows ++ [get_style_at h s.i], ?_, ?_⟩
    · intro rest
      rw [hbody, List.append_assoc, List.append_assoc, hscan, latex_tokens_block_start,
        latex_switch_no_token _ _ _ _ _ p hp]
      simp
    · intro st hmem
      rw [hstyles]
      rcases List.mem_append.mp hmem with hm | hm
      · exact ⟨(hused st hm).1, Styles.set_used_ne_zero _ _ _ (hused st hm).2⟩
      · rw [List.mem_singleton] at hm
        subst hm
        exact ⟨hst hb, by simp [Styles.set_apply]⟩
  · rw [if_neg hb] at hbody hstyles
    refine ⟨rows, ?_, ?_⟩
    · intro rest
      rw [hbody, List.append_nil, List.append_assoc, hscan,
        latex_switch_no_token _ _ _ _ _ p hp]
    · intro st hmem
      rw [hstyles]
      exact hused st hmem

/-- C21: with a table that holds `style_max` rows (in particular when `style_max` is the
capacity `STYLE_MAX + 1` of the table), every style of the document below `style_max`
and a non-zero tab width, both exporters produce their texts, the style definitions are
one block for each row `0` to `STYLE_MAX` whose `USED` cell is set, in that order, a
block being named with the token of its row (`.style_N`, `\newcommand{\style<token>}`),
and for every token of an opening marker of the body (`<span class="style_N">`,
`\style<token>{`) exactly one of these rows has that token. -/
theorem C21_body_definitions (h : Host) (use_zoom : Bool)
    (hcap : style_max h ≤ h.STYLE_MAX + 1) (hsty : ∀ p ∈ h.text, p.2 < style_max h)
    (htab : h.tab_width ≠ 0) :
    (∃ e, html_export h use_zoom = some e ∧
      e.defs = html_css_head h use_zoom ++
        ((defined_rows h e.styles).map (html_rule e.styles)).flatten ∧
      ∀ tk ∈ html_open_tokens e.body, ∃ i : Nat, fmt_d (i : Int) = tk ∧
        (defined_rows h e.styles).filter (fun (j : Nat) => decide (fmt_d (j : Int) = tk)) =
          [i]) ∧
    (∃ e, latex_export h = some e ∧
      e.defs = ((defined_rows h e.styles).map (latex_cmd e.styles)).flatten ∧
      ∀ tk ∈ latex_open_tokens e.body, ∃ i : Nat, get_tex_style i = tk ∧
        (defined_rows h e.styles).filter (fun (j : Nat) => decide (get_tex_style j = tk)) =
          [i]) ∧
    (∀ (styles : Styles) (j : Nat), ∃ tail, html_rule styles j =
      "\t.style_".toList ++ fmt_d (j : Int) ++ '\n' :: tail) ∧
    (∀ (styles : Styles) (j : Nat), ∃ tail, latex_cmd styles j =
      "\\newcommand\x7b\\style".toList ++ get_tex_style j ++ '}' :: tail) := by
  have hsty' := styles_in_table h hcap hsty
  refine ⟨?_, ?_, ?_, ?_⟩
  · obtain ⟨t, s, e, _, _, hs, _, he, hbody, hstyles, hdefs⟩ :=
      html_export_spec h use_zoom hcap hsty' htab
    obtain ⟨rows, hscan, hused⟩ := html_loop_tokens h t _ s hs
    refine ⟨e, he, ?_, ?_⟩
    · rw [hdefs, html_rules_eq, hstyles]
      rfl
    · intro tk htk
      have htokens : html_open_tokens e.body =
          rows.map (fun (st : Nat) => fmt_d (st : Int)) := by
        unfold html_open_tokens
        rw [hbody, hscan]
        cases s.block_open
        · simp [tokens_scan]
        · have : tokens_scan html_open_token (HTML_SPAN_HEAD.length + 1)
              "</span>".toList 0 = [] := by decide
          rw [if_pos rfl, this, List.append_nil]
      rw [htokens, List.mem_map] at htk
      obtain ⟨st, hst, rfl⟩ := htk
      obtain ⟨hle, hu⟩ := hused st hst
      rw [hstyles]
      exact ⟨st, rfl, defined_rows_unique h s.styles (fun (j : Nat) => fmt_d (j : Int))
        fmt_d_nat_injective st hle hu⟩
  · obtain ⟨t, s, e, _, _, hs, _, he, hbody, hstyles, hdefs⟩ :=
      latex_export_spec h hcap hsty' htab
    obtain ⟨rows, hscan, hused⟩ := latex_loop_tokens h t _ s hs
    refine ⟨e, he, ?_, ?_⟩
    · rw [hdefs, latex_cmds_eq, hstyles]
      rfl
    · intro tk htk
      have htokens : latex_open_tokens e.body = rows.map get_tex_style := by
        unfold latex_open_tokens
        rw [hbody, hscan]
        cases s.block_open
        · simp [tokens_scan]
        · have : tokens_scan latex_open_token LATEX_BLOCK_HEAD.length
              "\x7d\n".toList 0 = [] := by decide
          rw [if_pos rfl, this, List.append_nil]
      rw [htokens, List.mem_map] at htk
      obtain ⟨st, hst, rfl⟩ := htk
      obtain ⟨hle, hu⟩ := hused st hst
      rw [hstyles]
      exact ⟨st, rfl, defined_rows_unique h _ get_tex_style
        get_tex_style_injective st hle (Styles.set_used_ne_zero _ _ _ hu)⟩
  · intro styles j
    refine ⟨"\t\x7b\n\t\tcolor: #".toList ++ fmt_06x (styles j FORE) ++
      ";\n\t\tbackground-color: #".toList ++ fmt_06x (styles j BACK) ++ ";\n".toList ++
      (if styles j BOLD ≠ 0 then "\t\tfont-weight: bold;\n".toList else []) ++
      (if styles j ITALIC ≠ 0 then "\t\tfont-style: italic;\n".toList else []) ++
      "\t\x7d\n".toList, ?_⟩
    have e : "\n\t\x7b\n\t\tcolor: #".toList = '\n' :: "\t\x7b\n\t\tcolor: #".toList := rfl
    unfold html_rule
    rw [e]
    simp only [List.append_assoc, List.cons_append]
  · intro styles j
    refine ⟨"[1]\x7b\\noindent\x7b".toList ++
      (if styles j BOLD ≠ 0 then "\\textbf\x7b".toList else []) ++
      (if styles j ITALIC ≠ 0 then "\\textit\x7b".toList else []) ++
      "\\textcolor[rgb]\x7b".toList ++ get_tex_rgb (styles j FORE) ++ "\x7d\x7b".toList ++
      "\\fcolorbox[rgb]\x7b0, 0, 0\x7d\x7b".toList ++ get_tex_rgb (styles j BACK) ++
      "\x7d\x7b".toList ++ "#1\x7d\x7d".toList ++
      (if styles j BOLD ≠ 0 then ['}'] else []) ++
      (if styles j ITALIC ≠ 0 then ['}'] else []) ++
      "\x7d\x7d\n".toList, ?_⟩
    have e : "\x7d[1]\x7b\\noindent\x7b".toList = '}' :: "[1]\x7b\\noindent\x7b".toList := rfl
    unfold latex_cmd
    rw [e]
    simp only [List.append_assoc, List.cons_append]

set_option maxRecDepth 1000000 in
/-- C21 at the sample host with the document "a" in style 0, a space in style 1 and "b" in
style 2: the HTML body has the opening markers of the styles 0 and 2 and the rules of the
rows 0 and 2; the LaTeX body has the opening markers `a`, `b`, `c` and the definitions
of the rows 0, 1 and 2. -/
theorem C21_witness :
    (∃ e, html_export (sample_host [('a', 0), (' ', 1), ('b', 2)]) false = some e ∧
      html_open_tokens e.body = [['0'], ['2']] ∧
      defined_rows (sample_host [('a', 0), (' ', 1), ('b', 2)]) e.styles = [0, 2] ∧
      ∀ tk ∈ html_open_tokens e.body, ∃ i : Nat, fmt_d (i : Int) = tk ∧
        (defined_rows (sample_host [('a', 0), (' ', 1), ('b', 2)]) e.styles).filter
          (fun (j : Nat) => decide (fmt_d (j : Int) = tk)) = [i]) ∧
    (∃ e, latex_export (sample_host [('a', 0), (' ', 1), ('b', 2)]) = some e ∧
      latex_open_tokens e.body = [['a'], ['b'], ['c']] ∧
      defined_rows (sample_host [('a', 0), (' ', 1), ('b', 2)]) e.styles = [0, 1, 2] ∧
      ∀ tk ∈ latex_open_tokens e.body, ∃ i : Nat, get_tex_style i = tk ∧
        (defined_rows (sample_host [('a', 0), (' ', 1), ('b', 2)]) e.styles).filter
          (fun (j : Nat) => decide (get_tex_style j = tk)) = [i]) := by
  obtain ⟨⟨e1, he1, _, h1⟩, ⟨e2, he2, _, h2⟩, _⟩ := C21_body_definitions
    (sample_host [('a', 0), (' ', 1), ('b', 2)]) false (by decide) (by decide) (by decide)
  have hd1 : (html_export (sample_host [('a', 0), (' ', 1), ('b', 2)]) false).map
      (fun e => (html_open_tokens e.body,
        defined_rows (sample_host [('a', 0), (' ', 1), ('b', 2)]) e.styles)) =
      some ([['0'], ['2']], [0, 2]) := by decide
  have hd2 : (latex_export (sample_host [('a', 0), (' ', 1), ('b', 2)])).map
      (fun e => (latex_open_tokens e.body,
        defined_rows (sample_host [('a', 0), (' ', 1), ('b', 2)]) e.styles)) =
      some ([['a'], ['b'], ['c']], [0, 1, 2]) := by decide
  rw [he1] at hd1
  rw [he2] at hd2
  simp only [Option.map_some', Option.some.injEq, Prod.mk.injEq] at hd1 hd2
  exact ⟨⟨e1, he1, hd1.1, hd1.2, h1⟩, ⟨e2, he2, hd2.1, hd2.2, h2⟩⟩

end GeanyExport
